import Mathlib

/-!
# SRT broadcast audio sink (`src/srt_stream.cpp`)

A shallow embedding of the SRT output of RTLSDR-Airband and proofs about it.

Conventions of the embedding

* `size_t` / `uint64_t` values are natural numbers; where the C arithmetic can
  wrap, the reduction modulo `2 ^ 64` is written out.  `int` values are
  integers.
* `float` and `double` values are rationals and arithmetic on them is exact;
  the conversion of a floating value to an integer type truncates toward zero.
* A buffer is `Option (List _)`: `none` is the null pointer, `some l` an
  allocation holding `l`.  An access outside the allocation is reported as
  `Res.fault`.
* The transport library (libsrt) is the environment.  Every call into it is
  logged as an `Event`; its answers are inputs of the model.
* Loops whose termination depends on the environment take a `fuel` argument
  and report `Res.nofuel` when it is used up.
-/

namespace SrtStream

/-! ## Machine integers and bytes -/

/-- Conversion of an `int` to `size_t` / `uint64_t`. -/
def to_u64 (x : Int) : Nat := (x % 2 ^ 64).toNat

/-- Conversion of an `int` to `uint32_t`. -/
def to_u32 (x : Int) : Nat := (x % 2 ^ 32).toNat

/-- Conversion of an `int` to `uint16_t`. -/
def to_u16 (x : Int) : Nat := (x % 2 ^ 16).toNat

/-- Conversion of a `size_t` to `int` (two's complement, 32 bits). -/
def to_int (n : Nat) : Int :=
  if n % 2 ^ 32 < 2 ^ 31 then ((n % 2 ^ 32 : Nat) : Int) else ((n % 2 ^ 32 : Nat) : Int) - 2 ^ 32

/-- Conversion of a floating value to an integer type: the fraction is dropped. -/
def trunc (q : ℚ) : Int := if 0 ≤ q then ⌊q⌋ else ⌈q⌉

/-! ## Floating-point rounding -/

/-- The power `2 ^ e` as a rational, for an integer exponent. -/
def pow2 (e : Int) : ℚ :=
  if 0 ≤ e then ((2 ^ e.toNat : Nat) : ℚ) else 1 / ((2 ^ (-e).toNat : Nat) : ℚ)

/-- Number of halvings that bring `n` below 2, with `fuel` bounding the recursion:
`⌊log₂ n⌋` for `1 ≤ n ≤ fuel`. -/
def ilog2 : Nat → Nat → Nat
  | 0, _ => 0
  | fuel + 1, n => if n < 2 then 0 else ilog2 fuel (n / 2) + 1

/-- Binary exponent of a non-zero rational: the `e` with `2 ^ e ≤ |q| < 2 ^ (e + 1)`. -/
def exponent (q : ℚ) : Int :=
  let e0 : Int := (ilog2 q.num.natAbs q.num.natAbs : Int) - (ilog2 q.den q.den : Int)
  if pow2 e0 ≤ |q| then e0 else e0 - 1

/-- Rounding of a rational to the nearest integer, a tie going to the even one. -/
def round_even (x : ℚ) : Int :=
  let f : Int := ⌊x⌋
  if x - (f : ℚ) < 1 / 2 then f
  else if 1 / 2 < x - (f : ℚ) then f + 1
  else if f % 2 = 0 then f else f + 1

/-- The value an arithmetic operation delivers in a binary floating-point format with a
significand of `p` bits (24 for `float`, 53 for `double`) when its exact result is `q`:
the nearest representable number, a tie going to the even significand (the IEEE 754
default).  The exponent range is not bounded: overflow to infinity and the reduced
precision of subnormal numbers are left out. -/
def fl (p : Nat) (q : ℚ) : ℚ :=
  if q = 0 then 0
  else
    let u : ℚ := pow2 (exponent q - ((p : Int) - 1))
    (round_even (q / u) : ℚ) * u

/-! ## Object representations -/

/-- Object representation of a 16-bit unsigned value, little-endian. -/
def le16 (n : Nat) : List Nat := [n % 256, n / 256 % 256]

/-- Object representation of a 32-bit unsigned value, little-endian. -/
def le32 (n : Nat) : List Nat :=
  [n % 256, n / 256 % 256, n / 65536 % 256, n / 16777216 % 256]

/-- Bytes of a character string. -/
def str_bytes (cs : List Char) : List Nat := cs.map Char.toNat

/-- The call `memcpy(dst + off, src, src.length)` on a byte array. -/
def memcpy (dst : List Nat) (off : Nat) (src : List Nat) : List Nat :=
  dst.take off ++ src ++ dst.drop (off + src.length)

/-- The bytes seen through `(const char*)` of an array of `int16_t`. -/
def int16_bytes (l : List Int) : List Nat := l.flatMap (fun v => le16 (to_u16 v))

/-- Result of a model run. -/
inductive Res (α : Type) where
  | ok (a : α)
  | fault
  | nofuel
deriving DecidableEq, Repr

/-! ## Declarations taken from headers -/

/-- Modelled from the spec: the payload formats of `rtl_airband.h` (RAW, PCM, WAV and the
pre-encoded passthrough MP3); the header is not part of the sources at hand. -/
inductive srt_stream_format where
  | SRT_STREAM_RAW
  | SRT_STREAM_PCM
  | SRT_STREAM_WAV
  | SRT_STREAM_MP3
deriving DecidableEq, Repr

/-- Modelled from the spec: the channel modes of `rtl_airband.h`. -/
inductive mix_modes where
  | MM_MONO
  | MM_STEREO
deriving DecidableEq, Repr

/-- Modelled from the spec: the transport latency profiles (LIVE, and the low-latency raw
mode) of `rtl_airband.h`. -/
inductive srt_modes where
  | SRT_MODE_LIVE
  | SRT_MODE_RAW
deriving DecidableEq, Repr

open srt_stream_format mix_modes srt_modes

/-- Socket handle of libsrt. -/
abbrev SRTSOCKET := Int

/-- The invalid handle of libsrt. -/
def SRT_INVALID_SOCK : SRTSOCKET := -1

/-- Error return value of libsrt calls. -/
def SRT_ERROR : Int := -1

/-- Error code of libsrt (`SRT_ERRNO`): the send buffer is full, a non-blocking send would
block. -/
def SRT_EASYNCSND : Int := 6001

/-- Default payload size of libsrt in live mode. -/
def SRT_LIVE_DEF_PLSIZE : Int := 1316

/-- One registered client (`srt_client`). -/
structure srt_client where
  sock : SRTSOCKET
  header_sent : Bool
deriving DecidableEq, Repr

/-- The fields of `srt_stream_data` that `srt_stream.cpp` uses. -/
structure srt_stream_data where
  format : srt_stream_format
  srt_mode : srt_modes
  sample_rate : Int
  mode : mix_modes
  payload_size : Int
  listen_socket : SRTSOCKET
  clients : List srt_client
  stereo_buffer : Option (List ℚ)
  stereo_buffer_len : Nat
  pcm_buffer : Option (List Int)
  pcm_buffer_len : Nat
  resample_buffer : Option (List Int)
  resample_buffer_len : Nat
deriving DecidableEq

/-- Constants of the build that are declared outside `srt_stream.cpp`: the native sample
rate `WAVE_RATE`, and the object representation of a `float` (four bytes). -/
structure Build where
  WAVE_RATE : Int
  float_bytes : ℚ → List Nat

/-! ## The transport as environment -/

/-- Socket options set by the code. -/
inductive SockOpt where
  | SRTO_SNDSYN
  | SRTO_RCVSYN
  | SRTO_TSBPDMODE
  | SRTO_TLPKTDROP
  | SRTO_NAKREPORT
  | SRTO_LATENCY
  | SRTO_PAYLOADSIZE
deriving DecidableEq, Repr

/-- Answer of the transport to one `srt_send` as the source reads it: the return value,
and the value `srt_getlasterror(&serr)` leaves in `serr` after it.  In libsrt that
out-parameter receives the system `errno` of the failed call; the SRT error code is the
return value of `srt_getlasterror`, which line 67 discards. -/
structure SendAnswer where
  ret : Int
  serr : Int
deriving DecidableEq, Repr

/-- What libsrt's `int srt_getlasterror(int* errno_loc)` reports after a failed call: the
SRT error code, returned by the function, and the system `errno`, stored in `*errno_loc`. -/
structure SrtError where
  code : Int
  sys_errno : Int
deriving DecidableEq, Repr

/-- The answer the source reads for an `srt_send` that failed with the error `e`: the
return value `SRT_ERROR` and, in `serr`, the system `errno`. -/
def failed_send (e : SrtError) : SendAnswer := { ret := SRT_ERROR, serr := e.sys_errno }

/-- The error libsrt raises when a non-blocking send finds the send buffer full: code
`SRT_EASYNCSND`, no system error. -/
def would_block_error : SrtError := { code := SRT_EASYNCSND, sys_errno := 0 }

/-- The error libsrt raises when the connection was lost: code `SRT_ECONNLOST` (2001), no
system error. -/
def conn_lost_error : SrtError := { code := 2001, sys_errno := 0 }

/-- Call site of an `srt_send`. -/
inductive SendSite where
  | header
  | payload
deriving DecidableEq, Repr

/-- One call into the transport library, with its result where the code reads it. -/
inductive Event where
  | create_socket (ret : SRTSOCKET)
  | getsockopt (s : SRTSOCKET) (opt : SockOpt) (ret : Option Int)
  | setsockopt (s : SRTSOCKET) (opt : SockOpt) (val : Int)
  | bind (s : SRTSOCKET) (success : Bool)
  | listen (s : SRTSOCKET) (success : Bool)
  | accept (s : SRTSOCKET) (ret : SRTSOCKET)
  | send (site : SendSite) (s : SRTSOCKET) (buf : List Nat) (len : Int) (ans : SendAnswer)
  | close (s : SRTSOCKET)
deriving DecidableEq, Repr

/-- What the transport does during one fan-out: `pending` lists the successive return
values of `srt_accept` (once exhausted, `srt_accept` returns `SRT_INVALID_SOCK`), and
`answer s k` is the answer to the `k`-th `srt_send` issued on socket `s` while the fan-out
loop visits a client. -/
structure Transport where
  pending : List SRTSOCKET
  answer : SRTSOCKET → Nat → SendAnswer

/-! ## `resample_linear` -/

/-- The `for` loop of `resample_linear`, the `double` operations taken exactly: `n`
iterations remain, `i` is the loop index. -/
def resample_loop (inp : List Int) (in_count : Nat) (in_rate out_rate : Int) :
    Nat → Nat → List Int → Option (List Int)
  | 0, _, out => some out
  | n + 1, i, out =>
    let pos : ℚ := (i : ℚ) * (in_rate : ℚ) / (out_rate : ℚ)
    let idx : Nat := (trunc pos).toNat
    let frac : ℚ := pos - (idx : ℚ)
    if idx + 1 < in_count then
      match inp[idx]?, inp[idx + 1]? with
      | some a, some b =>
        if i < out.length then
          resample_loop inp in_count in_rate out_rate n (i + 1)
            (out.set i (trunc ((a : ℚ) * (1 - frac) + (b : ℚ) * frac)))
        else none
      | _, _ => none
    else
      match inp[idx]? with
      | some a =>
        if i < out.length then
          resample_loop inp in_count in_rate out_rate n (i + 1) (out.set i a)
        else none
      | none => none

/-- `resample_linear(in, in_count, out, in_rate, out_rate)`: returns `out_count` and the
output array, or `none` when an access leaves `inp` or `out`. -/
def resample_linear (inp : List Int) (in_count : Nat) (out : List Int)
    (in_rate out_rate : Int) : Option (Nat × List Int) :=
  let out_count : Nat := (in_count * to_u64 out_rate % 2 ^ 64) / to_u64 in_rate
  (resample_loop inp in_count in_rate out_rate out_count 0 out).map (fun o => (out_count, o))

/-! ## `resample_linear` in `double` arithmetic -/

/-- The value of `(double)i * in_rate / out_rate` (line 22): the conversions, the product
and the quotient each rounded to a `double`. -/
def pos_f64 (i : Nat) (in_rate out_rate : Int) : ℚ :=
  fl 53 (fl 53 (fl 53 (i : ℚ) * fl 53 (in_rate : ℚ)) / fl 53 (out_rate : ℚ))

/-- The value of `in[idx] * (1.0 - frac) + in[idx + 1] * frac` (line 26) for the samples
`a` and `b`: the conversions, the difference, the two products and the sum each rounded
to a `double`. -/
def interp_f64 (a b : Int) (frac : ℚ) : ℚ :=
  fl 53 (fl 53 (fl 53 (a : ℚ) * fl 53 (1 - frac)) + fl 53 (fl 53 (b : ℚ) * frac))

/-- The `for` loop of `resample_linear` with every `double` operation rounded: `n`
iterations remain, `i` is the loop index. -/
def resample_loop_f64 (inp : List Int) (in_count : Nat) (in_rate out_rate : Int) :
    Nat → Nat → List Int → Option (List Int)
  | 0, _, out => some out
  | n + 1, i, out =>
    let pos : ℚ := pos_f64 i in_rate out_rate
    let idx : Nat := (trunc pos).toNat
    let frac : ℚ := fl 53 (pos - fl 53 (idx : ℚ))
    if idx + 1 < in_count then
      match inp[idx]?, inp[idx + 1]? with
      | some a, some b =>
        if i < out.length then
          resample_loop_f64 inp in_count in_rate out_rate n (i + 1)
            (out.set i (trunc (interp_f64 a b frac)))
        else none
      | _, _ => none
    else
      match inp[idx]? with
      | some a =>
        if i < out.length then
          resample_loop_f64 inp in_count in_rate out_rate n (i + 1) (out.set i a)
        else none
      | none => none

/-- `resample_linear(in, in_count, out, in_rate, out_rate)` with every `double` operation
rounded: returns `out_count` and the output array, or `none` when an access leaves `inp`
or `out`. -/
def resample_linear_f64 (inp : List Int) (in_count : Nat) (out : List Int)
    (in_rate out_rate : Int) : Option (Nat × List Int) :=
  let out_count : Nat := (in_count * to_u64 out_rate % 2 ^ 64) / to_u64 in_rate
  (resample_loop_f64 inp in_count in_rate out_rate out_count 0 out).map
    (fun o => (out_count, o))

/-! ## Header emitter and connection acceptor -/

/-- The options set on the listening socket and on every accepted socket. -/
def socket_options (m : srt_modes) (s : SRTSOCKET) : List Event :=
  [Event.setsockopt s SockOpt.SRTO_SNDSYN 0, Event.setsockopt s SockOpt.SRTO_RCVSYN 0] ++
  (if m = SRT_MODE_LIVE then
    [Event.setsockopt s SockOpt.SRTO_TSBPDMODE 1, Event.setsockopt s SockOpt.SRTO_TLPKTDROP 1,
     Event.setsockopt s SockOpt.SRTO_NAKREPORT 1, Event.setsockopt s SockOpt.SRTO_LATENCY 120]
  else
    [Event.setsockopt s SockOpt.SRTO_TSBPDMODE 0, Event.setsockopt s SockOpt.SRTO_LATENCY 0])

/-- The 44 bytes that `srt_stream_send_header` assembles in `header[44]`. -/
def wav_header (sdata : srt_stream_data) : List Nat :=
  let channels : Int := if sdata.mode = MM_STEREO then 2 else 1
  let sample_rate : Int := sdata.sample_rate
  let bits_per_sample : Int := 16
  let byte_rate : Nat := to_u32 (Int.tdiv (sample_rate * channels * bits_per_sample) 8)
  let block_align : Nat := to_u16 (Int.tdiv (channels * bits_per_sample) 8)
  let header : List Nat := List.replicate 44 0
  let header := memcpy header 0 (str_bytes ['R', 'I', 'F', 'F'])
  let sz : Nat := 0xFFFFFFFF
  let header := memcpy header 4 (le32 sz)
  let header := memcpy header 8 (str_bytes ['W', 'A', 'V', 'E', 'f', 'm', 't', ' '])
  let fmt_size : Nat := 16
  let header := memcpy header 16 (le32 fmt_size)
  let audio_format : Nat := 1
  let header := memcpy header 20 (le16 audio_format)
  let ch : Nat := to_u16 channels
  let header := memcpy header 22 (le16 ch)
  let sr : Nat := to_u32 sample_rate
  let header := memcpy header 24 (le32 sr)
  let header := memcpy header 28 (le32 byte_rate)
  let header := memcpy header 32 (le16 block_align)
  let bps : Nat := to_u16 bits_per_sample
  let header := memcpy header 34 (le16 bps)
  let header := memcpy header 36 (str_bytes ['d', 'a', 't', 'a'])
  let header := memcpy header 40 (le32 sz)
  header

/-- `srt_stream_send_header(sdata, client)`: the calls it makes, `ans` being the
transport's answer to its `srt_send`. -/
def srt_stream_send_header (sdata : srt_stream_data) (client : srt_client)
    (ans : SendAnswer) : List Event :=
  if sdata.format ≠ SRT_STREAM_WAV then []
  else [Event.send SendSite.header client.sock (wav_header sdata) 44 ans]

/-- `srt_stream_accept(sdata)`: the argument lists the return values of the successive
`srt_accept` calls. -/
def srt_stream_accept (sdata : srt_stream_data) :
    List SRTSOCKET → srt_stream_data × List Event
  | [] => (sdata, [Event.accept sdata.listen_socket SRT_INVALID_SOCK])
  | s :: rest =>
    if s = SRT_INVALID_SOCK then (sdata, [Event.accept sdata.listen_socket s])
    else
      let c : srt_client := { sock := s, header_sent := false }
      let r := srt_stream_accept { sdata with clients := sdata.clients ++ [c] } rest
      (r.1, Event.accept sdata.listen_socket s :: socket_options sdata.srt_mode s ++ r.2)

/-! ## Fan-out sender -/

/-- How the `while (remaining > 0)` loop is left. -/
inductive ChunkExit where
  | done
  | again
  | fatal
deriving DecidableEq, Repr

/-- The `while (remaining > 0)` loop of `srt_stream_send` for one client: `ans k` answers
the `k`-th `srt_send` of the loop, `ptr` is the offset of `ptr` from `data`. -/
def send_chunks (payload_size : Int) (sock : SRTSOCKET) (data : List Nat)
    (ans : Nat → SendAnswer) : Nat → Nat → Int → Nat → Res (ChunkExit × List Event)
  | fuel, k, ptr, remaining =>
    if remaining > 0 then
      match fuel with
      | 0 => Res.nofuel
      | fuel + 1 =>
        let chunk : Int :=
          to_int (if remaining > to_u64 payload_size then to_u64 payload_size else remaining)
        let ev := Event.send SendSite.payload sock
          ((data.drop ptr.toNat).take chunk.toNat) chunk (ans k)
        if (ans k).ret = SRT_ERROR then
          if (ans k).serr = SRT_EASYNCSND then Res.ok (ChunkExit.again, [ev])
          else Res.ok (ChunkExit.fatal, [ev, Event.close sock])
        else
          match send_chunks payload_size sock data ans fuel (k + 1) (ptr + chunk)
              (to_u64 ((remaining : Int) - chunk)) with
          | Res.ok (e, evs) => Res.ok (e, ev :: evs)
          | Res.fault => Res.fault
          | Res.nofuel => Res.nofuel
    else Res.ok (ChunkExit.done, [])

/-- Body of the `for` loop of `srt_stream_send` for the client `c` under the iterator:
the client as the body leaves it, how the chunk loop was left, and the calls made. -/
def send_client (sdata : srt_stream_data) (tr : Transport) (data : List Nat) (len : Nat)
    (fuel : Nat) (c : srt_client) : Res (srt_client × ChunkExit × List Event) :=
  let hdr : List Event :=
    if sdata.format = SRT_STREAM_WAV ∧ c.header_sent = false then
      srt_stream_send_header sdata c (tr.answer c.sock 0)
    else []
  let c1 : srt_client :=
    if sdata.format = SRT_STREAM_WAV ∧ c.header_sent = false then { c with header_sent := true }
    else c
  match send_chunks sdata.payload_size c.sock data
      (fun k => tr.answer c.sock (hdr.length + k)) fuel 0 0 len with
  | Res.ok (e, evs) => Res.ok (c1, e, hdr ++ evs)
  | Res.fault => Res.fault
  | Res.nofuel => Res.nofuel

/-- The `for` loop of `srt_stream_send` over the registry: `it` is the position of the
iterator, `n` bounds the number of iterations left. -/
def send_loop (sdata : srt_stream_data) (tr : Transport) (data : List Nat) (len : Nat)
    (fuel : Nat) : Nat → List srt_client → Nat → Res (List srt_client × List Event)
  | n, clients, it =>
    match clients[it]? with
    | none => Res.ok (clients, [])
    | some c =>
      match n with
      | 0 => Res.nofuel
      | n + 1 =>
        match send_client sdata tr data len fuel c with
        | Res.ok (c1, e, evs) =>
          match (if e = ChunkExit.fatal then
              send_loop sdata tr data len fuel n (clients.eraseIdx it) it
            else send_loop sdata tr data len fuel n (clients.set it c1) (it + 1)) with
          | Res.ok (cl, evs2) => Res.ok (cl, evs ++ evs2)
          | Res.fault => Res.fault
          | Res.nofuel => Res.nofuel
        | Res.fault => Res.fault
        | Res.nofuel => Res.nofuel

/-- `srt_stream_send(sdata, data, len)`: the instance afterwards and the calls made. -/
def srt_stream_send (fuel : Nat) (tr : Transport) (sdata : srt_stream_data)
    (data : List Nat) (len : Nat) : Res (srt_stream_data × List Event) :=
  if sdata.listen_socket = SRT_INVALID_SOCK then Res.ok (sdata, [])
  else
    let a := srt_stream_accept sdata tr.pending
    match send_loop a.1 tr data len fuel a.1.clients.length a.1.clients 0 with
    | Res.ok (cl, evs) => Res.ok ({ a.1 with clients := cl }, a.2 ++ evs)
    | Res.fault => Res.fault
    | Res.nofuel => Res.nofuel

/-! ## Stream lifecycle -/

/-- What the environment does during `srt_stream_init`: whether `srt_startup` succeeds,
the handle `srt_create_socket` returns, the payload size `srt_getsockopt` reports (`none`
when it fails), and whether `inet_aton`, `srt_bind` and `srt_listen` succeed. -/
structure InitEnv where
  startup_ok : Bool
  new_socket : SRTSOCKET
  payload_size : Option Int
  inet_aton_ok : Bool
  bind_ok : Bool
  listen_ok : Bool

/-- `srt_try_startup()`: the new value of the process-wide flag `srt_initialized`. -/
def srt_try_startup (srt_initialized : Bool) (env : InitEnv) : Bool :=
  if srt_initialized = false then
    if env.startup_ok = false then srt_initialized else true
  else srt_initialized

/-- The `fail:` exit of `srt_stream_init`. -/
def srt_stream_init_fail (sdata : srt_stream_data) : srt_stream_data × List Event :=
  let sdata := { sdata with stereo_buffer := none }
  let sdata := { sdata with pcm_buffer := none }
  let sdata := { sdata with resample_buffer := none }
  if sdata.listen_socket ≠ SRT_INVALID_SOCK then
    ({ sdata with listen_socket := SRT_INVALID_SOCK }, [Event.close sdata.listen_socket])
  else (sdata, [])

/-- `srt_stream_init(sdata, mode, len)`: the return value, the instance afterwards, the
flag `srt_initialized` afterwards and the calls made on sockets.  `XCALLOC` returns a
zero-filled allocation. -/
def srt_stream_init (b : Build) (srt_initialized : Bool) (env : InitEnv)
    (sdata : srt_stream_data) (mode : mix_modes) (len : Nat) :
    Bool × srt_stream_data × Bool × List Event :=
  let srt_initialized := srt_try_startup srt_initialized env
  if srt_initialized = false then (false, sdata, srt_initialized, [])
  else
    let sdata := { sdata with mode := mode }
    let sdata :=
      if sdata.format ≠ SRT_STREAM_MP3 ∧ mode = MM_STEREO then
        { sdata with stereo_buffer_len := (len / 4) * 2,
                     stereo_buffer := some (List.replicate ((len / 4) * 2) 0) }
      else { sdata with stereo_buffer_len := 0, stereo_buffer := none }
    let sdata :=
      if sdata.format = SRT_STREAM_WAV ∨ sdata.format = SRT_STREAM_PCM then
        let n := (len / 4) * (if mode = MM_STEREO then 2 else 1)
        { sdata with pcm_buffer_len := n, pcm_buffer := some (List.replicate n 0) }
      else { sdata with pcm_buffer_len := 0, pcm_buffer := none }
    let sdata :=
      if sdata.sample_rate ≠ b.WAVE_RATE ∧
          (sdata.format = SRT_STREAM_WAV ∨ sdata.format = SRT_STREAM_PCM) then
        let n := ((sdata.pcm_buffer_len * to_u64 sdata.sample_rate % 2 ^ 64) /
          to_u64 b.WAVE_RATE + 1) % 2 ^ 64
        { sdata with resample_buffer_len := n, resample_buffer := some (List.replicate n 0) }
      else { sdata with resample_buffer_len := 0, resample_buffer := none }
    let sdata := { sdata with listen_socket := env.new_socket }
    let ev := [Event.create_socket env.new_socket]
    if sdata.listen_socket = SRT_INVALID_SOCK then
      let f := srt_stream_init_fail sdata
      (false, f.1, srt_initialized, ev ++ f.2)
    else
      let sdata :=
        match env.payload_size with
        | some p => { sdata with payload_size := p }
        | none => { sdata with payload_size := SRT_LIVE_DEF_PLSIZE }
      let ev := ev ++ [Event.getsockopt sdata.listen_socket SockOpt.SRTO_PAYLOADSIZE
        env.payload_size] ++ socket_options sdata.srt_mode sdata.listen_socket
      if env.inet_aton_ok = false then
        let f := srt_stream_init_fail sdata
        (false, f.1, srt_initialized, ev ++ f.2)
      else if env.bind_ok = false then
        let f := srt_stream_init_fail sdata
        (false, f.1, srt_initialized, ev ++ [Event.bind sdata.listen_socket false] ++ f.2)
      else if env.listen_ok = false then
        let f := srt_stream_init_fail sdata
        (false, f.1, srt_initialized, ev ++ [Event.bind sdata.listen_socket true,
          Event.listen sdata.listen_socket false] ++ f.2)
      else
        (true, { sdata with clients := [] }, srt_initialized,
          ev ++ [Event.bind sdata.listen_socket true, Event.listen sdata.listen_socket true])

/-- `srt_stream_shutdown(sdata)`: the instance afterwards and the calls made. -/
def srt_stream_shutdown (sdata : srt_stream_data) : srt_stream_data × List Event :=
  let ev := sdata.clients.map (fun c => Event.close c.sock)
  let sdata := { sdata with clients := [] }
  let sdata := { sdata with stereo_buffer := none }
  let sdata := { sdata with pcm_buffer := none }
  let sdata := { sdata with resample_buffer := none }
  if sdata.listen_socket ≠ SRT_INVALID_SOCK then
    ({ sdata with listen_socket := SRT_INVALID_SOCK }, ev ++ [Event.close sdata.listen_socket])
  else (sdata, ev)

/-! ## Format pipeline and write entry points -/

/-- Clipping and conversion of one sample: the body of the quantization loops.  The
product `v * 32767.0f` is a `float` product, delivered rounded to 24 bits, and the cast to
`int16_t` drops the fraction.  The exponent range of `float` plays no part: the product
is at most 32767 in magnitude, and a product below the normal range truncates to 0
however it is rounded. -/
def quantize (v : ℚ) : Int :=
  let v : ℚ := if v > 1 then 1 else if v < -1 then -1 else v
  trunc (fl 24 (v * 32767))

/-- The quantization loop `for (i = 0; i < count; ++i)` reading `src[i]` and storing into
`pcm_buffer[i]`: `n` iterations remain, `i` is the loop index. -/
def quantize_loop (src : List ℚ) : Nat → Nat → Option (List Int) → Res (Option (List Int))
  | 0, _, pcm => Res.ok pcm
  | n + 1, i, pcm =>
    match src[i]?, pcm with
    | some v, some buf =>
      if i < buf.length then quantize_loop src n (i + 1) (some (buf.set i (quantize v)))
      else Res.fault
    | _, _ => Res.fault

/-- The instance after the quantization loop has run over `count` samples of `src`. -/
def quantize_block (src : List ℚ) (count : Nat) (sdata : srt_stream_data) :
    Res srt_stream_data :=
  match quantize_loop src count 0 sdata.pcm_buffer with
  | Res.ok pcm => Res.ok { sdata with pcm_buffer := pcm }
  | Res.fault => Res.fault
  | Res.nofuel => Res.nofuel

/-- The interleaving loop of the stereo `srt_stream_write`. -/
def interleave_loop (left right : List ℚ) :
    Nat → Nat → Option (List ℚ) → Res (Option (List ℚ))
  | 0, _, sb => Res.ok sb
  | n + 1, i, sb =>
    match left[i]?, right[i]?, sb with
    | some l, some r, some buf =>
      if 2 * i + 1 < buf.length then
        interleave_loop left right n (i + 1) (some ((buf.set (2 * i) l).set (2 * i + 1) r))
      else Res.fault
    | _, _, _ => Res.fault

/-- The tail shared by both PCM/WAV write paths: resample when a resample buffer exists,
then hand the samples to the fan-out. -/
def send_pcm (b : Build) (fuel : Nat) (tr : Transport) (sdata : srt_stream_data)
    (count : Nat) : Res (srt_stream_data × List Event) :=
  match sdata.resample_buffer with
  | some rb =>
    match resample_linear (sdata.pcm_buffer.getD []) count rb b.WAVE_RATE sdata.sample_rate with
    | some (out_count, rb1) =>
      srt_stream_send fuel tr { sdata with resample_buffer := some rb1 }
        (int16_bytes rb1) (out_count * 2)
    | none => Res.fault
  | none => srt_stream_send fuel tr sdata (int16_bytes (sdata.pcm_buffer.getD [])) (count * 2)

/-- `srt_stream_write(sdata, data, len)`, the mono entry point. -/
def srt_stream_write (b : Build) (fuel : Nat) (tr : Transport) (sdata : srt_stream_data)
    (data : List ℚ) (len : Nat) : Res (srt_stream_data × List Event) :=
  if sdata.format = SRT_STREAM_WAV ∨ sdata.format = SRT_STREAM_PCM then
    let sample_count := len / 4
    if sample_count > sdata.pcm_buffer_len then Res.ok (sdata, [])
    else
      match quantize_block data sample_count sdata with
      | Res.ok sdata => send_pcm b fuel tr sdata sample_count
      | Res.fault => Res.fault
      | Res.nofuel => Res.nofuel
  else srt_stream_send fuel tr sdata (data.flatMap b.float_bytes) len

/-- `srt_stream_send_bytes(sdata, data, len)`. -/
def srt_stream_send_bytes (fuel : Nat) (tr : Transport) (sdata : srt_stream_data)
    (data : List Nat) (len : Nat) : Res (srt_stream_data × List Event) :=
  srt_stream_send fuel tr sdata data len

/-- `srt_stream_write(sdata, left, right, len)`, the stereo entry point. -/
def srt_stream_write_stereo (b : Build) (fuel : Nat) (tr : Transport)
    (sdata : srt_stream_data) (left right : List ℚ) (len : Nat) :
    Res (srt_stream_data × List Event) :=
  if sdata.stereo_buffer = none then Res.ok (sdata, [])
  else
    let sample_count := len / 4
    if sample_count * 2 > sdata.stereo_buffer_len then Res.ok (sdata, [])
    else
      match interleave_loop left right sample_count 0 sdata.stereo_buffer with
      | Res.ok sb =>
        let sdata := { sdata with stereo_buffer := sb }
        if sdata.format = SRT_STREAM_WAV ∨ sdata.format = SRT_STREAM_PCM then
          let total := sample_count * 2
          if total > sdata.pcm_buffer_len then Res.ok (sdata, [])
          else
            match quantize_block (sdata.stereo_buffer.getD []) total sdata with
            | Res.ok sdata => send_pcm b fuel tr sdata total
            | Res.fault => Res.fault
            | Res.nofuel => Res.nofuel
        else
          srt_stream_send fuel tr sdata ((sdata.stereo_buffer.getD []).flatMap b.float_bytes)
            (sample_count * 2 * 4)
      | Res.fault => Res.fault
      | Res.nofuel => Res.nofuel

/-- One call of the upstream pipeline into the sink. -/
inductive Call where
  | write (tr : Transport) (data : List ℚ) (len : Nat)
  | write_stereo (tr : Transport) (left right : List ℚ) (len : Nat)
  | send_bytes (tr : Transport) (data : List Nat) (len : Nat)
  | shutdown

/-- One call executed on an instance. -/
def run_call (b : Build) (fuel : Nat) (sdata : srt_stream_data) :
    Call → Res (srt_stream_data × List Event)
  | Call.write tr data len => srt_stream_write b fuel tr sdata data len
  | Call.write_stereo tr left right len => srt_stream_write_stereo b fuel tr sdata left right len
  | Call.send_bytes tr data len => srt_stream_send_bytes fuel tr sdata data len
  | Call.shutdown => Res.ok (srt_stream_shutdown sdata)

/-- A sequence of calls executed one after the other; the logs are concatenated. -/
def run_calls (b : Build) (fuel : Nat) : srt_stream_data → List Call →
    Res (srt_stream_data × List Event)
  | sdata, [] => Res.ok (sdata, [])
  | sdata, c :: cs =>
    match run_call b fuel sdata c with
    | Res.ok (s1, ev1) =>
      match run_calls b fuel s1 cs with
      | Res.ok (s2, ev2) => Res.ok (s2, ev1 ++ ev2)
      | Res.fault => Res.fault
      | Res.nofuel => Res.nofuel
    | Res.fault => Res.fault
    | Res.nofuel => Res.nofuel

/-! ## Specification-side definitions -/

/-- Output sample `i` of the linear resampler as the specification words it: with
`pos = i * in_rate / out_rate`, `idx = ⌊pos⌋` and `frac = pos - idx`, the truncated
interpolation of `in[idx]` and `in[idx + 1]` when `idx + 1` is in range, else `in[idx]`. -/
def interp_sample (inp : List Int) (in_count : Nat) (in_rate out_rate : Int) (i : Nat) : Int :=
  let pos : ℚ := (i : ℚ) * (in_rate : ℚ) / (out_rate : ℚ)
  let idx : Nat := (⌊pos⌋ : Int).toNat
  let frac : ℚ := pos - (idx : ℚ)
  if idx + 1 < in_count then
    trunc ((inp.getD idx 0 : ℚ) * (1 - frac) + (inp.getD (idx + 1) 0 : ℚ) * frac)
  else inp.getD idx 0

/-- Quantization as the specification words it, the product taken exactly: clamp to
`[-1, 1]`, scale by 32767, truncate. -/
def clamp_scale (v : ℚ) : Int := trunc (max (-1) (min v 1) * 32767)

/-- The connections admitted by one drain: the return values of `srt_accept` before the
first failure. -/
def accepted (pending : List SRTSOCKET) : List SRTSOCKET :=
  pending.takeWhile (fun s => decide (s ≠ SRT_INVALID_SOCK))

/-- A client as the acceptor registers it. -/
def new_client (s : SRTSOCKET) : srt_client := { sock := s, header_sent := false }

/-- A send answer on which the source closes the socket and erases the client (lines
66-72): an error whose `serr` does not read `SRT_EASYNCSND`. -/
def evicting_answer (a : SendAnswer) : Bool :=
  decide (a.ret = SRT_ERROR) && decide (a.serr ≠ SRT_EASYNCSND)

/-- Whether a log holds a payload send with an answer on which the source evicts. -/
def payload_evicting (log : List Event) : Bool :=
  log.any (fun e =>
    match e with
    | Event.send SendSite.payload _ _ _ a => evicting_answer a
    | _ => false)

/-- The sockets on which a log calls `srt_close`, in order. -/
def closes (log : List Event) : List SRTSOCKET :=
  log.filterMap (fun e =>
    match e with
    | Event.close s => some s
    | _ => none)

/-- The `srt_send` calls of a log that address socket `s`, in order. -/
def sends_to (s : SRTSOCKET) (log : List Event) : List Event :=
  log.filter (fun e =>
    match e with
    | Event.send _ s1 _ _ _ => decide (s1 = s)
    | _ => false)

/-- An event is an `srt_send` or `srt_close` on socket `s`. -/
def on_socket (s : SRTSOCKET) (e : Event) : Bool :=
  match e with
  | Event.send _ s1 _ _ _ => decide (s1 = s)
  | Event.close s1 => decide (s1 = s)
  | _ => false

/-- An event is an `srt_send`. -/
def is_send (e : Event) : Bool :=
  match e with
  | Event.send _ _ _ _ _ => true
  | _ => false

/-- The client as the fan-out leaves it when it stays registered: for the WAV format the
header flag is set. -/
def mark_header (fmt : srt_stream_format) (c : srt_client) : srt_client :=
  if fmt = SRT_STREAM_WAV ∧ c.header_sent = false then { c with header_sent := true } else c

/-- The payload bytes a log hands to `srt_send`, concatenated in order. -/
def sent_bytes (log : List Event) : List Nat :=
  log.flatMap (fun e =>
    match e with
    | Event.send SendSite.payload _ buf _ _ => buf
    | _ => [])

/-- The visits of the fan-out loop that leave their client registered. -/
def kept (visits : List (srt_client × ChunkExit × List Event)) : List srt_client :=
  (visits.filter (fun v => decide (v.2.1 ≠ ChunkExit.fatal))).map (fun v => v.1)

/-- The calls made by a sequence of visits of the fan-out loop. -/
def logged (visits : List (srt_client × ChunkExit × List Event)) : List Event :=
  visits.flatMap (fun v => v.2.2)

/-- The header call of one visit of the fan-out loop: made when the format is WAV and the
client's flag is not yet set. -/
def client_header (sdata : srt_stream_data) (tr : Transport) (c : srt_client) : List Event :=
  if sdata.format = SRT_STREAM_WAV ∧ c.header_sent = false then
    srt_stream_send_header sdata c (tr.answer c.sock 0)
  else []

/-! ## Concrete instances used to exercise the statements -/

/-- A listening WAV instance with two registered clients and a payload size of 4. -/
def demo_sdata : srt_stream_data :=
  { format := SRT_STREAM_WAV, srt_mode := SRT_MODE_RAW, sample_rate := 8000, mode := MM_MONO,
    payload_size := 4, listen_socket := 1,
    clients := [{ sock := 7, header_sent := true }, { sock := 8, header_sent := true }],
    stereo_buffer := none, stereo_buffer_len := 0, pcm_buffer := none, pcm_buffer_len := 0,
    resample_buffer := none, resample_buffer_len := 0 }

/-- A transport with one pending connection (socket 9) that answers every send on socket 7
with an error on which the source evicts (`serr` reads 2001) and accepts every other
send. -/
def demo_transport : Transport :=
  { pending := [9],
    answer := fun s _ => if s = 7 then { ret := -1, serr := 2001 } else { ret := 4, serr := 0 } }

/-- A payload of six bytes. -/
def demo_payload : List Nat := [1, 2, 3, 4, 5, 6]

/-- The log of the fan-out of `demo_payload` on `demo_sdata` under `demo_transport`. -/
def demo_log : List Event :=
  [Event.accept 1 9,
   Event.setsockopt 9 SockOpt.SRTO_SNDSYN 0,
   Event.setsockopt 9 SockOpt.SRTO_RCVSYN 0,
   Event.setsockopt 9 SockOpt.SRTO_TSBPDMODE 0,
   Event.setsockopt 9 SockOpt.SRTO_LATENCY 0,
   Event.accept 1 (-1),
   Event.send SendSite.payload 7 [1, 2, 3, 4] 4 { ret := -1, serr := 2001 },
   Event.close 7,
   Event.send SendSite.payload 8 [1, 2, 3, 4] 4 { ret := 4, serr := 0 },
   Event.send SendSite.payload 8 [5, 6] 2 { ret := 4, serr := 0 },
   Event.send SendSite.header 9
     [82, 73, 70, 70, 255, 255, 255, 255, 87, 65, 86, 69, 102, 109, 116, 32, 16, 0, 0, 0,
      1, 0, 1, 0, 64, 31, 0, 0, 128, 62, 0, 0, 2, 0, 16, 0, 100, 97, 116, 97,
      255, 255, 255, 255] 44 { ret := 4, serr := 0 },
   Event.send SendSite.payload 9 [1, 2, 3, 4] 4 { ret := 4, serr := 0 },
   Event.send SendSite.payload 9 [5, 6] 2 { ret := 4, serr := 0 }]

/-- The instance after that fan-out. -/
def demo_after : srt_stream_data :=
  { demo_sdata with
    clients := [{ sock := 8, header_sent := true }, { sock := 9, header_sent := true }] }

/-- A second instance: `demo_sdata` with client 8 alone in the registry. -/
def demo_sdata_b : srt_stream_data :=
  { demo_sdata with clients := [{ sock := 8, header_sent := true }] }

/-- A second transport: nothing pending, every send accepted. -/
def demo_transport_b : Transport :=
  { pending := [], answer := fun _ _ => { ret := 4, serr := 0 } }

/-- The log of the fan-out of `demo_payload` on `demo_sdata_b` under `demo_transport_b`. -/
def demo_log_b : List Event :=
  [Event.accept 1 (-1),
   Event.send SendSite.payload 8 [1, 2, 3, 4] 4 { ret := 4, serr := 0 },
   Event.send SendSite.payload 8 [5, 6] 2 { ret := 4, serr := 0 }]

/-- The transport `demo_transport` without the pending connection. -/
def demo_transport_c : Transport :=
  { pending := [], answer := demo_transport.answer }

/-- A listening RAW instance with one registered client and a negative payload size. -/
def demo_sdata_neg : srt_stream_data :=
  { demo_sdata with format := SRT_STREAM_RAW, payload_size := -1,
                    clients := [{ sock := 8, header_sent := false }] }

/-- The WAV header as the specification lays it out, for `c` channels and sample rate `r`:
`RIFF`, size `0xFFFFFFFF`, `WAVEfmt `, chunk size 16, format tag 1 (PCM), channel count,
sample rate, byte rate `r * c * 2`, block align `c * 2`, 16 bits per sample, `data`, size
`0xFFFFFFFF`; multi-byte fields little-endian. -/
def wav_layout (c r : Nat) : List Nat :=
  [0x52, 0x49, 0x46, 0x46] ++ le32 0xFFFFFFFF ++
  [0x57, 0x41, 0x56, 0x45, 0x66, 0x6D, 0x74, 0x20] ++ le32 16 ++ le16 1 ++ le16 c ++
  le32 r ++ le32 (r * c * 2) ++ le16 (c * 2) ++ le16 16 ++
  [0x64, 0x61, 0x74, 0x61] ++ le32 0xFFFFFFFF

/-- A write call whose derived sample count exceeds the capacity of the instance: a mono
write on PCM/WAV with `len / 4 > pcm_buffer_len`, or a stereo write with
`2 * (len / 4) > stereo_buffer_len`. -/
def oversized (sdata : srt_stream_data) : Call → Prop
  | Call.write _ _ len =>
    (sdata.format = SRT_STREAM_WAV ∨ sdata.format = SRT_STREAM_PCM) ∧
      len / 4 > sdata.pcm_buffer_len
  | Call.write_stereo _ _ _ len => 2 * (len / 4) > sdata.stereo_buffer_len
  | Call.send_bytes _ _ _ => False
  | Call.shutdown => False

/-- A build with native rate 8000 and a placeholder `float` representation. -/
def demo_build : Build := { WAVE_RATE := 8000, float_bytes := fun _ => [0, 0, 0, 0] }

/-- A PCM configuration before initialization. -/
def demo_config : srt_stream_data :=
  { format := SRT_STREAM_PCM, srt_mode := SRT_MODE_RAW, sample_rate := 8000, mode := MM_MONO,
    payload_size := 0, listen_socket := -1, clients := [],
    stereo_buffer := none, stereo_buffer_len := 0, pcm_buffer := none, pcm_buffer_len := 0,
    resample_buffer := none, resample_buffer_len := 0 }

/-- An environment in which initialization succeeds: listening socket 1, payload size
1316. -/
def demo_init_env : InitEnv :=
  { startup_ok := true, new_socket := 1, payload_size := some 1316, inet_aton_ok := true,
    bind_ok := true, listen_ok := true }

/-- The instance `srt_stream_init` produces from `demo_config` in stereo mode for blocks
of at most 16 bytes: both capacities are 8 samples. -/
def demo_instance : srt_stream_data :=
  (srt_stream_init demo_build false demo_init_env demo_config MM_STEREO 16).2.1

/-- An event is a payload `srt_send`. -/
def is_payload_send (e : Event) : Bool :=
  match e with
  | Event.send SendSite.payload _ _ _ _ => true
  | _ => false

/-- An event is the header `srt_send`. -/
def is_header_send (e : Event) : Bool :=
  match e with
  | Event.send SendSite.header _ _ _ _ => true
  | _ => false

/-- A send trace starts with the header and continues with payload chunks only. -/
def header_first (l : List Event) : Bool :=
  match l with
  | [] => false
  | e :: rest => is_header_send e && rest.all is_payload_send

/-- The sockets a log shows as returned by a successful `srt_accept`, in order. -/
def admitted (log : List Event) : List SRTSOCKET :=
  log.filterMap (fun e =>
    match e with
    | Event.accept _ r => if r = SRT_INVALID_SOCK then none else some r
    | _ => none)

/-- The return values of `srt_accept` the environment holds ready for a call. -/
def call_pending : Call → List SRTSOCKET
  | Call.write tr _ _ => tr.pending
  | Call.write_stereo tr _ _ _ => tr.pending
  | Call.send_bytes tr _ _ => tr.pending
  | Call.shutdown => []

/-- All connections the environment offers over a sequence of calls. -/
def all_accepted (calls : List Call) : List SRTSOCKET :=
  calls.flatMap (fun c => accepted (call_pending c))

/-- The instance `srt_stream_init` produces for a mono WAV configuration and blocks of at
most 16 bytes. -/
def demo_instance_wav : srt_stream_data :=
  (srt_stream_init demo_build false demo_init_env
    { demo_config with format := SRT_STREAM_WAV } MM_MONO 16).2.1

/-- A transport with one pending connection (socket 10) that answers every send on socket 9
with an error whose `serr` reads `SRT_EASYNCSND`, and accepts every other send. -/
def demo_transport_d : Transport :=
  { pending := [10],
    answer := fun s _ => if s = 9 then { ret := -1, serr := 6001 } else { ret := 4, serr := 0 } }

/-- Three mono writes of two samples each; connections 9 and 10 arrive during the first
and the second. -/
def demo_calls : List Call :=
  [Call.write demo_transport [1 / 2, -3] 8, Call.write demo_transport_d [1 / 4, 2] 8,
   Call.write demo_transport_b [0, 1] 8]

/-- The instance and the log after `demo_calls` on `demo_instance_wav`. -/
def demo_wav_result : srt_stream_data × List Event :=
  match run_calls demo_build 8 demo_instance_wav demo_calls with
  | Res.ok r => r
  | _ => (demo_instance_wav, [])

/-- A send answer on which the source leaves the chunk loop and keeps the client (line
68): an error whose `serr` reads `SRT_EASYNCSND`. -/
def breaking_answer (a : SendAnswer) : Bool :=
  decide (a.ret = SRT_ERROR) && decide (a.serr = SRT_EASYNCSND)

/-- Error code of libsrt: no connection is pending (non-blocking accept would block). -/
def SRT_EASYNCRCV : Int := 6002

/-- `srt_stream_accept(sdata)` with the value read after each failed `srt_accept` spelled
out: the argument lists, for the successive `srt_accept` calls, the return value and the
value `srt_getlasterror(&serr)` leaves in `serr` after it. -/
def srt_stream_accept_serr (sdata : srt_stream_data) :
    List (SRTSOCKET × Int) → srt_stream_data × List Event
  | [] => (sdata, [Event.accept sdata.listen_socket SRT_INVALID_SOCK])
  | (s, serr) :: rest =>
    if s = SRT_INVALID_SOCK then
      if serr = SRT_EASYNCRCV then (sdata, [Event.accept sdata.listen_socket s])
      else (sdata, [Event.accept sdata.listen_socket s])
    else
      let c : srt_client := { sock := s, header_sent := false }
      let r := srt_stream_accept_serr { sdata with clients := sdata.clients ++ [c] } rest
      (r.1, Event.accept sdata.listen_socket s :: socket_options sdata.srt_mode s ++ r.2)

/-- An event is an `srt_accept`. -/
def is_accept (e : Event) : Bool :=
  match e with
  | Event.accept _ _ => true
  | _ => false

/-- A transport with nothing pending that answers every send with an error whose `serr`
reads `SRT_EASYNCSND`. -/
def demo_transport_e : Transport :=
  { pending := [], answer := fun _ _ => { ret := -1, serr := 6001 } }

/-- The log of the fan-out of `demo_payload` on `demo_sdata_b` under `demo_transport_e`:
the first chunk is answered with `serr = SRT_EASYNCSND`, the second is never sent. -/
def demo_log_e : List Event :=
  [Event.accept 1 (-1),
   Event.send SendSite.payload 8 [1, 2, 3, 4] 4 { ret := -1, serr := 6001 }]

/-- Capacity of the quantization buffer as the specification states it. -/
def cap_pcm (fmt : srt_stream_format) (mode : mix_modes) (len : Nat) : Nat :=
  if fmt = SRT_STREAM_PCM ∨ fmt = SRT_STREAM_WAV then
    (len / 4) * (if mode = MM_STEREO then 2 else 1)
  else 0

/-- Number of slots of an allocated buffer, `none` for a NULL pointer. -/
def capacity {α : Type} (buf : Option (List α)) : Option Nat := buf.map List.length

/-- The buffer-allocation part of `srt_stream_init` (source lines 90-116) on its own. -/
def init_buffers (b : Build) (sdata : srt_stream_data) (mode : mix_modes) (len : Nat) :
    srt_stream_data :=
  let sdata := { sdata with mode := mode }
  let sdata :=
    if sdata.format ≠ SRT_STREAM_MP3 ∧ mode = MM_STEREO then
      { sdata with stereo_buffer_len := (len / 4) * 2,
                   stereo_buffer := some (List.replicate ((len / 4) * 2) 0) }
    else { sdata with stereo_buffer_len := 0, stereo_buffer := none }
  let sdata :=
    if sdata.format = SRT_STREAM_WAV ∨ sdata.format = SRT_STREAM_PCM then
      let n := (len / 4) * (if mode = MM_STEREO then 2 else 1)
      { sdata with pcm_buffer_len := n, pcm_buffer := some (List.replicate n 0) }
    else { sdata with pcm_buffer_len := 0, pcm_buffer := none }
  if sdata.sample_rate ≠ b.WAVE_RATE ∧
      (sdata.format = SRT_STREAM_WAV ∨ sdata.format = SRT_STREAM_PCM) then
    let n := ((sdata.pcm_buffer_len * to_u64 sdata.sample_rate % 2 ^ 64) /
      to_u64 b.WAVE_RATE + 1) % 2 ^ 64
    { sdata with resample_buffer_len := n, resample_buffer := some (List.replicate n 0) }
  else { sdata with resample_buffer_len := 0, resample_buffer := none }

/-- The socket part of `srt_stream_init` (source lines 118-184) on its own. -/
def init_listen (srt_initialized : Bool) (env : InitEnv) (sdata : srt_stream_data) :
    Bool × srt_stream_data × Bool × List Event :=
  let sdata := { sdata with listen_socket := env.new_socket }
  let ev := [Event.create_socket env.new_socket]
  if sdata.listen_socket = SRT_INVALID_SOCK then
    let f := srt_stream_init_fail sdata
    (false, f.1, srt_initialized, ev ++ f.2)
  else
    let sdata :=
      match env.payload_size with
      | some p => { sdata with payload_size := p }
      | none => { sdata with payload_size := SRT_LIVE_DEF_PLSIZE }
    let ev := ev ++ [Event.getsockopt sdata.listen_socket SockOpt.SRTO_PAYLOADSIZE
      env.payload_size] ++ socket_options sdata.srt_mode sdata.listen_socket
    if env.inet_aton_ok = false then
      let f := srt_stream_init_fail sdata
      (false, f.1, srt_initialized, ev ++ f.2)
    else if env.bind_ok = false then
      let f := srt_stream_init_fail sdata
      (false, f.1, srt_initialized, ev ++ [Event.bind sdata.listen_socket false] ++ f.2)
    else if env.listen_ok = false then
      let f := srt_stream_init_fail sdata
      (false, f.1, srt_initialized, ev ++ [Event.bind sdata.listen_socket true,
        Event.listen sdata.listen_socket false] ++ f.2)
    else
      (true, { sdata with clients := [] }, srt_initialized,
        ev ++ [Event.bind sdata.listen_socket true, Event.listen sdata.listen_socket true])

/-- A PCM configuration with target rate 16000, twice the native rate of `demo_build`. -/
def demo_config_16k : srt_stream_data := { demo_config with sample_rate := 16000 }

/-- The instance `srt_stream_init` produces from `demo_config_16k` in stereo mode for
blocks of at most 16 bytes. -/
def demo_instance_16k : srt_stream_data :=
  (srt_stream_init demo_build false demo_init_env demo_config_16k MM_STEREO 16).2.1

/-- A PCM configuration with target rate `2 ^ 30`. -/
def demo_config_fast : srt_stream_data := { demo_config with sample_rate := 1073741824 }

/-- The buffers are as `srt_stream_init` allocates them: each is present exactly under
the condition of its `if`, holds as many slots as its recorded length, and the recorded
resample length is the value of the sizing expression. -/
def buffers_ready (b : Build) (s : srt_stream_data) : Prop :=
  capacity s.stereo_buffer =
    (if s.format ≠ SRT_STREAM_MP3 ∧ s.mode = MM_STEREO then some s.stereo_buffer_len
     else none) ∧
  capacity s.pcm_buffer =
    (if s.format = SRT_STREAM_WAV ∨ s.format = SRT_STREAM_PCM then some s.pcm_buffer_len
     else none) ∧
  capacity s.resample_buffer =
    (if s.sample_rate ≠ b.WAVE_RATE ∧
        (s.format = SRT_STREAM_WAV ∨ s.format = SRT_STREAM_PCM) then
      some s.resample_buffer_len else none) ∧
  s.resample_buffer_len =
    (if s.sample_rate ≠ b.WAVE_RATE ∧
        (s.format = SRT_STREAM_WAV ∨ s.format = SRT_STREAM_PCM) then
      ((s.pcm_buffer_len * to_u64 s.sample_rate % 2 ^ 64) / to_u64 b.WAVE_RATE + 1) % 2 ^ 64
     else 0)

instance (b : Build) (s : srt_stream_data) : Decidable (buffers_ready b s) := by
  unfold buffers_ready
  infer_instance

/-- The instance `srt_stream_init` produces from `demo_config_fast` in mono mode for
blocks of at most `2 ^ 36` bytes. -/
def demo_instance_fast : srt_stream_data :=
  (srt_stream_init demo_build false demo_init_env demo_config_fast MM_MONO 68719476736).2.1

/-- Sixteen bytes of mono samples. -/
def demo_block : List ℚ := [1 / 2, -1 / 2, 1, -1]

/-- A RAW configuration before initialization. -/
def demo_config_raw : srt_stream_data := { demo_config with format := SRT_STREAM_RAW }

/-- The instance `srt_stream_init` produces from `demo_config_raw` in stereo mode for
blocks of at most 16 bytes: eight interleave slots, no other buffer. -/
def demo_instance_raw : srt_stream_data :=
  (srt_stream_init demo_build false demo_init_env demo_config_raw MM_STEREO 16).2.1

/-- Two left samples. -/
def demo_left : List ℚ := [1 / 2, -1 / 2]

/-- Two right samples. -/
def demo_right : List ℚ := [1 / 4, -1 / 4]

/-- Number of payload `srt_send` calls in a log. -/
def payload_sends (log : List Event) : Nat := (log.filter is_payload_send).length

/-- The instance `demo_sdata_b` with a payload size of zero stored in it. -/
def demo_sdata_zero : srt_stream_data := { demo_sdata_b with payload_size := 0 }

/-- An environment in which `srt_bind` fails. -/
def demo_init_env_bind : InitEnv := { demo_init_env with bind_ok := false }

/-- The instance a failed `srt_stream_init` leaves behind for a mono PCM configuration and
blocks of at most 16 bytes. -/
def demo_instance_failed : srt_stream_data :=
  (srt_stream_init demo_build false demo_init_env_bind demo_config MM_MONO 16).2.1

/-- Sixteen silent samples. -/
def demo_block16 : List ℚ := List.replicate 16 0

/-- A stereo WAV configuration with target rate 16000. -/
def demo_config_wav16k : srt_stream_data :=
  { demo_config with format := SRT_STREAM_WAV, sample_rate := 16000 }

/-- The instance `srt_stream_init` produces from `demo_config_wav16k` in stereo mode for
blocks of at most 16 bytes. -/
def demo_instance_wav16k : srt_stream_data :=
  (srt_stream_init demo_build false demo_init_env demo_config_wav16k MM_STEREO 16).2.1

/-- Two left samples at full positive scale. -/
def demo_left_hi : List ℚ := [1, 1]

/-- Two right samples at full negative scale. -/
def demo_right_lo : List ℚ := [-1, -1]

/-- Two silent right samples. -/
def demo_right_zero : List ℚ := [0, 0]

/-- The payload bytes of a run, when it returns. -/
def payload_of (r : Res (srt_stream_data × List Event)) : Option (List Nat) :=
  match r with
  | Res.ok (_, ev) => some (sent_bytes ev)
  | _ => none

/-- Interleaving of two sample sequences: `l[0], r[0], l[1], r[1], ...`. -/
def interleave (l r : List Int) : List Int := (l.zip r).flatMap (fun p => [p.1, p.2])

/-- The resampled stereo samples as the specification states them: each channel is
quantized and run through `resample_linear` on its own, and the two outputs are
interleaved. -/
def resample_channels (wave_rate sample_rate : Int) (left right : List ℚ) (n : Nat) :
    Option (List Int) :=
  let cap : Nat := (n * to_u64 sample_rate % 2 ^ 64) / to_u64 wave_rate
  match resample_linear (left.map quantize) n (List.replicate cap 0) wave_rate sample_rate,
      resample_linear (right.map quantize) n (List.replicate cap 0) wave_rate sample_rate with
  | some (c1, o1), some (c2, o2) => some (interleave (o1.take c1) (o2.take c2))
  | _, _ => none

/-- The error is libsrt's would-block: its SRT code is `SRT_EASYNCSND`. -/
def would_block (e : SrtError) : Bool := decide (e.code = SRT_EASYNCSND)

/-- The error is fatal in the sense of the specification: any error other than
would-block. -/
def fatal_error (e : SrtError) : Bool := decide (e.code ≠ SRT_EASYNCSND)

/-- A transport with nothing pending whose send buffers are full: every send fails with
libsrt's would-block error. -/
def demo_transport_full : Transport :=
  { pending := [], answer := fun _ _ => failed_send would_block_error }

/-- A transport with one pending connection (socket 9): the connection of socket 7 is
lost, the send buffer of socket 8 is full, every other send is accepted. -/
def demo_transport_mixed : Transport :=
  { pending := [9],
    answer := fun s _ =>
      if s = 7 then failed_send conn_lost_error
      else if s = 8 then failed_send would_block_error
      else { ret := 4, serr := 0 } }

/-- The log of the fan-out of `demo_payload` on `demo_sdata` under `demo_transport_mixed`. -/
def demo_log_mixed : List Event :=
  [Event.accept 1 9,
   Event.setsockopt 9 SockOpt.SRTO_SNDSYN 0,
   Event.setsockopt 9 SockOpt.SRTO_RCVSYN 0,
   Event.setsockopt 9 SockOpt.SRTO_TSBPDMODE 0,
   Event.setsockopt 9 SockOpt.SRTO_LATENCY 0,
   Event.accept 1 (-1),
   Event.send SendSite.payload 7 [1, 2, 3, 4] 4 (failed_send conn_lost_error),
   Event.close 7,
   Event.send SendSite.payload 8 [1, 2, 3, 4] 4 (failed_send would_block_error),
   Event.close 8,
   Event.send SendSite.header 9
     [82, 73, 70, 70, 255, 255, 255, 255, 87, 65, 86, 69, 102, 109, 116, 32, 16, 0, 0, 0,
      1, 0, 1, 0, 64, 31, 0, 0, 128, 62, 0, 0, 2, 0, 16, 0, 100, 97, 116, 97,
      255, 255, 255, 255] 44 { ret := 4, serr := 0 },
   Event.send SendSite.payload 9 [1, 2, 3, 4] 4 { ret := 4, serr := 0 },
   Event.send SendSite.payload 9 [5, 6] 2 { ret := 4, serr := 0 }]

/-- The log of the fan-out of `demo_payload` on `demo_sdata_b` under
`demo_transport_full`. -/
def demo_log_full : List Event :=
  [Event.accept 1 (-1),
   Event.send SendSite.payload 8 [1, 2, 3, 4] 4 (failed_send would_block_error),
   Event.close 8]

/-- The registry the specification prescribes after a fan-out: the clients visited, in
order, without those one of whose payload sends failed with a fatal error.  `errors c`
lists the errors of the failed payload sends to `c`. -/
def spec_registry (errors : srt_client → List SrtError) (visited : List srt_client) :
    List srt_client :=
  visited.filter (fun c => !(errors c).any fatal_error)

/-! # Theorems -/

/-! ## Resampler -/

theorem trunc_of_nonneg {q : ℚ} (h : 0 ≤ q) : trunc q = ⌊q⌋ := by
  simp [trunc, h]

theorem to_u64_of_range {x : Int} (h0 : 0 ≤ x) (h1 : x < 2 ^ 64) : (to_u64 x : Int) = x := by
  unfold to_u64
  rw [Int.emod_eq_of_lt h0 h1]
  exact Int.toNat_of_nonneg h0

/-- In exact arithmetic the input index of output sample `j` stays below `in_count`. -/
theorem resample_idx_lt {in_count j : Nat} {in_rate out_rate : Int}
    (hout : 0 < out_rate) (hin : 0 ≤ in_rate)
    (h : (j : Int) * in_rate < (in_count : Int) * out_rate) :
    (trunc ((j : ℚ) * (in_rate : ℚ) / (out_rate : ℚ))).toNat < in_count := by
  have ho : (0 : ℚ) < (out_rate : ℚ) := by exact_mod_cast hout
  have hi : (0 : ℚ) ≤ (in_rate : ℚ) := by exact_mod_cast hin
  have hpos : (0 : ℚ) ≤ (j : ℚ) * (in_rate : ℚ) / (out_rate : ℚ) := by positivity
  rw [trunc_of_nonneg hpos]
  have hlt : (j : ℚ) * (in_rate : ℚ) / (out_rate : ℚ) < ((in_count : Int) : ℚ) := by
    rw [div_lt_iff₀ ho]
    exact_mod_cast h
  have := Int.floor_lt.mpr hlt
  have h0 : 0 ≤ ⌊(j : ℚ) * (in_rate : ℚ) / (out_rate : ℚ)⌋ := Int.floor_nonneg.mpr hpos
  omega

theorem resample_loop_spec (inp : List Int) (in_count : Nat) (in_rate out_rate : Int)
    (hin : 0 < in_rate) (hout : 0 < out_rate) (hlen : in_count ≤ inp.length) :
    ∀ (n i : Nat) (out : List Int), i + n ≤ out.length →
      (∀ j, i ≤ j → j < i + n → (j : Int) * in_rate < (in_count : Int) * out_rate) →
      ∃ out1, resample_loop inp in_count in_rate out_rate n i out = some out1 ∧
        out1.length = out.length ∧
        (∀ j, i ≤ j → j < i + n →
          out1[j]? = some (interp_sample inp in_count in_rate out_rate j)) ∧
        (∀ j, (j < i ∨ i + n ≤ j) → out1[j]? = out[j]?) := by
  intro n
  induction n with
  | zero =>
    intro i out _ _
    refine ⟨out, rfl, rfl, ?_, ?_⟩
    · intro j h1 h2; omega
    · intro j _; rfl
  | succ n ih =>
    intro i out hcap hidx
    have hi := hidx i (le_refl _) (by omega)
    have hlt := resample_idx_lt hout (le_of_lt hin) hi
    have ho : (0 : ℚ) < (out_rate : ℚ) := by exact_mod_cast hout
    have hiq : (0 : ℚ) ≤ (in_rate : ℚ) := by exact_mod_cast (le_of_lt hin)
    have hpos : (0 : ℚ) ≤ (i : ℚ) * (in_rate : ℚ) / (out_rate : ℚ) := by positivity
    have htr := trunc_of_nonneg hpos
    have hil : i < out.length := by omega
    -- the value written in this iteration is the specified one
    have key : ∀ v, v = interp_sample inp in_count in_rate out_rate i →
        resample_loop inp in_count in_rate out_rate n (i + 1) (out.set i v) =
          resample_loop inp in_count in_rate out_rate (n + 1) i out → 
        ∃ out1, resample_loop inp in_count in_rate out_rate (n + 1) i out = some out1 ∧
        out1.length = out.length ∧
        (∀ j, i ≤ j → j < i + (n + 1) →
          out1[j]? = some (interp_sample inp in_count in_rate out_rate j)) ∧
        (∀ j, (j < i ∨ i + (n + 1) ≤ j) → out1[j]? = out[j]?) := by
      intro v hv heq
      obtain ⟨out1, h1, h2, h3, h4⟩ := ih (i + 1) (out.set i v) (by simp; omega)
        (fun j hj1 hj2 => hidx j (by omega) (by omega))
      refine ⟨out1, by rw [← heq]; exact h1, by simpa using h2, ?_, ?_⟩
      · intro j hj1 hj2
        by_cases hji : j = i
        · subst hji
          rw [h4 j (Or.inl (by omega))]
          simp [List.getElem?_set, hil, hv]
        · exact h3 j (by omega) (by omega)
      · intro j hj
        rw [h4 j (by omega)]
        rw [List.getElem?_set_ne (by omega)]
    set idx := (trunc ((i : ℚ) * (in_rate : ℚ) / (out_rate : ℚ))).toNat with hidxdef
    have hidx' : (⌊(i : ℚ) * (in_rate : ℚ) / (out_rate : ℚ)⌋ : Int).toNat = idx := by
      rw [hidxdef, htr]
    have hget : inp[idx]? = some (inp.getD idx 0) := by
      rw [List.getD_eq_getElem?_getD, List.getElem?_eq_getElem (by omega)]; simp
    by_cases hnext : idx + 1 < in_count
    · have hget1 : inp[idx + 1]? = some (inp.getD (idx + 1) 0) := by
        rw [List.getD_eq_getElem?_getD, List.getElem?_eq_getElem (by omega)]; simp
      refine key (trunc ((inp.getD idx 0 : ℚ) *
        (1 - ((i : ℚ) * (in_rate : ℚ) / (out_rate : ℚ) - (idx : ℚ))) +
        (inp.getD (idx + 1) 0 : ℚ) * ((i : ℚ) * (in_rate : ℚ) / (out_rate : ℚ) - (idx : ℚ))))
        ?_ ?_
      · simp only [interp_sample, hidx', hnext, if_true]
      · rw [resample_loop.eq_2]
        simp only [← hidxdef, hnext, if_true, hget, hget1, hil]
    · refine key (inp.getD idx 0) ?_ ?_
      · simp only [interp_sample, hidx', hnext, if_false]
      · rw [resample_loop.eq_2]
        simp only [← hidxdef, hnext, if_false, hget, hil, if_true]

/-- The contract of `resample_linear` when the product `in_count * out_rate` does not
wrap: shared by the statements about the resampler. -/
theorem resample_linear_spec (inp : List Int) (in_count : Nat) (out : List Int)
    (in_rate out_rate : Int) (hin : 0 < in_rate) (hin2 : in_rate < 2 ^ 64)
    (hout : 0 < out_rate) (hwrap : (in_count : Int) * out_rate < 2 ^ 64)
    (hlen : in_count ≤ inp.length)
    (hcap : ((in_count : Int) * out_rate / in_rate).toNat ≤ out.length) :
    ∃ out1, resample_linear inp in_count out in_rate out_rate =
        some (((in_count : Int) * out_rate / in_rate).toNat, out1) ∧
      out1.length = out.length ∧
      (∀ i, i < ((in_count : Int) * out_rate / in_rate).toNat →
        out1[i]? = some (interp_sample inp in_count in_rate out_rate i)) ∧
      (∀ i, ((in_count : Int) * out_rate / in_rate).toNat ≤ i → out1[i]? = out[i]?) := by
  have hcount : (in_count * to_u64 out_rate % 2 ^ 64) / to_u64 in_rate =
      ((in_count : Int) * out_rate / in_rate).toNat := by
    have h1 : ((in_count * to_u64 out_rate % 2 ^ 64 / to_u64 in_rate : Nat) : Int) =
        (in_count : Int) * out_rate / in_rate := by
      by_cases hz : in_count = 0
      · subst hz; simp
      · have hpos : (1 : Int) ≤ (in_count : Int) := by omega
        have ho2 : out_rate < 2 ^ 64 := by nlinarith
        push_cast
        rw [to_u64_of_range (le_of_lt hout) ho2, to_u64_of_range (le_of_lt hin) hin2]
        have hw : (in_count : Int) * out_rate < 18446744073709551616 := by simpa using hwrap
        rw [Int.emod_eq_of_lt (by positivity) hw]
    have hnn : 0 ≤ (in_count : Int) * out_rate / in_rate :=
      Int.ediv_nonneg (by positivity) (le_of_lt hin)
    omega
  set oc := ((in_count : Int) * out_rate / in_rate).toNat with hoc
  have hbound : ∀ j, j < oc → (j : Int) * in_rate < (in_count : Int) * out_rate := by
    intro j hj
    have hnn : 0 ≤ (in_count : Int) * out_rate := by positivity
    have hq : ((j : Int) + 1) ≤ (in_count : Int) * out_rate / in_rate := by
      have : 0 ≤ (in_count : Int) * out_rate / in_rate := Int.ediv_nonneg hnn (le_of_lt hin)
      omega
    have := Int.mul_le_of_le_ediv hin hq
    nlinarith
  obtain ⟨out1, h1, h2, h3, h4⟩ := resample_loop_spec inp in_count in_rate out_rate hin hout hlen
    oc 0 out (by omega) (fun j _ hj => hbound j (by omega))
  refine ⟨out1, ?_, h2, fun i hi => h3 i (Nat.zero_le _) (by omega), fun i hi => h4 i (by omega)⟩
  unfold resample_linear
  simp only [hcount, ← hoc, h1, Option.map_some']

theorem trunc_intCast (a : Int) : trunc (a : ℚ) = a := by
  unfold trunc
  split <;> simp

theorem interp_sample_even (inp : List Int) (n : Nat) (r : Int) (hr : 0 < r) (j : Nat) :
    interp_sample inp n r (2 * r) (2 * j) = inp.getD j 0 := by
  have hrq : (r : ℚ) ≠ 0 := by exact_mod_cast (ne_of_gt hr)
  have hpos : ((2 * j : Nat) : ℚ) * (r : ℚ) / ((2 * r : Int) : ℚ) = (j : ℚ) := by
    push_cast; field_simp; ring
  unfold interp_sample
  simp only [hpos, Int.floor_natCast, Int.toNat_ofNat, sub_self, sub_zero, mul_one, mul_zero,
    add_zero, trunc_intCast, ite_self]

theorem interp_sample_odd (inp : List Int) (n : Nat) (r : Int) (hr : 0 < r) (j : Nat) :
    interp_sample inp n r (2 * r) (2 * j + 1) =
      if j + 1 < n then trunc (((inp.getD j 0 + inp.getD (j + 1) 0 : Int) : ℚ) / 2)
      else inp.getD j 0 := by
  have hrq : (r : ℚ) ≠ 0 := by exact_mod_cast (ne_of_gt hr)
  have hpos : ((2 * j + 1 : Nat) : ℚ) * (r : ℚ) / ((2 * r : Int) : ℚ) = (j : ℚ) + 1 / 2 := by
    push_cast; field_simp; ring
  have hfl : ⌊(j : ℚ) + 1 / 2⌋ = (j : Int) := by
    rw [Int.floor_eq_iff]
    constructor
    · push_cast; linarith
    · push_cast; linarith
  unfold interp_sample
  simp only [hpos, hfl, Int.toNat_ofNat]
  split
  · congr 1
    push_cast
    ring
  · rfl

/-- Doubling in exact arithmetic: when `n * out_rate < 2 ^ 64`, a non-empty input of `n`
samples resampled with `out_rate = 2 * in_rate` gives exactly `2 n` samples:
`out[2j] = in[j]`, `out[2j+1] = truncate((in[j] + in[j+1]) / 2)` for `j < n - 1`, and
`out[2n-1] = in[n-1]`; for rates 8000 and 16000 the input `[100, 200]` gives
`[100, 150, 200, 200]`. -/
theorem resample_linear_double (inp : List Int) (n : Nat) (out : List Int) (in_rate : Int)
    (hin : 0 < in_rate) (hint : 2 * in_rate < 2 ^ 31) (hn : 0 < n)
    (hwrap : (n : Int) * (2 * in_rate) < 2 ^ 64)
    (hlen : n ≤ inp.length) (hcap : 2 * n ≤ out.length) :
    (∃ out1, resample_linear inp n out in_rate (2 * in_rate) = some (2 * n, out1) ∧
      (∀ j, j < n → out1[2 * j]? = inp[j]?) ∧
      (∀ j, j + 1 < n → out1[2 * j + 1]? =
        some (trunc (((inp.getD j 0 + inp.getD (j + 1) 0 : Int) : ℚ) / 2))) ∧
      out1[2 * n - 1]? = inp[n - 1]?) ∧
    resample_linear [100, 200] 2 [0, 0, 0, 0] 8000 16000 = some (4, [100, 150, 200, 200]) := by
  refine ⟨?_, by with_unfolding_all decide⟩
  have hcount : ((n : Int) * (2 * in_rate) / in_rate).toNat = 2 * n := by
    have : (n : Int) * (2 * in_rate) / in_rate = 2 * (n : Int) := by
      rw [show (n : Int) * (2 * in_rate) = (2 * (n : Int)) * in_rate by ring]
      exact Int.mul_ediv_cancel _ (ne_of_gt hin)
    omega
  obtain ⟨out1, h1, _, h3, _⟩ := resample_linear_spec inp n out in_rate (2 * in_rate) hin
    (by omega) (by omega) hwrap hlen (by omega)
  rw [hcount] at h1 h3
  have hget : ∀ j, j < n → inp[j]? = some (inp.getD j 0) := by
    intro j hj
    rw [List.getD_eq_getElem?_getD, List.getElem?_eq_getElem (by omega)]; simp
  refine ⟨out1, h1, ?_, ?_, ?_⟩
  · intro j hj
    rw [h3 (2 * j) (by omega), interp_sample_even inp n in_rate hin j, hget j hj]
  · intro j hj
    rw [h3 (2 * j + 1) (by omega), interp_sample_odd inp n in_rate hin j, if_pos hj]
  · have h2n : 2 * n - 1 = 2 * (n - 1) + 1 := by omega
    rw [h2n, h3 (2 * (n - 1) + 1) (by omega), interp_sample_odd inp n in_rate hin (n - 1),
      if_neg (by omega), hget (n - 1) (by omega)]

/-! ## Floating-point rounding -/

theorem pow2_eq_zpow (e : Int) : pow2 e = (2 : ℚ) ^ e := by
  unfold pow2
  split
  · rename_i h
    obtain ⟨n, rfl⟩ := Int.eq_ofNat_of_zero_le h
    simp
  · rename_i h
    obtain ⟨n, hn⟩ := Int.eq_ofNat_of_zero_le (show 0 ≤ -e by omega)
    have he : e = -(n : Int) := by omega
    subst he
    simp

theorem pow2_pos (e : Int) : 0 < pow2 e := by
  rw [pow2_eq_zpow]
  positivity

theorem pow2_add (a b : Int) : pow2 (a + b) = pow2 a * pow2 b := by
  simp only [pow2_eq_zpow]
  exact zpow_add₀ (by norm_num) a b

theorem pow2_natCast (n : Nat) : pow2 (n : Int) = ((2 ^ n : Nat) : ℚ) := by
  rw [pow2_eq_zpow]
  simp

theorem pow2_lt_iff (a b : Int) : pow2 a < pow2 b ↔ a < b := by
  simp only [pow2_eq_zpow]
  exact zpow_lt_zpow_iff_right₀ (by norm_num)

theorem ilog2_eq : ∀ (fuel n : Nat), n ≤ fuel → ilog2 fuel n = Nat.log2 n := by
  intro fuel
  induction fuel with
  | zero =>
    intro n h
    have : n = 0 := by omega
    subst this
    rw [Nat.log2_zero]
    rfl
  | succ fuel ih =>
    intro n h
    unfold ilog2
    by_cases h2 : n < 2
    · rw [if_pos h2]
      rw [Nat.log2, if_neg (by omega)]
    · rw [if_neg h2, ih (n / 2) (by omega)]
      conv_rhs => rw [Nat.log2]
      rw [if_pos (by omega)]

theorem ilog2_bounds {a : Nat} (h : a ≠ 0) :
    2 ^ ilog2 a a ≤ a ∧ a < 2 ^ (ilog2 a a + 1) := by
  rw [ilog2_eq a a (le_refl _)]
  exact ⟨Nat.log2_self_le h, Nat.lt_log2_self⟩

theorem abs_num_den (q : ℚ) : |q| = (q.num.natAbs : ℚ) / (q.den : ℚ) := by
  have h : (q.num.natAbs : ℚ) = |(q.num : ℚ)| := by rw [Nat.cast_natAbs, Int.cast_abs]
  have hd : (0 : ℚ) < (q.den : ℚ) := by exact_mod_cast q.den_pos
  rw [h]
  conv_lhs => rw [← Rat.num_div_den q]
  rw [abs_div, abs_of_pos hd]

/-- The binary exponent is a lower bound: `2 ^ exponent q ≤ |q|`. -/
theorem exponent_le {q : ℚ} (hq : q ≠ 0) : pow2 (exponent q) ≤ |q| := by
  unfold exponent
  simp only []
  split
  · assumption
  · have hnum : q.num.natAbs ≠ 0 := by
      intro h
      exact hq (Rat.zero_of_num_zero (Int.natAbs_eq_zero.mp h))
    obtain ⟨h1, _⟩ := ilog2_bounds hnum
    obtain ⟨_, h2⟩ := ilog2_bounds q.den_nz
    have hd : (0 : ℚ) < (q.den : ℚ) := by exact_mod_cast q.den_pos
    rw [abs_num_den, le_div_iff₀ hd]
    have e1 : pow2 ((ilog2 q.num.natAbs q.num.natAbs : Int) - (ilog2 q.den q.den : Int) - 1) *
        pow2 (((ilog2 q.den q.den + 1 : Nat) : Int)) =
        pow2 ((ilog2 q.num.natAbs q.num.natAbs : Nat) : Int) := by
      rw [← pow2_add]
      congr 1
      push_cast
      ring
    have e2 : (q.den : ℚ) ≤ pow2 (((ilog2 q.den q.den + 1 : Nat) : Int)) := by
      rw [pow2_natCast]
      exact_mod_cast le_of_lt h2
    have e3 : pow2 ((ilog2 q.num.natAbs q.num.natAbs : Nat) : Int) ≤ (q.num.natAbs : ℚ) := by
      rw [pow2_natCast]
      exact_mod_cast h1
    calc pow2 ((ilog2 q.num.natAbs q.num.natAbs : Int) - (ilog2 q.den q.den : Int) - 1) *
          (q.den : ℚ)
        ≤ pow2 ((ilog2 q.num.natAbs q.num.natAbs : Int) - (ilog2 q.den q.den : Int) - 1) *
          pow2 (((ilog2 q.den q.den + 1 : Nat) : Int)) :=
          mul_le_mul_of_nonneg_left e2 (le_of_lt (pow2_pos _))
      _ = pow2 ((ilog2 q.num.natAbs q.num.natAbs : Nat) : Int) := e1
      _ ≤ (q.num.natAbs : ℚ) := e3

theorem round_even_intCast (z : Int) : round_even (z : ℚ) = z := by
  unfold round_even
  simp

theorem round_even_le {x : ℚ} {n : Int} (h : x ≤ (n : ℚ)) : round_even x ≤ n := by
  have hf : ⌊x⌋ ≤ n := by
    have : ((⌊x⌋ : Int) : ℚ) ≤ (n : ℚ) := le_trans (Int.floor_le x) h
    exact_mod_cast this
  have hup : (1 : ℚ) / 2 ≤ x - ((⌊x⌋ : Int) : ℚ) → ⌊x⌋ + 1 ≤ n := by
    intro hx
    have : ((⌊x⌋ : Int) : ℚ) < (n : ℚ) := by linarith
    have : ⌊x⌋ < n := by exact_mod_cast this
    omega
  unfold round_even
  simp only []
  split
  · exact hf
  · rename_i h1
    push_neg at h1
    split
    · exact hup h1
    · split
      · exact hf
      · exact hup h1

theorem round_even_ge {x : ℚ} {n : Int} (h : (n : ℚ) ≤ x) : n ≤ round_even x := by
  have hf : n ≤ ⌊x⌋ := Int.le_floor.mpr h
  unfold round_even
  simp only []
  split
  · exact hf
  · split
    · omega
    · split
      · exact hf
      · omega

/-- A value `m * 2 ^ k` whose integer `m` fits the significand is delivered unchanged. -/
theorem fl_exact (p : Nat) (m k : Int) (hm : |m| < 2 ^ p) :
    fl p ((m : ℚ) * pow2 k) = (m : ℚ) * pow2 k := by
  unfold fl
  by_cases h0 : (m : ℚ) * pow2 k = 0
  · rw [if_pos h0, h0]
  · rw [if_neg h0]
    simp only []
    have hlo := exponent_le h0
    have habs : |(m : ℚ) * pow2 k| < pow2 ((p : Int) + k) := by
      rw [abs_mul, abs_of_pos (pow2_pos k), pow2_add, pow2_natCast]
      have : |(m : ℚ)| < ((2 ^ p : Nat) : ℚ) := by
        have : ((|m| : Int) : ℚ) < (((2 : Int) ^ p : Int) : ℚ) := by exact_mod_cast hm
        push_cast at this ⊢
        exact this
      exact mul_lt_mul_of_pos_right this (pow2_pos k)
    have he : exponent ((m : ℚ) * pow2 k) < (p : Int) + k :=
      (pow2_lt_iff _ _).mp (lt_of_le_of_lt hlo habs)
    obtain ⟨j, hj⟩ := Int.eq_ofNat_of_zero_le
      (show 0 ≤ k - (exponent ((m : ℚ) * pow2 k) - ((p : Int) - 1)) by omega)
    have hk : k = (exponent ((m : ℚ) * pow2 k) - ((p : Int) - 1)) + (j : Int) := by omega
    have hdiv : (m : ℚ) * pow2 k / pow2 (exponent ((m : ℚ) * pow2 k) - ((p : Int) - 1)) =
        ((m * 2 ^ j : Int) : ℚ) := by
      have hu := pow2_pos (exponent ((m : ℚ) * pow2 k) - ((p : Int) - 1))
      rw [div_eq_iff (ne_of_gt hu)]
      conv_lhs => rw [hk, pow2_add, pow2_natCast]
      push_cast
      ring
    rw [hdiv, round_even_intCast]
    conv_rhs => rw [hk, pow2_add, pow2_natCast]
    push_cast
    ring

theorem fl_intCast (p : Nat) (m : Int) (hm : |m| < 2 ^ p) :
    fl p (m : ℚ) = (m : ℚ) := by
  have := fl_exact p m 0 hm
  simpa [pow2] using this

theorem fl_half (p : Nat) (m : Int) (hm : |m| < 2 ^ p) :
    fl p ((m : ℚ) / 2) = (m : ℚ) / 2 := by
  have := fl_exact p m (-1) hm
  have h2 : pow2 (-1) = 1 / 2 := by decide!
  rw [h2] at this
  have e : (m : ℚ) * (1 / 2) = (m : ℚ) / 2 := by ring
  rw [e] at this
  exact this

/-- Rounding does not pass a natural number that fits the significand. -/
theorem fl_le (p : Nat) (n : Nat) (hn : n < 2 ^ p) {q : ℚ} (h : q ≤ (n : ℚ)) :
    fl p q ≤ (n : ℚ) := by
  unfold fl
  by_cases h0 : q = 0
  · rw [if_pos h0]
    exact_mod_cast Nat.zero_le n
  · rw [if_neg h0]
    simp only []
    have hu := pow2_pos (exponent q - ((p : Int) - 1))
    rcases lt_or_gt_of_ne h0 with hneg | hpos
    · have : q / pow2 (exponent q - ((p : Int) - 1)) ≤ ((0 : Int) : ℚ) := by
        push_cast
        exact le_of_lt (div_neg_of_neg_of_pos hneg hu)
      have hr := round_even_le this
      have : ((round_even (q / pow2 (exponent q - ((p : Int) - 1))) : Int) : ℚ) ≤ 0 := by
        exact_mod_cast hr
      have h1 := mul_nonpos_of_nonpos_of_nonneg this (le_of_lt hu)
      have h2 : (0 : ℚ) ≤ (n : ℚ) := by exact_mod_cast Nat.zero_le n
      linarith
    · have hlo := exponent_le h0
      rw [abs_of_pos hpos] at hlo
      have hlt : pow2 (exponent q) < pow2 (p : Int) := by
        rw [pow2_natCast]
        have : (n : ℚ) < ((2 ^ p : Nat) : ℚ) := by exact_mod_cast hn
        linarith
      have he : exponent q < (p : Int) := (pow2_lt_iff _ _).mp hlt
      obtain ⟨j, hj⟩ := Int.eq_ofNat_of_zero_le (show 0 ≤ ((p : Int) - 1) - exponent q by omega)
      have hone : pow2 (exponent q - ((p : Int) - 1)) * pow2 (j : Int) = 1 := by
        rw [← pow2_add]
        have : exponent q - ((p : Int) - 1) + (j : Int) = 0 := by omega
        rw [this]
        decide!
      have hnu : (n : ℚ) / pow2 (exponent q - ((p : Int) - 1)) = ((n * 2 ^ j : Nat) : Int) := by
        rw [div_eq_iff (ne_of_gt hu)]
        rw [pow2_natCast] at hone
        push_cast at hone ⊢
        rw [mul_assoc, mul_comm ((2 : ℚ) ^ j), hone, mul_one]
      have hle : q / pow2 (exponent q - ((p : Int) - 1)) ≤ (((n * 2 ^ j : Nat) : Int) : ℚ) := by
        rw [← hnu]
        exact div_le_div_of_nonneg_right h (le_of_lt hu)
      have hr := round_even_le hle
      have hr2 : ((round_even (q / pow2 (exponent q - ((p : Int) - 1))) : Int) : ℚ) ≤
          (((n * 2 ^ j : Nat) : Int) : ℚ) := by exact_mod_cast hr
      calc ((round_even (q / pow2 (exponent q - ((p : Int) - 1))) : Int) : ℚ) *
            pow2 (exponent q - ((p : Int) - 1))
          ≤ (((n * 2 ^ j : Nat) : Int) : ℚ) * pow2 (exponent q - ((p : Int) - 1)) :=
            mul_le_mul_of_nonneg_right hr2 (le_of_lt hu)
        _ = (n : ℚ) := by
            rw [← hnu]
            exact div_mul_cancel₀ _ (ne_of_gt hu)

theorem fl_ge (p : Nat) (n : Nat) (hn : n < 2 ^ p) {q : ℚ} (h : -(n : ℚ) ≤ q) :
    -(n : ℚ) ≤ fl p q := by
  unfold fl
  by_cases h0 : q = 0
  · rw [if_pos h0]
    have : (0 : ℚ) ≤ (n : ℚ) := by exact_mod_cast Nat.zero_le n
    linarith
  · rw [if_neg h0]
    simp only []
    have hu := pow2_pos (exponent q - ((p : Int) - 1))
    rcases lt_or_gt_of_ne h0 with hneg | hpos
    · have hlo := exponent_le h0
      rw [abs_of_neg hneg] at hlo
      have hlt : pow2 (exponent q) < pow2 (p : Int) := by
        rw [pow2_natCast]
        have : (n : ℚ) < ((2 ^ p : Nat) : ℚ) := by exact_mod_cast hn
        linarith
      have he : exponent q < (p : Int) := (pow2_lt_iff _ _).mp hlt
      obtain ⟨j, hj⟩ := Int.eq_ofNat_of_zero_le (show 0 ≤ ((p : Int) - 1) - exponent q by omega)
      have hone : pow2 (exponent q - ((p : Int) - 1)) * pow2 (j : Int) = 1 := by
        rw [← pow2_add]
        have : exponent q - ((p : Int) - 1) + (j : Int) = 0 := by omega
        rw [this]
        decide!
      have hnu : -(n : ℚ) / pow2 (exponent q - ((p : Int) - 1)) =
          ((-((n * 2 ^ j : Nat) : Int) : Int) : ℚ) := by
        rw [div_eq_iff (ne_of_gt hu)]
        rw [pow2_natCast] at hone
        push_cast at hone ⊢
        rw [neg_mul, mul_assoc, mul_comm ((2 : ℚ) ^ j), hone, mul_one]
      have hle : ((-((n * 2 ^ j : Nat) : Int) : Int) : ℚ) ≤
          q / pow2 (exponent q - ((p : Int) - 1)) := by
        rw [← hnu]
        exact div_le_div_of_nonneg_right h (le_of_lt hu)
      have hr := round_even_ge hle
      have hr2 : ((-((n * 2 ^ j : Nat) : Int) : Int) : ℚ) ≤
          ((round_even (q / pow2 (exponent q - ((p : Int) - 1))) : Int) : ℚ) := by
        exact_mod_cast hr
      calc -(n : ℚ)
          = ((-((n * 2 ^ j : Nat) : Int) : Int) : ℚ) * pow2 (exponent q - ((p : Int) - 1)) := by
            rw [← hnu]
            exact (div_mul_cancel₀ _ (ne_of_gt hu)).symm
        _ ≤ ((round_even (q / pow2 (exponent q - ((p : Int) - 1))) : Int) : ℚ) *
            pow2 (exponent q - ((p : Int) - 1)) :=
            mul_le_mul_of_nonneg_right hr2 (le_of_lt hu)
    · have : ((0 : Int) : ℚ) ≤ q / pow2 (exponent q - ((p : Int) - 1)) := by
        push_cast
        exact le_of_lt (div_pos hpos hu)
      have hr := round_even_ge this
      have : (0 : ℚ) ≤ ((round_even (q / pow2 (exponent q - ((p : Int) - 1))) : Int) : ℚ) := by
        exact_mod_cast hr
      have h1 := mul_nonneg this (le_of_lt hu)
      have h2 : (0 : ℚ) ≤ (n : ℚ) := by exact_mod_cast Nat.zero_le n
      linarith

/-- The binary exponent is the largest lower bound: `|q| < 2 ^ (exponent q + 1)`. -/
theorem exponent_lt {q : ℚ} (hq : q ≠ 0) : |q| < pow2 (exponent q + 1) := by
  unfold exponent
  simp only []
  split
  · have hnum : q.num.natAbs ≠ 0 := by
      intro h
      exact hq (Rat.zero_of_num_zero (Int.natAbs_eq_zero.mp h))
    obtain ⟨_, h1⟩ := ilog2_bounds hnum
    obtain ⟨h2, _⟩ := ilog2_bounds q.den_nz
    have hd : (0 : ℚ) < (q.den : ℚ) := by exact_mod_cast q.den_pos
    rw [abs_num_den, div_lt_iff₀ hd]
    have e1 : pow2 ((ilog2 q.num.natAbs q.num.natAbs : Int) - (ilog2 q.den q.den : Int) + 1) *
        pow2 (((ilog2 q.den q.den : Nat) : Int)) =
        pow2 ((ilog2 q.num.natAbs q.num.natAbs + 1 : Nat) : Int) := by
      rw [← pow2_add]
      congr 1
      push_cast
      ring
    have e2 : pow2 (((ilog2 q.den q.den : Nat) : Int)) ≤ (q.den : ℚ) := by
      rw [pow2_natCast]
      exact_mod_cast h2
    have e3 : (q.num.natAbs : ℚ) < pow2 ((ilog2 q.num.natAbs q.num.natAbs + 1 : Nat) : Int) := by
      rw [pow2_natCast]
      exact_mod_cast h1
    calc (q.num.natAbs : ℚ)
        < pow2 ((ilog2 q.num.natAbs q.num.natAbs + 1 : Nat) : Int) := e3
      _ = pow2 ((ilog2 q.num.natAbs q.num.natAbs : Int) - (ilog2 q.den q.den : Int) + 1) *
          pow2 (((ilog2 q.den q.den : Nat) : Int)) := e1.symm
      _ ≤ pow2 ((ilog2 q.num.natAbs q.num.natAbs : Int) - (ilog2 q.den q.den : Int) + 1) *
          (q.den : ℚ) := mul_le_mul_of_nonneg_left e2 (le_of_lt (pow2_pos _))
  · rename_i h
    push_neg at h
    have : (ilog2 q.num.natAbs q.num.natAbs : Int) - (ilog2 q.den q.den : Int) - 1 + 1 =
        (ilog2 q.num.natAbs q.num.natAbs : Int) - (ilog2 q.den q.den : Int) := by ring
    rw [this]
    exact h


/-! ## Quantization -/

theorem clamp_eq (v : ℚ) :
    (if v > 1 then (1 : ℚ) else if v < -1 then -1 else v) = max (-1) (min v 1) := by
  by_cases h1 : v > 1
  · rw [if_pos h1, min_eq_right (le_of_lt h1)]
    exact (max_eq_right (show (-1 : ℚ) ≤ 1 by norm_num)).symm
  · rw [if_neg h1, min_eq_left (not_lt.mp h1)]
    by_cases h2 : v < -1
    · rw [if_pos h2, max_eq_left (le_of_lt h2)]
    · rw [if_neg h2, max_eq_right (not_lt.mp h2)]

/-- The stored sample: the clamped value times 32767, rounded to `float`, truncated. -/
theorem quantize_eq (v : ℚ) : quantize v = trunc (fl 24 (max (-1) (min v 1) * 32767)) := by
  show trunc (fl 24 ((if v > 1 then (1 : ℚ) else if v < -1 then -1 else v) * 32767)) = _
  rw [clamp_eq]

theorem trunc_bounds {q : ℚ} {m : Int} (hlo : -(m : ℚ) ≤ q) (hhi : q ≤ (m : ℚ)) :
    -m ≤ trunc q ∧ trunc q ≤ m := by
  unfold trunc
  split
  · rename_i h
    have h0 : 0 ≤ ⌊q⌋ := Int.floor_nonneg.mpr h
    have hm : (0 : ℚ) ≤ (m : ℚ) := le_trans h hhi
    have hm2 : (0 : Int) ≤ m := by exact_mod_cast hm
    have h2 : ((⌊q⌋ : Int) : ℚ) ≤ (m : ℚ) := le_trans (Int.floor_le q) hhi
    have h3 : ⌊q⌋ ≤ m := by exact_mod_cast h2
    omega
  · rename_i h
    push_neg at h
    have h2 : ((-m : Int) : ℚ) ≤ ((⌈q⌉ : Int) : ℚ) := by
      push_cast
      exact le_trans hlo (Int.le_ceil q)
    have h3 : -m ≤ ⌈q⌉ := by exact_mod_cast h2
    have h0 : ⌈q⌉ ≤ 0 := Int.ceil_le.mpr (by simpa using le_of_lt h)
    have hm : (0 : ℚ) ≤ (m : ℚ) := by linarith
    have hm2 : (0 : Int) ≤ m := by exact_mod_cast hm
    omega

theorem quantize_range (v : ℚ) : -32767 ≤ quantize v ∧ quantize v ≤ 32767 := by
  rw [quantize_eq]
  have h1 : (-1 : ℚ) ≤ max (-1) (min v 1) := le_max_left _ _
  have h2 : max (-1) (min v 1) ≤ (1 : ℚ) := max_le (by norm_num) (min_le_right _ _)
  have hlo := fl_ge 24 32767 (by decide) (q := max (-1) (min v 1) * 32767)
    (by push_cast; linarith)
  have hhi := fl_le 24 32767 (by decide) (q := max (-1) (min v 1) * 32767)
    (by push_cast; linarith)
  have := @trunc_bounds (fl 24 (max (-1) (min v 1) * 32767)) 32767 (by push_cast at hlo ⊢; linarith)
    (by push_cast at hhi ⊢; linarith)
  simpa using this

theorem quantize_hi {v : ℚ} (h : 1 ≤ v) : quantize v = 32767 := by
  rw [quantize_eq, min_eq_right h, max_eq_right (by norm_num)]
  have : ((1 : ℚ) * 32767) = ((32767 : Int) : ℚ) := by norm_num
  rw [this, fl_intCast 24 32767 (by decide), trunc_intCast]

theorem quantize_lo {v : ℚ} (h : v ≤ -1) : quantize v = -32767 := by
  rw [quantize_eq, min_eq_left (by linarith), max_eq_left h]
  have : ((-1 : ℚ) * 32767) = ((-32767 : Int) : ℚ) := by norm_num
  rw [this, fl_intCast 24 (-32767) (by decide), trunc_intCast]

theorem quantize_loop_spec (src : List ℚ) :
    ∀ (n i : Nat) (buf : List Int), i + n ≤ buf.length → i + n ≤ src.length →
      ∃ buf1, quantize_loop src n i (some buf) = Res.ok (some buf1) ∧
        buf1.length = buf.length ∧
        (∀ j, i ≤ j → j < i + n → buf1[j]? = some (quantize (src.getD j 0))) ∧
        (∀ j, (j < i ∨ i + n ≤ j) → buf1[j]? = buf[j]?) := by
  intro n
  induction n with
  | zero =>
    intro i buf _ _
    exact ⟨buf, rfl, rfl, fun j h1 h2 => by omega, fun j _ => rfl⟩
  | succ n ih =>
    intro i buf hb hs
    have hget : src[i]? = some (src.getD i 0) := by
      rw [List.getD_eq_getElem?_getD, List.getElem?_eq_getElem (by omega)]; simp
    have hil : i < buf.length := by omega
    obtain ⟨buf1, h1, h2, h3, h4⟩ := ih (i + 1) (buf.set i (quantize (src.getD i 0)))
      (by simp; omega) (by omega)
    refine ⟨buf1, ?_, by simpa using h2, ?_, ?_⟩
    · simp only [quantize_loop, hget, hil, if_true]
      exact h1
    · intro j hj1 hj2
      by_cases hji : j = i
      · subst hji
        rw [h4 j (Or.inl (by omega))]
        simp [List.getElem?_set, hil]
      · exact h3 j (by omega) (by omega)
    · intro j hj
      rw [h4 j (by omega), List.getElem?_set_ne (by omega)]

theorem interleave_loop_spec (left right : List ℚ) :
    ∀ (n i : Nat) (buf : List ℚ), 2 * (i + n) ≤ buf.length → i + n ≤ left.length →
      i + n ≤ right.length →
      ∃ buf1, interleave_loop left right n i (some buf) = Res.ok (some buf1) ∧
        buf1.length = buf.length ∧
        (∀ j, i ≤ j → j < i + n →
          buf1[2 * j]? = some (left.getD j 0) ∧ buf1[2 * j + 1]? = some (right.getD j 0)) ∧
        (∀ k, (k < 2 * i ∨ 2 * (i + n) ≤ k) → buf1[k]? = buf[k]?) := by
  intro n
  induction n with
  | zero =>
    intro i buf _ _ _
    exact ⟨buf, rfl, rfl, fun j h1 h2 => by omega, fun j _ => rfl⟩
  | succ n ih =>
    intro i buf hb hl hr
    have hgl : left[i]? = some (left.getD i 0) := by
      rw [List.getD_eq_getElem?_getD, List.getElem?_eq_getElem (by omega)]; simp
    have hgr : right[i]? = some (right.getD i 0) := by
      rw [List.getD_eq_getElem?_getD, List.getElem?_eq_getElem (by omega)]; simp
    have hil : 2 * i + 1 < buf.length := by omega
    obtain ⟨buf1, h1, h2, h3, h4⟩ := ih (i + 1)
      ((buf.set (2 * i) (left.getD i 0)).set (2 * i + 1) (right.getD i 0))
      (by simp; omega) (by omega) (by omega)
    refine ⟨buf1, ?_, by simpa using h2, ?_, ?_⟩
    · simp only [interleave_loop, hgl, hgr, hil, if_true]
      exact h1
    · intro j hj1 hj2
      by_cases hji : j = i
      · subst hji
        rw [h4 (2 * j) (Or.inl (by omega)), h4 (2 * j + 1) (Or.inl (by omega))]
        constructor
        · rw [List.getElem?_set_ne (by omega)]
          simp [List.getElem?_set]; omega
        · simp [List.getElem?_set]; omega
      · exact h3 j (by omega) (by omega)
    · intro k hk
      rw [h4 k (by omega), List.getElem?_set_ne (by omega), List.getElem?_set_ne (by omega)]

/-! ## Connection acceptor -/

theorem srt_stream_accept_state (pending : List SRTSOCKET) :
    ∀ sdata : srt_stream_data, (srt_stream_accept sdata pending).1 =
      { sdata with clients := sdata.clients ++ (accepted pending).map new_client } := by
  induction pending with
  | nil => intro sdata; simp [srt_stream_accept, accepted]
  | cons s rest ih =>
    intro sdata
    by_cases h : s = SRT_INVALID_SOCK
    · simp [srt_stream_accept, accepted, h]
    · simp only [srt_stream_accept, h, if_false, ih]
      have : accepted (s :: rest) = s :: accepted rest := by
        simp [accepted, List.takeWhile_cons, h]
      simp [this, new_client]

theorem socket_options_events (m : srt_modes) (s : SRTSOCKET) :
    ∀ e ∈ socket_options m s, is_send e = false ∧ (∀ t, on_socket t e = false) := by
  cases m <;> simp [socket_options, is_send, on_socket]

theorem srt_stream_accept_events (pending : List SRTSOCKET) :
    ∀ sdata : srt_stream_data, ∀ e ∈ (srt_stream_accept sdata pending).2,
      is_send e = false ∧ (∀ s, on_socket s e = false) := by
  induction pending with
  | nil =>
    intro sdata e he
    simp [srt_stream_accept] at he
    subst he
    simp [is_send, on_socket]
  | cons s rest ih =>
    intro sdata e he
    by_cases h : s = SRT_INVALID_SOCK
    · simp [srt_stream_accept, h] at he
      subst he
      simp [is_send, on_socket]
    · rw [srt_stream_accept, if_neg h] at he
      simp only [List.mem_cons, List.mem_append] at he
      rcases he with (h1 | h1) | h1
      · subst h1; simp [is_send, on_socket]
      · exact socket_options_events _ _ e h1
      · exact ih _ e h1

/-! ## Chunk loop -/

theorem send_chunks_fuel (payload_size : Int) (sock : SRTSOCKET) (data : List Nat)
    (ans : Nat → SendAnswer) :
    ∀ (fuel k : Nat) (ptr : Int) (remaining : Nat) (r : ChunkExit × List Event),
      send_chunks payload_size sock data ans fuel k ptr remaining = Res.ok r →
      ∀ fuel2, fuel ≤ fuel2 →
        send_chunks payload_size sock data ans fuel2 k ptr remaining = Res.ok r := by
  intro fuel
  induction fuel with
  | zero =>
    intro k ptr remaining r h fuel2 _
    unfold send_chunks at h ⊢
    by_cases hr : remaining > 0
    · simp [hr] at h
    · simp only [hr, if_false] at h ⊢
      exact h
  | succ fuel ih =>
    intro k ptr remaining r h fuel2 hle
    obtain ⟨f2, rfl⟩ : ∃ f2, fuel2 = f2 + 1 := ⟨fuel2 - 1, by omega⟩
    unfold send_chunks at h ⊢
    by_cases hr : remaining > 0
    · simp only [hr, if_true] at h ⊢
      by_cases he : (ans k).ret = SRT_ERROR
      · simp only [he, if_true] at h ⊢
        exact h
      · simp only [he, if_false] at h ⊢
        split at h
        · rename_i e evs heq
          rw [ih _ _ _ _ heq f2 (by omega)]
          exact h
        · cases h
        · cases h
    · simp only [hr, if_false] at h ⊢
      exact h

theorem send_chunks_det (payload_size : Int) (sock : SRTSOCKET) (data : List Nat)
    (ans : Nat → SendAnswer) (f1 f2 k : Nat) (ptr : Int) (remaining : Nat)
    (r1 r2 : ChunkExit × List Event)
    (h1 : send_chunks payload_size sock data ans f1 k ptr remaining = Res.ok r1)
    (h2 : send_chunks payload_size sock data ans f2 k ptr remaining = Res.ok r2) : r1 = r2 := by
  rcases Nat.le_total f1 f2 with h | h
  · have := send_chunks_fuel payload_size sock data ans f1 k ptr remaining r1 h1 f2 h
    rw [this] at h2
    cases h2; rfl
  · have := send_chunks_fuel payload_size sock data ans f2 k ptr remaining r2 h2 f1 h
    rw [this] at h1
    cases h1; rfl

/-- What the chunk loop logs: only payload sends and closes on its socket, a close exactly
when it is left on a fatal answer, and a fatal answer exactly then. -/
theorem send_chunks_log (payload_size : Int) (sock : SRTSOCKET) (data : List Nat)
    (ans : Nat → SendAnswer) :
    ∀ (fuel k : Nat) (ptr : Int) (remaining : Nat) (e : ChunkExit) (evs : List Event),
      send_chunks payload_size sock data ans fuel k ptr remaining = Res.ok (e, evs) →
      (∀ ev ∈ evs, on_socket sock ev = true) ∧
      closes evs = (if e = ChunkExit.fatal then [sock] else []) ∧
      payload_evicting evs = decide (e = ChunkExit.fatal) ∧
      (∀ ev ∈ evs, ∀ s buf l a, ev ≠ Event.send SendSite.header s buf l a) := by
  intro fuel
  induction fuel with
  | zero =>
    intro k ptr remaining e evs h
    unfold send_chunks at h
    by_cases hr : remaining > 0
    · simp [hr] at h
    · simp only [hr, if_false, Res.ok.injEq, Prod.mk.injEq] at h
      obtain ⟨rfl, rfl⟩ := h
      simp [closes, payload_evicting]
  | succ fuel ih =>
    intro k ptr remaining e evs h
    unfold send_chunks at h
    by_cases hr : remaining > 0
    · simp only [hr, if_true] at h
      by_cases he : (ans k).ret = SRT_ERROR
      · simp only [he, if_true] at h
        by_cases hs : (ans k).serr = SRT_EASYNCSND
        · simp only [hs, if_true, Res.ok.injEq, Prod.mk.injEq] at h
          obtain ⟨rfl, rfl⟩ := h
          simp [closes, payload_evicting, on_socket, evicting_answer, he, hs]
        · simp only [hs, if_false, Res.ok.injEq, Prod.mk.injEq] at h
          obtain ⟨rfl, rfl⟩ := h
          simp [closes, payload_evicting, on_socket, evicting_answer, he, hs]
      · simp only [he, if_false] at h
        split at h
        · rename_i e1 evs1 heq
          simp only [Res.ok.injEq, Prod.mk.injEq] at h
          obtain ⟨rfl, rfl⟩ := h
          obtain ⟨h1, h2, h3, h4⟩ := ih _ _ _ _ _ heq
          refine ⟨?_, ?_, ?_, ?_⟩
          · intro ev hev
            rcases List.mem_cons.mp hev with rfl | hev
            · simp [on_socket]
            · exact h1 ev hev
          · simpa [closes] using h2
          · simpa [payload_evicting, evicting_answer, he] using h3
          · intro ev hev
            rcases List.mem_cons.mp hev with rfl | hev
            · intro s buf l a; simp
            · exact h4 ev hev
        · cases h
        · cases h
    · simp only [hr, if_false, Res.ok.injEq, Prod.mk.injEq] at h
      obtain ⟨rfl, rfl⟩ := h
      simp [closes, payload_evicting]

/-- The chunk size for a positive payload size: the smaller of what remains and the
payload size. -/
theorem chunk_eq_min {payload_size : Int} (h0 : 0 ≤ payload_size) (h1 : payload_size < 2 ^ 31)
    (remaining : Nat) :
    to_int (if remaining > to_u64 payload_size then to_u64 payload_size else remaining) =
      min (remaining : Int) payload_size := by
  have hu : to_u64 payload_size = payload_size.toNat := by
    unfold to_u64
    rw [Int.emod_eq_of_lt h0 (by omega)]
  rw [hu]
  unfold to_int
  split <;> split <;> omega

/-- With a positive payload size the chunk loop returns as soon as the fuel exceeds the
number of bytes to send. -/
theorem send_chunks_total {payload_size : Int} (h0 : 0 < payload_size)
    (h1 : payload_size < 2 ^ 31) (sock : SRTSOCKET) (data : List Nat) (ans : Nat → SendAnswer) :
    ∀ (fuel k : Nat) (ptr : Int) (remaining : Nat), remaining ≤ fuel → remaining < 2 ^ 64 →
      ∃ r, send_chunks payload_size sock data ans fuel k ptr remaining = Res.ok r := by
  intro fuel
  induction fuel with
  | zero =>
    intro k ptr remaining h _
    have : remaining = 0 := by omega
    subst this
    exact ⟨(ChunkExit.done, []), by unfold send_chunks; simp⟩
  | succ fuel ih =>
    intro k ptr remaining h hlt
    unfold send_chunks
    by_cases hr : remaining > 0
    · simp only [hr, if_true]
      by_cases he : (ans k).ret = SRT_ERROR
      · simp only [he, if_true]
        split <;> exact ⟨_, rfl⟩
      · simp only [he, if_false]
        rw [chunk_eq_min (le_of_lt h0) h1]
        have hrem : to_u64 ((remaining : Int) - min (remaining : Int) payload_size) ≤ fuel ∧
            to_u64 ((remaining : Int) - min (remaining : Int) payload_size) < 2 ^ 64 := by
          unfold to_u64
          rw [Int.emod_eq_of_lt (by omega) (by omega)]
          omega
        obtain ⟨r, hr2⟩ := ih (k + 1) (ptr + min (remaining : Int) payload_size) _ hrem.1 hrem.2
        rw [hr2]
        exact ⟨_, rfl⟩
    · simp only [hr, if_false]
      exact ⟨_, rfl⟩

/-! ## Fan-out loop -/

theorem send_client_clients (sdata : srt_stream_data) (cl : List srt_client) (tr : Transport)
    (data : List Nat) (len fuel : Nat) (c : srt_client) :
    send_client { sdata with clients := cl } tr data len fuel c =
      send_client sdata tr data len fuel c := by
  simp [send_client, srt_stream_send_header, wav_header]

theorem send_client_eq (sdata : srt_stream_data) (tr : Transport) (data : List Nat)
    (len fuel : Nat) (c : srt_client) :
    send_client sdata tr data len fuel c =
      match send_chunks sdata.payload_size c.sock data
          (fun k => tr.answer c.sock ((client_header sdata tr c).length + k)) fuel 0 0 len with
      | Res.ok (e, evs) => Res.ok (mark_header sdata.format c, e, client_header sdata tr c ++ evs)
      | Res.fault => Res.fault
      | Res.nofuel => Res.nofuel := rfl

theorem client_header_cases (sdata : srt_stream_data) (tr : Transport) (c : srt_client) :
    client_header sdata tr c = [] ∨
      (sdata.format = SRT_STREAM_WAV ∧ c.header_sent = false ∧ client_header sdata tr c =
        [Event.send SendSite.header c.sock (wav_header sdata) 44 (tr.answer c.sock 0)]) := by
  unfold client_header srt_stream_send_header
  by_cases h : sdata.format = SRT_STREAM_WAV ∧ c.header_sent = false
  · right
    simp [h, h.1]
  · left
    simp [h]

/-- What one visit of the fan-out loop logs and returns. -/
theorem send_client_log (sdata : srt_stream_data) (tr : Transport) (data : List Nat)
    (len fuel : Nat) (c c1 : srt_client) (e : ChunkExit) (evs : List Event)
    (h : send_client sdata tr data len fuel c = Res.ok (c1, e, evs)) :
    c1 = mark_header sdata.format c ∧
      (∀ ev ∈ evs, on_socket c.sock ev = true) ∧
      closes evs = (if e = ChunkExit.fatal then [c.sock] else []) ∧
      payload_evicting evs = decide (e = ChunkExit.fatal) := by
  rw [send_client_eq] at h
  cases hsc : send_chunks sdata.payload_size c.sock data
      (fun k => tr.answer c.sock ((client_header sdata tr c).length + k)) fuel 0 0 len with
  | fault => simp [hsc] at h
  | nofuel => simp [hsc] at h
  | ok r =>
    obtain ⟨e1, evs1⟩ := r
    simp only [hsc, Res.ok.injEq, Prod.mk.injEq] at h
    obtain ⟨rfl, rfl, rfl⟩ := h
    obtain ⟨h1, h2, h3, _⟩ := send_chunks_log _ _ _ _ _ _ _ _ _ _ hsc
    rcases client_header_cases sdata tr c with hh | ⟨_, _, hh⟩
    · rw [hh]
      exact ⟨rfl, by simpa using h1, by simpa using h2, by simpa using h3⟩
    · rw [hh]
      refine ⟨rfl, ?_, ?_, ?_⟩
      · intro ev hev
        rcases List.mem_cons.mp hev with rfl | hev
        · simp [on_socket]
        · exact h1 ev hev
      · simpa [closes] using h2
      · simpa [payload_evicting] using h3

/-- A visit depends on the instance only through its configuration, on the transport only
through the answers on the client's own socket, and not on the fuel. -/
theorem send_client_det (sd1 sd2 : srt_stream_data) (tr1 tr2 : Transport) (data : List Nat)
    (len f1 f2 : Nat) (c : srt_client) (v1 v2 : srt_client × ChunkExit × List Event)
    (hf : sd1.format = sd2.format) (hp : sd1.payload_size = sd2.payload_size)
    (hm : sd1.mode = sd2.mode) (hr : sd1.sample_rate = sd2.sample_rate)
    (ha : tr1.answer c.sock = tr2.answer c.sock)
    (h1 : send_client sd1 tr1 data len f1 c = Res.ok v1)
    (h2 : send_client sd2 tr2 data len f2 c = Res.ok v2) : v1 = v2 := by
  have hw : wav_header sd1 = wav_header sd2 := by simp [wav_header, hm, hr]
  have hh : client_header sd1 tr1 c = client_header sd2 tr2 c := by
    simp [client_header, srt_stream_send_header, hf, ha, hw]
  rw [send_client_eq] at h1 h2
  rw [hf, hp, ha, hh] at h1
  cases hs1 : send_chunks sd2.payload_size c.sock data
      (fun k => tr2.answer c.sock ((client_header sd2 tr2 c).length + k)) f1 0 0 len with
  | fault => simp [hs1] at h1
  | nofuel => simp [hs1] at h1
  | ok r1 =>
    cases hs2 : send_chunks sd2.payload_size c.sock data
        (fun k => tr2.answer c.sock ((client_header sd2 tr2 c).length + k)) f2 0 0 len with
    | fault => simp [hs2] at h2
    | nofuel => simp [hs2] at h2
    | ok r2 =>
      have := send_chunks_det _ _ _ _ _ _ _ _ _ _ _ hs1 hs2
      subst this
      simp only [hs1] at h1
      simp only [hs2] at h2
      exact Res.ok.inj (h1.symm.trans h2)

theorem send_client_total (sdata : srt_stream_data) (tr : Transport) (data : List Nat)
    (len fuel : Nat) (c : srt_client) (h0 : 0 < sdata.payload_size)
    (h1 : sdata.payload_size < 2 ^ 31) (hl : len ≤ fuel) (hlen : len < 2 ^ 64) :
    ∃ v, send_client sdata tr data len fuel c = Res.ok v := by
  rw [send_client_eq]
  obtain ⟨r, hr⟩ := send_chunks_total h0 h1 c.sock data
    (fun k => tr.answer c.sock ((client_header sdata tr c).length + k)) fuel 0 0 len hl hlen
  rw [hr]
  exact ⟨_, rfl⟩

/-- The loop with erase-under-the-iterator is a stable filter: it visits every client
from the iterator on, once and in order, keeps the prefix before the iterator, and keeps
of the visited clients those whose visit did not end on a fatal answer. -/
theorem send_loop_visits (sdata : srt_stream_data) (tr : Transport) (data : List Nat)
    (len fuel : Nat) :
    ∀ (post : List srt_client) (n : Nat) (pre cl : List srt_client) (ev : List Event),
      send_loop sdata tr data len fuel n (pre ++ post) pre.length = Res.ok (cl, ev) →
      ∃ visits, List.Forall₂ (fun c v => send_client sdata tr data len fuel c = Res.ok v)
          post visits ∧ cl = pre ++ kept visits ∧ ev = logged visits := by
  intro post
  induction post with
  | nil =>
    intro n pre cl ev h
    unfold send_loop at h
    simp at h
    obtain ⟨rfl, rfl⟩ := h
    exact ⟨[], List.Forall₂.nil, by simp [kept], by simp [logged]⟩
  | cons c rest ih =>
    intro n pre cl ev h
    unfold send_loop at h
    have hget : (pre ++ c :: rest)[pre.length]? = some c := by
      rw [List.getElem?_append_right (le_refl _)]; simp
    simp only [hget] at h
    cases n with
    | zero => simp at h
    | succ n =>
      simp only at h
      cases hv : send_client sdata tr data len fuel c with
      | fault => simp [hv] at h
      | nofuel => simp [hv] at h
      | ok v =>
        obtain ⟨c1, e, evs⟩ := v
        simp only [hv] at h
        by_cases hfat : e = ChunkExit.fatal
        · simp only [hfat, if_true] at h
          have herase : (pre ++ c :: rest).eraseIdx pre.length = pre ++ rest := by
            rw [List.eraseIdx_append_of_length_le (le_refl _)]
            simp
          rw [herase] at h
          split at h
          · rename_i cl2 evs2 heq
            simp only [Res.ok.injEq, Prod.mk.injEq] at h
            obtain ⟨rfl, rfl⟩ := h
            obtain ⟨visits, hv1, hv2, hv3⟩ := ih n pre _ _ heq
            refine ⟨(c1, e, evs) :: visits, List.Forall₂.cons hv hv1, ?_, ?_⟩
            · simp [kept, hfat] at hv2 ⊢
              exact hv2
            · simp [logged] at hv3 ⊢
              exact hv3
          · cases h
          · cases h
        · simp only [hfat, if_false] at h
          have hset : (pre ++ c :: rest).set pre.length c1 = (pre ++ [c1]) ++ rest := by
            rw [List.set_append_right _ _ (le_refl _)]
            simp
          have hlen : pre.length + 1 = (pre ++ [c1]).length := by simp
          rw [hset, hlen] at h
          split at h
          · rename_i cl2 evs2 heq
            simp only [Res.ok.injEq, Prod.mk.injEq] at h
            obtain ⟨rfl, rfl⟩ := h
            obtain ⟨visits, hv1, hv2, hv3⟩ := ih n (pre ++ [c1]) _ _ heq
            refine ⟨(c1, e, evs) :: visits, List.Forall₂.cons hv hv1, ?_, ?_⟩
            · simp [kept, hfat] at hv2 ⊢
              exact hv2
            · simp [logged] at hv3 ⊢
              exact hv3
          · cases h
          · cases h

theorem send_loop_total (sdata : srt_stream_data) (tr : Transport) (data : List Nat)
    (len fuel : Nat) :
    ∀ (post : List srt_client) (n : Nat) (pre : List srt_client),
      (∀ c, ∃ v, send_client sdata tr data len fuel c = Res.ok v) → post.length ≤ n →
      ∃ r, send_loop sdata tr data len fuel n (pre ++ post) pre.length = Res.ok r := by
  intro post
  induction post with
  | nil =>
    intro n pre _ _
    unfold send_loop
    simp
  | cons c rest ih =>
    intro n pre hall hn
    unfold send_loop
    have hget : (pre ++ c :: rest)[pre.length]? = some c := by
      rw [List.getElem?_append_right (le_refl _)]; simp
    simp only [hget]
    obtain ⟨m, rfl⟩ : ∃ m, n = m + 1 := ⟨n - 1, by simp at hn; omega⟩
    obtain ⟨⟨c1, e, evs⟩, hv⟩ := hall c
    simp only [hv]
    by_cases hfat : e = ChunkExit.fatal
    · simp only [hfat, if_true]
      have herase : (pre ++ c :: rest).eraseIdx pre.length = pre ++ rest := by
        rw [List.eraseIdx_append_of_length_le (le_refl _)]
        simp
      rw [herase]
      obtain ⟨r, hr⟩ := ih m pre hall (by simp at hn; omega)
      rw [hr]
      exact ⟨_, rfl⟩
    · simp only [hfat, if_false]
      have hset : (pre ++ c :: rest).set pre.length c1 = (pre ++ [c1]) ++ rest := by
        rw [List.set_append_right _ _ (le_refl _)]
        simp
      have hlen : pre.length + 1 = (pre ++ [c1]).length := by simp
      rw [hset, hlen]
      obtain ⟨r, hr⟩ := ih m (pre ++ [c1]) hall (by simp at hn; omega)
      rw [hr]
      exact ⟨_, rfl⟩

/-! ## `srt_stream_send` -/

theorem srt_stream_send_invalid (fuel : Nat) (tr : Transport) (sdata : srt_stream_data)
    (data : List Nat) (len : Nat) (h : sdata.listen_socket = SRT_INVALID_SOCK) :
    srt_stream_send fuel tr sdata data len = Res.ok (sdata, []) := by
  simp [srt_stream_send, h]

/-- One fan-out is the acceptor followed by one visit of every client of the registry as
extended by the acceptor, in order. -/
theorem srt_stream_send_visits (fuel : Nat) (tr : Transport) (sdata sdata1 : srt_stream_data)
    (data : List Nat) (len : Nat) (ev : List Event)
    (hl : sdata.listen_socket ≠ SRT_INVALID_SOCK)
    (h : srt_stream_send fuel tr sdata data len = Res.ok (sdata1, ev)) :
    ∃ visits, List.Forall₂ (fun c v => send_client sdata tr data len fuel c = Res.ok v)
        (sdata.clients ++ (accepted tr.pending).map new_client) visits ∧
      sdata1 = { sdata with clients := kept visits } ∧
      ev = (srt_stream_accept sdata tr.pending).2 ++ logged visits := by
  unfold srt_stream_send at h
  rw [if_neg hl] at h
  have ha1 := srt_stream_accept_state tr.pending sdata
  generalize srt_stream_accept sdata tr.pending = a at h ha1
  obtain ⟨a1, a2⟩ := a
  simp only at h ha1
  cases hloop : send_loop a1 tr data len fuel a1.clients.length a1.clients 0 with
  | fault => rw [hloop] at h; cases h
  | nofuel => rw [hloop] at h; cases h
  | ok r =>
    obtain ⟨cl, evs⟩ := r
    rw [hloop] at h
    simp only [Res.ok.injEq, Prod.mk.injEq] at h
    obtain ⟨rfl, rfl⟩ := h
    obtain ⟨visits, h1, h2, h3⟩ := send_loop_visits a1 tr data len fuel a1.clients
      a1.clients.length [] cl evs (by simpa using hloop)
    subst ha1
    refine ⟨visits, ?_, by simp [h2], by rw [h3]⟩
    simpa only [send_client_clients] using h1

theorem srt_stream_send_total (fuel : Nat) (tr : Transport) (sdata : srt_stream_data)
    (data : List Nat) (len : Nat) (h0 : 0 < sdata.payload_size)
    (h1 : sdata.payload_size < 2 ^ 31) (hl : len ≤ fuel) (hlen : len < 2 ^ 64) :
    ∃ r, srt_stream_send fuel tr sdata data len = Res.ok r := by
  unfold srt_stream_send
  by_cases hv : sdata.listen_socket = SRT_INVALID_SOCK
  · rw [if_pos hv]; exact ⟨_, rfl⟩
  · rw [if_neg hv]
    have ha1 := srt_stream_accept_state tr.pending sdata
    generalize srt_stream_accept sdata tr.pending = a at ha1
    obtain ⟨a1, a2⟩ := a
    simp only at ha1
    obtain ⟨r, hr⟩ := send_loop_total a1 tr data len fuel a1.clients a1.clients.length []
      (fun c => send_client_total a1 tr data len fuel c (by rw [ha1]; exact h0)
        (by rw [ha1]; exact h1) hl hlen) (le_refl _)
    simp only [List.nil_append, List.length_nil] at hr
    simp only [hr]
    exact ⟨_, rfl⟩

/-- The fan-out changes nothing of the instance but the registry. -/
theorem srt_stream_send_frame (fuel : Nat) (tr : Transport) (sdata sdata1 : srt_stream_data)
    (data : List Nat) (len : Nat) (ev : List Event)
    (h : srt_stream_send fuel tr sdata data len = Res.ok (sdata1, ev)) :
    sdata1 = { sdata with clients := sdata1.clients } := by
  by_cases hv : sdata.listen_socket = SRT_INVALID_SOCK
  · rw [srt_stream_send_invalid _ _ _ _ _ hv] at h
    cases h; rfl
  · obtain ⟨visits, _, h2, _⟩ := srt_stream_send_visits _ _ _ _ _ _ _ hv h
    rw [h2]

/-! ## Eviction (C5) -/

/-- Every event of a chunk-loop log is a payload send carrying one of the transport's
answers, or the close of the socket. -/
theorem send_chunks_answers (payload_size : Int) (sock : SRTSOCKET) (data : List Nat)
    (ans : Nat → SendAnswer) :
    ∀ (fuel k : Nat) (ptr : Int) (remaining : Nat) (e : ChunkExit) (evs : List Event),
      send_chunks payload_size sock data ans fuel k ptr remaining = Res.ok (e, evs) →
      ∀ ev ∈ evs, (∃ j buf l, ev = Event.send SendSite.payload sock buf l (ans j)) ∨
        ev = Event.close sock := by
  intro fuel
  induction fuel with
  | zero =>
    intro k ptr remaining e evs h
    unfold send_chunks at h
    by_cases hr : remaining > 0
    · simp [hr] at h
    · simp only [hr, if_false, Res.ok.injEq, Prod.mk.injEq] at h
      obtain ⟨rfl, rfl⟩ := h
      simp
  | succ fuel ih =>
    intro k ptr remaining e evs h
    unfold send_chunks at h
    by_cases hr : remaining > 0
    · simp only [hr, if_true] at h
      by_cases he : (ans k).ret = SRT_ERROR
      · simp only [he, if_true] at h
        by_cases hs : (ans k).serr = SRT_EASYNCSND
        · simp only [hs, if_true, Res.ok.injEq, Prod.mk.injEq] at h
          obtain ⟨rfl, rfl⟩ := h
          intro ev hev
          simp only [List.mem_singleton] at hev
          exact Or.inl ⟨k, _, _, hev⟩
        · simp only [hs, if_false, Res.ok.injEq, Prod.mk.injEq] at h
          obtain ⟨rfl, rfl⟩ := h
          intro ev hev
          simp only [List.mem_cons, List.mem_singleton, List.not_mem_nil, or_false] at hev
          rcases hev with hev | hev
          · exact Or.inl ⟨k, _, _, hev⟩
          · exact Or.inr hev
      · simp only [he, if_false] at h
        split at h
        · rename_i e1 evs1 heq
          simp only [Res.ok.injEq, Prod.mk.injEq] at h
          obtain ⟨rfl, rfl⟩ := h
          intro ev hev
          rcases List.mem_cons.mp hev with hev | hev
          · exact Or.inl ⟨k, _, _, hev⟩
          · exact ih _ _ _ _ _ heq ev hev
        · cases h
        · cases h
    · simp only [hr, if_false, Res.ok.injEq, Prod.mk.injEq] at h
      obtain ⟨rfl, rfl⟩ := h
      simp

/-- A client whose sends are never answered with an error is not evicted. -/
theorem send_client_no_error (sdata : srt_stream_data) (tr : Transport) (data : List Nat)
    (len fuel : Nat) (c c1 : srt_client) (e : ChunkExit) (evs : List Event)
    (hok : ∀ k, (tr.answer c.sock k).ret ≠ SRT_ERROR)
    (h : send_client sdata tr data len fuel c = Res.ok (c1, e, evs)) :
    e ≠ ChunkExit.fatal := by
  rw [send_client_eq] at h
  cases hsc : send_chunks sdata.payload_size c.sock data
      (fun k => tr.answer c.sock ((client_header sdata tr c).length + k)) fuel 0 0 len with
  | fault => simp [hsc] at h
  | nofuel => simp [hsc] at h
  | ok r =>
    obtain ⟨e1, evs1⟩ := r
    simp only [hsc, Res.ok.injEq, Prod.mk.injEq] at h
    obtain ⟨_, rfl, _⟩ := h
    obtain ⟨_, _, h3, _⟩ := send_chunks_log _ _ _ _ _ _ _ _ _ _ hsc
    have hans := send_chunks_answers _ _ _ _ _ _ _ _ _ _ hsc
    have hnf : payload_evicting evs1 = false := by
      unfold payload_evicting
      rw [List.any_eq_false]
      intro ev hev
      rcases hans ev hev with ⟨j, buf, l, rfl⟩ | rfl
      · simp [evicting_answer, hok]
      · simp
    rw [hnf] at h3
    simpa using h3.symm

/-- A client whose sends are all given an evicting answer is evicted by a fan-out of a
non-empty payload. -/
theorem send_client_all_evicting (sdata : srt_stream_data) (tr : Transport) (data : List Nat)
    (len fuel : Nat) (c c1 : srt_client) (e : ChunkExit) (evs : List Event)
    (hfat : ∀ k, evicting_answer (tr.answer c.sock k) = true) (hlen : 0 < len)
    (h : send_client sdata tr data len fuel c = Res.ok (c1, e, evs)) :
    e = ChunkExit.fatal := by
  rw [send_client_eq] at h
  have hf := hfat ((client_header sdata tr c).length + 0)
  simp only [evicting_answer, Bool.and_eq_true, decide_eq_true_eq] at hf
  cases fuel with
  | zero =>
    unfold send_chunks at h
    simp [hlen] at h
  | succ fuel =>
    unfold send_chunks at h
    simp only [gt_iff_lt, hlen, if_true, hf.1, hf.2, if_false, Res.ok.injEq, Prod.mk.injEq] at h
    exact h.2.1.symm

/-- The per-client logs of a sequence of visits determine who stays and who is closed. -/
theorem visits_facts (sdata : srt_stream_data) (tr : Transport) (data : List Nat)
    (len fuel : Nat) :
    ∀ (all : List srt_client) (visits : List (srt_client × ChunkExit × List Event)),
      List.Forall₂ (fun c v => send_client sdata tr data len fuel c = Res.ok v) all visits →
      (visits.map (fun v => v.2.2)).length = all.length ∧
      logged visits = (visits.map (fun v => v.2.2)).flatten ∧
      (∀ p ∈ all.zip (visits.map (fun v => v.2.2)), ∀ e ∈ p.2, on_socket p.1.sock e = true) ∧
      kept visits = ((all.zip (visits.map (fun v => v.2.2))).filter
        (fun p => !payload_evicting p.2)).map (fun p => mark_header sdata.format p.1) ∧
      closes (logged visits) = ((all.zip (visits.map (fun v => v.2.2))).filter
        (fun p => payload_evicting p.2)).map (fun p => p.1.sock) := by
  intro all visits h
  induction h with
  | nil => simp [logged, kept, closes]
  | @cons c v all visits hv _ ih =>
    obtain ⟨c1, e, evs⟩ := v
    obtain ⟨h1, h2, h3, h4⟩ := send_client_log _ _ _ _ _ _ _ _ _ hv
    obtain ⟨i1, i2, i3, i4, i5⟩ := ih
    refine ⟨by simp [i1], ?_, ?_, ?_, ?_⟩
    · simp only [logged, List.flatMap_cons, List.map_cons, List.flatten_cons] at i2 ⊢
      rw [i2]
    · intro p hp ev hev
      simp only [List.map_cons, List.zip_cons_cons, List.mem_cons] at hp
      rcases hp with rfl | hp
      · exact h2 ev hev
      · exact i3 p hp ev hev
    · by_cases hfat : e = ChunkExit.fatal
      · simp only [kept, List.map_cons, List.zip_cons_cons] at i4 ⊢
        simp [List.filter_cons, h4, hfat]
        simpa using i4
      · simp only [kept, List.map_cons, List.zip_cons_cons] at i4 ⊢
        simp [List.filter_cons, h4, hfat, h1]
        simpa using i4
    · have hl : logged ((c1, e, evs) :: visits) = evs ++ logged visits := by simp [logged]
      have hc : closes (evs ++ logged visits) = closes evs ++ closes (logged visits) := by
        simp [closes]
      rw [hl, hc, h3, i5]
      by_cases hfat : e = ChunkExit.fatal
      · simp [List.filter_cons, h4, hfat]
      · simp [List.filter_cons, h4, hfat]

theorem closes_accept (sdata : srt_stream_data) (pending : List SRTSOCKET) :
    closes (srt_stream_accept sdata pending).2 = [] := by
  unfold closes
  rw [List.filterMap_eq_nil_iff]
  intro e he
  have := (srt_stream_accept_events pending sdata e he).2
  cases e <;> simp [on_socket] at this ⊢

/-- The registry after a fan-out.  When a fan-out on a listening instance returns, its log
is the acceptor's log followed by one log per client of (old registry followed by the
newly accepted clients), in order, each holding only calls on that client's socket; the
registry afterwards holds exactly the clients whose log has no payload send with an
evicting answer, in the same order (with the header flag set for WAV), and `srt_close` was
called on exactly the others.  With a payload size in `1 .. 2^31 - 1` the call returns.
With two registered clients, one always given an evicting answer and one never an error, a
non-empty fan-out leaves exactly the second registered and closes exactly the first. -/
theorem srt_stream_send_registry (fuel : Nat) (tr : Transport) (sdata sdata1 : srt_stream_data)
    (data : List Nat) (len : Nat) (ev : List Event)
    (hl : sdata.listen_socket ≠ SRT_INVALID_SOCK)
    (h : srt_stream_send fuel tr sdata data len = Res.ok (sdata1, ev)) :
    (∃ logs : List (List Event),
      logs.length = (sdata.clients ++ (accepted tr.pending).map new_client).length ∧
      ev = (srt_stream_accept sdata tr.pending).2 ++ logs.flatten ∧
      (∀ p ∈ (sdata.clients ++ (accepted tr.pending).map new_client).zip logs,
        ∀ e ∈ p.2, on_socket p.1.sock e = true) ∧
      sdata1.clients = (((sdata.clients ++ (accepted tr.pending).map new_client).zip logs).filter
        (fun p => !payload_evicting p.2)).map (fun p => mark_header sdata.format p.1) ∧
      closes ev = (((sdata.clients ++ (accepted tr.pending).map new_client).zip logs).filter
        (fun p => payload_evicting p.2)).map (fun p => p.1.sock) ∧
      sdata1 = { sdata with clients := sdata1.clients }) ∧
    (∀ (tr2 : Transport) (sd : srt_stream_data) (data2 : List Nat) (len2 : Nat),
      0 < sd.payload_size → sd.payload_size < 2 ^ 31 → len2 < 2 ^ 64 →
      ∃ r, srt_stream_send len2 tr2 sd data2 len2 = Res.ok r) ∧
    (∀ (tr2 : Transport) (sd : srt_stream_data) (data2 : List Nat) (len2 : Nat)
      (a b : srt_client),
      sd.listen_socket ≠ SRT_INVALID_SOCK → (sd.clients = [a, b] ∨ sd.clients = [b, a]) →
      accepted tr2.pending = [] →
      (∀ k, evicting_answer (tr2.answer a.sock k) = true) →
      (∀ k, (tr2.answer b.sock k).ret ≠ SRT_ERROR) →
      0 < len2 → len2 < 2 ^ 64 → 0 < sd.payload_size → sd.payload_size < 2 ^ 31 →
      ∃ ev2, srt_stream_send len2 tr2 sd data2 len2 =
          Res.ok ({ sd with clients := [mark_header sd.format b] }, ev2) ∧
        closes ev2 = [a.sock]) := by
  refine ⟨?_, ?_, ?_⟩
  · obtain ⟨visits, hv, h2, h3⟩ := srt_stream_send_visits _ _ _ _ _ _ _ hl h
    obtain ⟨i1, i2, i3, i4, i5⟩ := visits_facts _ _ _ _ _ _ _ hv
    refine ⟨visits.map (fun v => v.2.2), i1, by rw [h3, i2], i3, ?_, ?_, ?_⟩
    · rw [h2]; exact i4
    · rw [h3]
      have : closes ((srt_stream_accept sdata tr.pending).2 ++ logged visits) =
          closes (srt_stream_accept sdata tr.pending).2 ++ closes (logged visits) := by
        simp [closes]
      rw [this, closes_accept, i5]
      rfl
    · rw [h2]
  · intro tr2 sd data2 len2 h0 h1 hlen
    exact srt_stream_send_total len2 tr2 sd data2 len2 h0 h1 (le_refl _) hlen
  · intro tr2 sd data2 len2 a b hl2 hcl hacc hfat hok hpos hlen h0 h1
    obtain ⟨⟨s2, ev2⟩, hr⟩ := srt_stream_send_total len2 tr2 sd data2 len2 h0 h1 (le_refl _) hlen
    obtain ⟨visits, hv, h2, h3⟩ := srt_stream_send_visits _ _ _ _ _ _ _ hl2 hr
    obtain ⟨_, _, _, _, i5⟩ := visits_facts _ _ _ _ _ _ _ hv
    have hcl5 : closes ev2 = closes (logged visits) := by
      rw [h3]
      have : closes ((srt_stream_accept sd tr2.pending).2 ++ logged visits) =
          closes (srt_stream_accept sd tr2.pending).2 ++ closes (logged visits) := by
        simp [closes]
      rw [this, closes_accept]
      rfl
    rw [hacc] at hv
    simp only [List.map_nil, List.append_nil] at hv
    rcases hcl with hcl | hcl
    · rw [hcl] at hv
      obtain ⟨va, _, ha, hrest, rfl⟩ := List.forall₂_cons_left_iff.mp hv
      obtain ⟨vb, _, hb, hnil, rfl⟩ := List.forall₂_cons_left_iff.mp hrest
      obtain rfl := List.forall₂_nil_left_iff.mp hnil
      obtain ⟨a1, ea, la⟩ := va
      obtain ⟨b1, eb, lb⟩ := vb
      have hea := send_client_all_evicting _ _ _ _ _ _ _ _ _ hfat hpos ha
      have heb := send_client_no_error _ _ _ _ _ _ _ _ _ hok hb
      obtain ⟨hb1, _, hcb, _⟩ := send_client_log _ _ _ _ _ _ _ _ _ hb
      obtain ⟨_, _, hca, _⟩ := send_client_log _ _ _ _ _ _ _ _ _ ha
      refine ⟨ev2, ?_, ?_⟩
      · rw [hr, h2]
        simp [kept, hea, heb, hb1]
      · rw [hcl5]
        have : closes (logged [(a1, ea, la), (b1, eb, lb)]) = closes la ++ closes lb := by
          simp [closes, logged]
        rw [this, hca, hcb]
        simp [hea, heb]
    · rw [hcl] at hv
      obtain ⟨vb, _, hb, hrest, rfl⟩ := List.forall₂_cons_left_iff.mp hv
      obtain ⟨va, _, ha, hnil, rfl⟩ := List.forall₂_cons_left_iff.mp hrest
      obtain rfl := List.forall₂_nil_left_iff.mp hnil
      obtain ⟨a1, ea, la⟩ := va
      obtain ⟨b1, eb, lb⟩ := vb
      have hea := send_client_all_evicting _ _ _ _ _ _ _ _ _ hfat hpos ha
      have heb := send_client_no_error _ _ _ _ _ _ _ _ _ hok hb
      obtain ⟨hb1, _, hcb, _⟩ := send_client_log _ _ _ _ _ _ _ _ _ hb
      obtain ⟨_, _, hca, _⟩ := send_client_log _ _ _ _ _ _ _ _ _ ha
      refine ⟨ev2, ?_, ?_⟩
      · rw [hr, h2]
        simp [kept, hea, heb, hb1]
      · rw [hcl5]
        have : closes (logged [(b1, eb, lb), (a1, ea, la)]) = closes lb ++ closes la := by
          simp [closes, logged]
        rw [this, hca, hcb]
        simp [hea, heb]

theorem demo_send :
    srt_stream_send 6 demo_transport demo_sdata demo_payload 6 = Res.ok (demo_after, demo_log) := by
  decide

/-- The fan-out of six bytes to clients 7 (evicted) and 8, with client 9 pending; and the
two-client case on the same instance with nothing pending. -/
theorem srt_stream_send_registry_demo :
    (∃ logs : List (List Event),
      logs.length =
        (demo_sdata.clients ++ (accepted demo_transport.pending).map new_client).length ∧
      demo_log = (srt_stream_accept demo_sdata demo_transport.pending).2 ++ logs.flatten ∧
      (∀ p ∈ (demo_sdata.clients ++ (accepted demo_transport.pending).map new_client).zip logs,
        ∀ e ∈ p.2, on_socket p.1.sock e = true) ∧
      demo_after.clients =
        (((demo_sdata.clients ++ (accepted demo_transport.pending).map new_client).zip
          logs).filter (fun p => !payload_evicting p.2)).map
          (fun p => mark_header demo_sdata.format p.1) ∧
      closes demo_log =
        (((demo_sdata.clients ++ (accepted demo_transport.pending).map new_client).zip
          logs).filter (fun p => payload_evicting p.2)).map (fun p => p.1.sock) ∧
      demo_after = { demo_sdata with clients := demo_after.clients }) ∧
    (∃ r, srt_stream_send 6 demo_transport demo_sdata demo_payload 6 = Res.ok r) ∧
    (∃ ev2, srt_stream_send 6 demo_transport_c demo_sdata demo_payload 6 =
        Res.ok ({ demo_sdata with
          clients := [mark_header demo_sdata.format { sock := 8, header_sent := true }] }, ev2) ∧
      closes ev2 = [7]) :=
  have t := srt_stream_send_registry 6 demo_transport demo_sdata demo_after demo_payload 6
    demo_log (by decide) demo_send
  ⟨t.1, t.2.1 demo_transport demo_sdata demo_payload 6 (by decide) (by decide) (by decide),
    t.2.2 demo_transport_c demo_sdata demo_payload 6 { sock := 7, header_sent := true }
      { sock := 8, header_sent := true } (by decide) (Or.inl rfl) (by decide)
      (fun _ => rfl)
      (fun _ => (by decide : ({ ret := 4, serr := 0 } : SendAnswer).ret ≠ SRT_ERROR))
      (by decide) (by decide) (by decide) (by decide)⟩

/-! ## Isolation (C6) -/

theorem sends_to_append (s : SRTSOCKET) (l1 l2 : List Event) :
    sends_to s (l1 ++ l2) = sends_to s l1 ++ sends_to s l2 := by
  simp [sends_to]

theorem sends_to_other (s t : SRTSOCKET) (hne : t ≠ s) (log : List Event)
    (h : ∀ e ∈ log, on_socket t e = true) : sends_to s log = [] := by
  unfold sends_to
  rw [List.filter_eq_nil_iff]
  intro e he
  have := h e he
  cases e <;> simp [on_socket] at this ⊢
  rw [this]; exact hne

theorem sends_to_accept (s : SRTSOCKET) (sdata : srt_stream_data) (pending : List SRTSOCKET) :
    sends_to s (srt_stream_accept sdata pending).2 = [] := by
  unfold sends_to
  rw [List.filter_eq_nil_iff]
  intro e he
  have := (srt_stream_accept_events pending sdata e he).1
  cases e <;> simp [is_send] at this ⊢

theorem mark_header_sock (fmt : srt_stream_format) (c : srt_client) :
    (mark_header fmt c).sock = c.sock := by
  unfold mark_header
  split <;> rfl

/-- Visits of clients on other sockets contribute no send to `s` and no registry entry
on `s`. -/
theorem visits_absent (sdata : srt_stream_data) (tr : Transport) (data : List Nat)
    (len fuel : Nat) (s : SRTSOCKET) :
    ∀ (all : List srt_client) (visits : List (srt_client × ChunkExit × List Event)),
      List.Forall₂ (fun c v => send_client sdata tr data len fuel c = Res.ok v) all visits →
      all.filter (fun x => decide (x.sock = s)) = [] →
      sends_to s (logged visits) = [] ∧
        (kept visits).filter (fun x => decide (x.sock = s)) = [] := by
  intro all visits h
  induction h with
  | nil => intro _; simp [logged, kept, sends_to]
  | @cons c v all visits hv _ ih =>
    intro hf
    obtain ⟨c1, e, evs⟩ := v
    obtain ⟨h1, h2, _, _⟩ := send_client_log _ _ _ _ _ _ _ _ _ hv
    have hcs : c.sock ≠ s := by
      intro hc
      simp [List.filter_cons, hc] at hf
    have hrest : all.filter (fun x => decide (x.sock = s)) = [] := by
      simpa [List.filter_cons, hcs] using hf
    obtain ⟨i1, i2⟩ := ih hrest
    have hl : logged ((c1, e, evs) :: visits) = evs ++ logged visits := by simp [logged]
    constructor
    · rw [hl, sends_to_append, sends_to_other s c.sock hcs evs h2, i1]
      rfl
    · have hc1 : c1.sock ≠ s := by rw [h1, mark_header_sock]; exact hcs
      by_cases hfat : e = ChunkExit.fatal
      · simpa [kept, List.filter_cons, hfat] using i2
      · simp only [kept, List.filter_cons, hfat, ne_eq, not_false_eq_true, decide_True,
          if_true, List.map_cons, hc1, decide_False] at i2 ⊢
        simpa using i2

/-- When exactly one client `c` is on socket `s`, the sends to `s` are those of the visit
of `c`, and `s` stays registered exactly when that visit does not end on a fatal answer. -/
theorem visits_single (sdata : srt_stream_data) (tr : Transport) (data : List Nat)
    (len fuel : Nat) (s : SRTSOCKET) (c : srt_client) :
    ∀ (all : List srt_client) (visits : List (srt_client × ChunkExit × List Event)),
      List.Forall₂ (fun c v => send_client sdata tr data len fuel c = Res.ok v) all visits →
      all.filter (fun x => decide (x.sock = s)) = [c] →
      ∃ v, send_client sdata tr data len fuel c = Res.ok v ∧
        sends_to s (logged visits) = sends_to s v.2.2 ∧
        (kept visits).filter (fun x => decide (x.sock = s)) =
          (if v.2.1 = ChunkExit.fatal then [] else [v.1]) := by
  intro all visits h
  induction h with
  | nil => intro hf; simp at hf
  | @cons c0 v all visits hv hrest ih =>
    intro hf
    obtain ⟨c1, e, evs⟩ := v
    obtain ⟨h1, h2, _, _⟩ := send_client_log _ _ _ _ _ _ _ _ _ hv
    have hl : logged ((c1, e, evs) :: visits) = evs ++ logged visits := by simp [logged]
    by_cases hcs : c0.sock = s
    · simp only [List.filter_cons, hcs, decide_True, if_true, List.cons.injEq] at hf
      obtain ⟨rfl, hnil⟩ := hf
      obtain ⟨i1, i2⟩ := visits_absent _ _ _ _ _ s _ _ hrest hnil
      refine ⟨(c1, e, evs), hv, ?_, ?_⟩
      · rw [hl, sends_to_append, i1, List.append_nil]
      · have hc1 : c1.sock = s := by rw [h1, mark_header_sock]; exact hcs
        by_cases hfat : e = ChunkExit.fatal
        · simpa [kept, List.filter_cons, hfat] using i2
        · simp only [kept, List.filter_cons, hfat, ne_eq, not_false_eq_true, decide_True,
            if_true, List.map_cons, hc1, if_false, List.cons.injEq, true_and] at i2 ⊢
          simpa using i2
    · have hrest2 : all.filter (fun x => decide (x.sock = s)) = [c] := by
        simpa [List.filter_cons, hcs] using hf
      obtain ⟨v, j1, j2, j3⟩ := ih hrest2
      refine ⟨v, j1, ?_, ?_⟩
      · rw [hl, sends_to_append, sends_to_other s c0.sock hcs evs h2, List.nil_append, j2]
      · have hc1 : c1.sock ≠ s := by rw [h1, mark_header_sock]; exact hcs
        by_cases hfat : e = ChunkExit.fatal
        · simpa [kept, List.filter_cons, hfat] using j3
        · simp only [kept, List.filter_cons, hfat, ne_eq, not_false_eq_true, decide_True,
            if_true, List.map_cons, hc1, decide_False] at j3 ⊢
          simpa using j3

theorem sent_bytes_sends_to (s : SRTSOCKET) (log : List Event)
    (h : ∀ e ∈ log, on_socket s e = true) : sent_bytes (sends_to s log) = sent_bytes log := by
  induction log with
  | nil => rfl
  | cons e rest ih =>
    have he := h e (List.mem_cons_self _ _)
    have hr := ih (fun x hx => h x (List.mem_cons_of_mem _ hx))
    cases e <;> simp [on_socket] at he <;>
      simp_all [sends_to, sent_bytes, List.filter_cons]

/-- When no send is answered with an error and the payload size is positive, the chunks
handed to `srt_send` are consecutive pieces of the payload and make up all of it. -/
theorem send_chunks_bytes {payload_size : Int} (h0 : 0 < payload_size)
    (h1 : payload_size < 2 ^ 31) (sock : SRTSOCKET) (data : List Nat) (ans : Nat → SendAnswer)
    (hok : ∀ k, (ans k).ret ≠ SRT_ERROR) :
    ∀ (fuel k ptr remaining : Nat) (e : ChunkExit) (evs : List Event), remaining < 2 ^ 64 →
      send_chunks payload_size sock data ans fuel k (ptr : Int) remaining = Res.ok (e, evs) →
      e = ChunkExit.done ∧ sent_bytes evs = (data.drop ptr).take remaining := by
  intro fuel
  induction fuel with
  | zero =>
    intro k ptr remaining e evs _ h
    unfold send_chunks at h
    by_cases hr : remaining > 0
    · simp [hr] at h
    · simp only [hr, if_false, Res.ok.injEq, Prod.mk.injEq] at h
      obtain ⟨rfl, rfl⟩ := h
      have : remaining = 0 := by omega
      subst this
      simp [sent_bytes]
  | succ fuel ih =>
    intro k ptr remaining e evs hlt h
    unfold send_chunks at h
    by_cases hr : remaining > 0
    · simp only [hr, if_true, hok k, if_false] at h
      rw [chunk_eq_min (le_of_lt h0) h1] at h
      obtain ⟨m, hm⟩ : ∃ m : Nat, min (remaining : Int) payload_size = (m : Int) :=
        ⟨(min (remaining : Int) payload_size).toNat, by omega⟩
      have hmle : m ≤ remaining := by omega
      have hrem : to_u64 ((remaining : Int) - (m : Int)) = remaining - m := by
        unfold to_u64
        rw [Int.emod_eq_of_lt (by omega) (by omega)]
        omega
      rw [hm, hrem] at h
      have hptr : (ptr : Int) + (m : Int) = ((ptr + m : Nat) : Int) := by push_cast; rfl
      rw [hptr] at h
      split at h
      · rename_i e1 evs1 heq
        simp only [Res.ok.injEq, Prod.mk.injEq] at h
        obtain ⟨rfl, rfl⟩ := h
        obtain ⟨i1, i2⟩ := ih _ _ _ _ _ (by omega) heq
        refine ⟨i1, ?_⟩
        have hs : sent_bytes (Event.send SendSite.payload sock
            (List.take (m : Int).toNat (List.drop (ptr : Int).toNat data)) (m : Int) (ans k) ::
            evs1) = List.take m (List.drop ptr data) ++ sent_bytes evs1 := by
          simp [sent_bytes]
        rw [hs, i2]
        have hd : List.drop (ptr + m) data = List.drop m (List.drop ptr data) := by
          rw [List.drop_drop, Nat.add_comm]
        rw [hd]
        have hsum : remaining = m + (remaining - m) := by omega
        conv_rhs => rw [hsum, List.take_add]
      · cases h
      · cases h
    · simp only [hr, if_false, Res.ok.injEq, Prod.mk.injEq] at h
      obtain ⟨rfl, rfl⟩ := h
      have : remaining = 0 := by omega
      subst this
      simp [sent_bytes]

/-- A client never answered with an error gets the whole payload. -/
theorem send_client_bytes (sdata : srt_stream_data) (tr : Transport) (data : List Nat)
    (len fuel : Nat) (c c1 : srt_client) (e : ChunkExit) (evs : List Event)
    (h0 : 0 < sdata.payload_size) (h1 : sdata.payload_size < 2 ^ 31) (hlen : len < 2 ^ 64)
    (hok : ∀ k, (tr.answer c.sock k).ret ≠ SRT_ERROR)
    (h : send_client sdata tr data len fuel c = Res.ok (c1, e, evs)) :
    e = ChunkExit.done ∧ sent_bytes evs = data.take len := by
  rw [send_client_eq] at h
  cases hsc : send_chunks sdata.payload_size c.sock data
      (fun k => tr.answer c.sock ((client_header sdata tr c).length + k)) fuel 0 0 len with
  | fault => simp [hsc] at h
  | nofuel => simp [hsc] at h
  | ok r =>
    obtain ⟨e1, evs1⟩ := r
    simp only [hsc, Res.ok.injEq, Prod.mk.injEq] at h
    obtain ⟨_, rfl, rfl⟩ := h
    obtain ⟨i1, i2⟩ := send_chunks_bytes h0 h1 c.sock data _ (fun k => hok _) fuel 0 0 len
      e1 evs1 hlen (by simpa using hsc)
    refine ⟨i1, ?_⟩
    have : sent_bytes (client_header sdata tr c ++ evs1) = sent_bytes evs1 := by
      rcases client_header_cases sdata tr c with hh | ⟨_, _, hh⟩ <;> rw [hh] <;>
        simp [sent_bytes]
    rw [this, i2]
    simp

/-- C6: take two fan-outs of the same payload on instances with the same configuration
(format, payload size, channel mode, sample rate), in each of which `c` is the one client on
its socket after the acceptor has run, and whose transports answer the sends on that socket
alike.  Whatever the other clients and their answers are, both issue the same sends to `c`
and agree on whether `c` stays registered.  If moreover no send to `c` is answered with an
error and the payload size is in `1 .. 2^31 - 1`, the chunks sent to `c` make up the whole
payload and `c` stays registered. -/
theorem srt_stream_send_isolated (f1 f2 : Nat) (tr1 tr2 : Transport)
    (sd1 sd2 sd1a sd2a : srt_stream_data) (data : List Nat) (len : Nat)
    (ev1 ev2 : List Event) (c : srt_client)
    (hl1 : sd1.listen_socket ≠ SRT_INVALID_SOCK) (hl2 : sd2.listen_socket ≠ SRT_INVALID_SOCK)
    (hf : sd1.format = sd2.format) (hp : sd1.payload_size = sd2.payload_size)
    (hm : sd1.mode = sd2.mode) (hr : sd1.sample_rate = sd2.sample_rate)
    (ha : tr1.answer c.sock = tr2.answer c.sock)
    (hc1 : (sd1.clients ++ (accepted tr1.pending).map new_client).filter
      (fun x => decide (x.sock = c.sock)) = [c])
    (hc2 : (sd2.clients ++ (accepted tr2.pending).map new_client).filter
      (fun x => decide (x.sock = c.sock)) = [c])
    (h1 : srt_stream_send f1 tr1 sd1 data len = Res.ok (sd1a, ev1))
    (h2 : srt_stream_send f2 tr2 sd2 data len = Res.ok (sd2a, ev2)) :
    sends_to c.sock ev1 = sends_to c.sock ev2 ∧
    sd1a.clients.filter (fun x => decide (x.sock = c.sock)) =
      sd2a.clients.filter (fun x => decide (x.sock = c.sock)) ∧
    ((∀ k, (tr1.answer c.sock k).ret ≠ SRT_ERROR) → 0 < sd1.payload_size →
      sd1.payload_size < 2 ^ 31 → len < 2 ^ 64 →
      sent_bytes (sends_to c.sock ev1) = data.take len ∧
      sd1a.clients.filter (fun x => decide (x.sock = c.sock)) = [mark_header sd1.format c]) := by
  obtain ⟨vis1, hv1, hs1, he1⟩ := srt_stream_send_visits _ _ _ _ _ _ _ hl1 h1
  obtain ⟨vis2, hv2, hs2, he2⟩ := srt_stream_send_visits _ _ _ _ _ _ _ hl2 h2
  obtain ⟨v1, a1, b1, c1⟩ := visits_single _ _ _ _ _ c.sock c _ _ hv1 hc1
  obtain ⟨v2, a2, b2, c2⟩ := visits_single _ _ _ _ _ c.sock c _ _ hv2 hc2
  have hv : v1 = v2 := send_client_det sd1 sd2 tr1 tr2 data len f1 f2 c v1 v2 hf hp hm hr ha a1 a2
  subst hv
  have hs1' : sends_to c.sock ev1 = sends_to c.sock v1.2.2 := by
    rw [he1, sends_to_append, sends_to_accept, List.nil_append, b1]
  have hs2' : sends_to c.sock ev2 = sends_to c.sock v1.2.2 := by
    rw [he2, sends_to_append, sends_to_accept, List.nil_append, b2]
  have hk1 : sd1a.clients = kept vis1 := by rw [hs1]
  have hk2 : sd2a.clients = kept vis2 := by rw [hs2]
  refine ⟨by rw [hs1', hs2'], by rw [hk1, hk2, c1, c2], ?_⟩
  intro hok h0 hlt hlen
  obtain ⟨w1, we, wl⟩ := v1
  obtain ⟨g1, g2, _, _⟩ := send_client_log _ _ _ _ _ _ _ _ _ a1
  obtain ⟨k1, k2⟩ := send_client_bytes _ _ _ _ _ _ _ _ _ h0 hlt hlen hok a1
  constructor
  · rw [hs1', sent_bytes_sends_to c.sock wl g2, k2]
  · rw [hk1, c1, g1]
    simp [k1]

theorem demo_send_b :
    srt_stream_send 6 demo_transport_b demo_sdata_b demo_payload 6 =
      Res.ok (demo_sdata_b, demo_log_b) := by
  decide

/-- Witness of C6: client 8 next to a failing client 7 and a newcomer 9 in one run, alone in
the other. -/
theorem srt_stream_send_isolated_witness :
    sends_to 8 demo_log = sends_to 8 demo_log_b ∧
    demo_after.clients.filter (fun x => decide (x.sock = 8)) =
      demo_sdata_b.clients.filter (fun x => decide (x.sock = 8)) ∧
    sent_bytes (sends_to 8 demo_log) = demo_payload.take 6 ∧
    demo_after.clients.filter (fun x => decide (x.sock = 8)) =
      [mark_header demo_sdata.format { sock := 8, header_sent := true }] :=
  have t := srt_stream_send_isolated 6 6 demo_transport demo_transport_b demo_sdata
    demo_sdata_b demo_after demo_sdata_b demo_payload 6 demo_log demo_log_b
    { sock := 8, header_sent := true }
    (by decide) (by decide) rfl rfl rfl rfl (by funext k; rfl) (by decide) (by decide)
    demo_send demo_send_b
  ⟨t.1, t.2.1, t.2.2
    (fun _ => (by decide : ({ ret := 4, serr := 0 } : SendAnswer).ret ≠ SRT_ERROR))
    (by decide) (by decide) (by decide)⟩

/-! ## Chunk sizes (C10) -/

theorem wav_header_length (sdata : srt_stream_data) : (wav_header sdata).length = 44 := by
  simp [wav_header, memcpy, le32, le16, str_bytes]

/-- Every send of the chunk loop carries at most `payload_size` bytes when the payload
size is not negative. -/
theorem send_chunks_sizes {payload_size : Int} (h0 : 0 ≤ payload_size)
    (h1 : payload_size < 2 ^ 31) (sock : SRTSOCKET) (data : List Nat) (ans : Nat → SendAnswer) :
    ∀ (fuel k : Nat) (ptr : Int) (remaining : Nat) (e : ChunkExit) (evs : List Event),
      send_chunks payload_size sock data ans fuel k ptr remaining = Res.ok (e, evs) →
      ∀ ev ∈ evs, ∀ site s buf l a, ev = Event.send site s buf l a →
        site = SendSite.payload ∧ l ≤ payload_size ∧ (buf.length : Int) ≤ l := by
  intro fuel
  induction fuel with
  | zero =>
    intro k ptr remaining e evs h
    unfold send_chunks at h
    by_cases hr : remaining > 0
    · simp [hr] at h
    · simp only [hr, if_false, Res.ok.injEq, Prod.mk.injEq] at h
      obtain ⟨rfl, rfl⟩ := h
      simp
  | succ fuel ih =>
    intro k ptr remaining e evs h
    have hchunk : ∀ site s buf l a,
        Event.send SendSite.payload sock
          (List.take (to_int (if remaining > to_u64 payload_size then to_u64 payload_size
            else remaining)).toNat (List.drop ptr.toNat data))
          (to_int (if remaining > to_u64 payload_size then to_u64 payload_size else remaining))
          (ans k) = Event.send site s buf l a →
        site = SendSite.payload ∧ l ≤ payload_size ∧ (buf.length : Int) ≤ l := by
      intro site s buf l a hev
      simp only [Event.send.injEq] at hev
      obtain ⟨rfl, _, rfl, rfl, _⟩ := hev
      rw [chunk_eq_min h0 h1]
      refine ⟨rfl, min_le_right _ _, ?_⟩
      rw [List.length_take]
      omega
    unfold send_chunks at h
    by_cases hr : remaining > 0
    · simp only [hr, if_true] at h
      by_cases he : (ans k).ret = SRT_ERROR
      · simp only [he, if_true] at h
        by_cases hs : (ans k).serr = SRT_EASYNCSND
        · simp only [hs, if_true, Res.ok.injEq, Prod.mk.injEq] at h
          obtain ⟨rfl, rfl⟩ := h
          intro ev hev site s buf l a heq
          simp only [List.mem_singleton] at hev
          subst hev
          exact hchunk site s buf l a heq
        · simp only [hs, if_false, Res.ok.injEq, Prod.mk.injEq] at h
          obtain ⟨rfl, rfl⟩ := h
          intro ev hev site s buf l a heq
          simp only [List.mem_cons, List.mem_singleton, List.not_mem_nil, or_false] at hev
          rcases hev with hev | hev
          · subst hev
            exact hchunk site s buf l a heq
          · subst hev
            cases heq
      · simp only [he, if_false] at h
        split at h
        · rename_i e1 evs1 heq1
          simp only [Res.ok.injEq, Prod.mk.injEq] at h
          obtain ⟨rfl, rfl⟩ := h
          intro ev hev site s buf l a heq
          rcases List.mem_cons.mp hev with hev | hev
          · subst hev
            exact hchunk site s buf l a heq
          · exact ih _ _ _ _ _ heq1 ev hev site s buf l a heq
        · cases h
        · cases h
    · simp only [hr, if_false, Res.ok.injEq, Prod.mk.injEq] at h
      obtain ⟨rfl, rfl⟩ := h
      simp

/-- The sends of one visit: the header, if any, carries 44 bytes; the payload sends carry
at most `payload_size` bytes. -/
theorem send_client_sizes (sdata : srt_stream_data) (tr : Transport) (data : List Nat)
    (len fuel : Nat) (c c1 : srt_client) (e : ChunkExit) (evs : List Event)
    (h0 : 0 ≤ sdata.payload_size) (h1 : sdata.payload_size < 2 ^ 31)
    (h : send_client sdata tr data len fuel c = Res.ok (c1, e, evs)) :
    ∀ ev ∈ evs, ∀ site s buf l a, ev = Event.send site s buf l a →
      (site = SendSite.payload → l ≤ sdata.payload_size ∧ (buf.length : Int) ≤ l) ∧
      (site = SendSite.header → l = 44 ∧ buf.length = 44) := by
  rw [send_client_eq] at h
  cases hsc : send_chunks sdata.payload_size c.sock data
      (fun k => tr.answer c.sock ((client_header sdata tr c).length + k)) fuel 0 0 len with
  | fault => simp [hsc] at h
  | nofuel => simp [hsc] at h
  | ok r =>
    obtain ⟨e1, evs1⟩ := r
    simp only [hsc, Res.ok.injEq, Prod.mk.injEq] at h
    obtain ⟨_, _, rfl⟩ := h
    have hs := send_chunks_sizes h0 h1 _ _ _ _ _ _ _ _ _ hsc
    intro ev hev site s buf l a heq
    rcases List.mem_append.mp hev with hev | hev
    · rcases client_header_cases sdata tr c with hh | ⟨_, _, hh⟩
      · rw [hh] at hev; cases hev
      · rw [hh] at hev
        simp only [List.mem_singleton] at hev
        rw [hev] at heq
        simp only [Event.send.injEq] at heq
        obtain ⟨rfl, _, rfl, rfl, _⟩ := heq
        exact ⟨fun hc => (by cases hc), fun _ => ⟨rfl, wav_header_length sdata⟩⟩
    · obtain ⟨i1, i2, i3⟩ := hs ev hev site s buf l a heq
      exact ⟨fun _ => ⟨i2, i3⟩, fun hc => by rw [i1] at hc; cases hc⟩

theorem logged_sizes (sdata : srt_stream_data) (tr : Transport) (data : List Nat)
    (len fuel : Nat) (h0 : 0 ≤ sdata.payload_size) (h1 : sdata.payload_size < 2 ^ 31) :
    ∀ (all : List srt_client) (visits : List (srt_client × ChunkExit × List Event)),
      List.Forall₂ (fun c v => send_client sdata tr data len fuel c = Res.ok v) all visits →
      ∀ ev ∈ logged visits, ∀ site s buf l a, ev = Event.send site s buf l a →
        (site = SendSite.payload → l ≤ sdata.payload_size ∧ (buf.length : Int) ≤ l) ∧
        (site = SendSite.header → l = 44 ∧ buf.length = 44) := by
  intro all visits h
  induction h with
  | nil => intro ev hev; simp [logged] at hev
  | @cons c v all visits hv _ ih =>
    obtain ⟨c1, e, evs⟩ := v
    intro ev hev
    have hl : logged ((c1, e, evs) :: visits) = evs ++ logged visits := by simp [logged]
    rw [hl] at hev
    rcases List.mem_append.mp hev with hev | hev
    · exact send_client_sizes _ _ _ _ _ _ _ _ _ h0 h1 hv ev hev
    · exact ih ev hev

/-- C10 (as amended): for a payload size in `0 .. 2^31 - 1`, every payload send of a
fan-out carries at most `payload_size` bytes; the framing-header send carries 44 bytes
whatever the payload size is. -/
theorem srt_stream_send_chunk_cap (fuel : Nat) (tr : Transport)
    (sdata sdata1 : srt_stream_data) (data : List Nat) (len : Nat) (ev : List Event)
    (h0 : 0 ≤ sdata.payload_size) (h1 : sdata.payload_size < 2 ^ 31)
    (h : srt_stream_send fuel tr sdata data len = Res.ok (sdata1, ev)) :
    ∀ e ∈ ev, ∀ site s buf l a, e = Event.send site s buf l a →
      (site = SendSite.payload → l ≤ sdata.payload_size ∧ (buf.length : Int) ≤ l) ∧
      (site = SendSite.header → l = 44 ∧ buf.length = 44) := by
  by_cases hv : sdata.listen_socket = SRT_INVALID_SOCK
  · rw [srt_stream_send_invalid _ _ _ _ _ hv] at h
    simp only [Res.ok.injEq, Prod.mk.injEq] at h
    obtain ⟨_, rfl⟩ := h
    intro e he
    cases he
  · obtain ⟨visits, hvis, _, h3⟩ := srt_stream_send_visits _ _ _ _ _ _ _ hv h
    intro e he site s buf l a heq
    rw [h3] at he
    rcases List.mem_append.mp he with he | he
    · have := (srt_stream_accept_events tr.pending sdata e he).1
      rw [heq] at this
      simp [is_send] at this
    · exact logged_sizes _ _ _ _ _ h0 h1 _ _ hvis e he site s buf l a heq

/-- Witness of C10 (as amended): the fan-out of six bytes with payload size 4. -/
theorem srt_stream_send_chunk_cap_witness :
    (0 ≤ demo_sdata.payload_size ∧ demo_sdata.payload_size < 2 ^ 31) ∧
    srt_stream_send 6 demo_transport demo_sdata demo_payload 6 = Res.ok (demo_after, demo_log) ∧
    ∀ e ∈ demo_log, ∀ site s buf l a, e = Event.send site s buf l a →
      (site = SendSite.payload → l ≤ demo_sdata.payload_size ∧ (buf.length : Int) ≤ l) ∧
      (site = SendSite.header → l = 44 ∧ buf.length = 44) :=
  ⟨by decide, demo_send,
    srt_stream_send_chunk_cap 6 demo_transport demo_sdata demo_after demo_payload 6 demo_log
      (by decide) (by decide) demo_send⟩

/-- C10 (counterexample): with payload size 4 the WAV header goes to the newly accepted
client 9 in one send of 44 bytes; and with the payload size `-1` stored in the instance a
payload of six bytes goes out in one send of six bytes. -/
theorem srt_stream_send_exceeds_payload_size :
    (srt_stream_send 6 demo_transport demo_sdata demo_payload 6 = Res.ok (demo_after, demo_log) ∧
      Event.send SendSite.header 9 (wav_header demo_sdata) 44 { ret := 4, serr := 0 } ∈ demo_log ∧
      (wav_header demo_sdata).length = 44 ∧ demo_sdata.payload_size = 4) ∧
    (srt_stream_send 6 demo_transport_b demo_sdata_neg demo_payload 6 =
        Res.ok ({ demo_sdata_neg with clients := [{ sock := 8, header_sent := false }] },
          [Event.accept 1 (-1),
           Event.send SendSite.payload 8 [1, 2, 3, 4, 5, 6] 6 { ret := 4, serr := 0 }]) ∧
      demo_sdata_neg.payload_size = -1) := by
  refine ⟨⟨demo_send, by decide, by decide, rfl⟩, by decide, rfl⟩

/-! ## WAV header (C4) -/

/-- C4: for the WAV format, `c` channels (2 when the mode is stereo, else 1) and a sample
rate `r` with `0 < 32 * r < 2^31`, `srt_stream_send_header` makes exactly one send, of 44
bytes laid out as `RIFF`, `0xFFFFFFFF`, `WAVEfmt `, 16, 1, `c`, `r`, `r * c * 2`, `c * 2`,
16, `data`, `0xFFFFFFFF` (little-endian); for any other format it sends nothing. -/
theorem srt_stream_send_header_layout (sdata : srt_stream_data) (client : srt_client)
    (ans : SendAnswer) (hr0 : 0 < sdata.sample_rate) (hr1 : 32 * sdata.sample_rate < 2 ^ 31) :
    (sdata.format = SRT_STREAM_WAV →
      srt_stream_send_header sdata client ans =
        [Event.send SendSite.header client.sock
          (wav_layout (if sdata.mode = MM_STEREO then 2 else 1) sdata.sample_rate.toNat) 44 ans] ∧
      (wav_layout (if sdata.mode = MM_STEREO then 2 else 1) sdata.sample_rate.toNat).length = 44) ∧
    (sdata.format ≠ SRT_STREAM_WAV → srt_stream_send_header sdata client ans = []) := by
  constructor
  · intro hf
    have hsr : to_u32 sdata.sample_rate = sdata.sample_rate.toNat := by
      unfold to_u32
      rw [Int.emod_eq_of_lt (by omega) (by omega)]
    have hlay : wav_header sdata =
        wav_layout (if sdata.mode = MM_STEREO then 2 else 1) sdata.sample_rate.toNat := by
      by_cases hm : sdata.mode = MM_STEREO
      · have hbr : to_u32 (Int.tdiv (sdata.sample_rate * 2 * 16) 8) =
            sdata.sample_rate.toNat * 2 * 2 := by
          have : Int.tdiv (sdata.sample_rate * 2 * 16) 8 = sdata.sample_rate * 4 := by
            rw [show sdata.sample_rate * 2 * 16 = (sdata.sample_rate * 4) * 8 by ring]
            exact Int.mul_tdiv_cancel _ (by norm_num)
          rw [this]
          unfold to_u32
          rw [Int.emod_eq_of_lt (by omega) (by omega)]
          omega
        have hba : to_u16 (Int.tdiv (2 * 16) 8) = 4 := by decide
        have hch : to_u16 2 = 2 := by decide
        have hbps : to_u16 16 = 16 := by decide
        simp only [wav_header, hm, if_true, hbr, hba, hch, hbps, hsr, wav_layout]
        simp [memcpy, le32, le16, str_bytes]
      · have hbr : to_u32 (Int.tdiv (sdata.sample_rate * 1 * 16) 8) =
            sdata.sample_rate.toNat * 1 * 2 := by
          have : Int.tdiv (sdata.sample_rate * 1 * 16) 8 = sdata.sample_rate * 2 := by
            rw [show sdata.sample_rate * 1 * 16 = (sdata.sample_rate * 2) * 8 by ring]
            exact Int.mul_tdiv_cancel _ (by norm_num)
          rw [this]
          unfold to_u32
          rw [Int.emod_eq_of_lt (by omega) (by omega)]
          omega
        have hba : to_u16 (Int.tdiv (1 * 16) 8) = 2 := by decide
        have hch : to_u16 1 = 1 := by decide
        have hbps : to_u16 16 = 16 := by decide
        simp only [wav_header, hm, if_false, hbr, hba, hch, hbps, hsr, wav_layout]
        simp [memcpy, le32, le16, str_bytes]
    refine ⟨?_, by rw [← hlay]; exact wav_header_length sdata⟩
    unfold srt_stream_send_header
    simp [hf, hlay]
  · intro hf
    unfold srt_stream_send_header
    simp [hf]

/-- Witness of C4: a mono WAV stream at 8000 samples per second. -/
theorem srt_stream_send_header_layout_witness :
    (demo_sdata.format = SRT_STREAM_WAV →
      srt_stream_send_header demo_sdata { sock := 9, header_sent := false }
          { ret := 4, serr := 0 } =
        [Event.send SendSite.header 9
          (wav_layout (if demo_sdata.mode = MM_STEREO then 2 else 1)
            demo_sdata.sample_rate.toNat) 44 { ret := 4, serr := 0 }] ∧
      (wav_layout (if demo_sdata.mode = MM_STEREO then 2 else 1)
        demo_sdata.sample_rate.toNat).length = 44) ∧
    (demo_sdata.format ≠ SRT_STREAM_WAV →
      srt_stream_send_header demo_sdata { sock := 9, header_sent := false }
        { ret := 4, serr := 0 } = []) :=
  srt_stream_send_header_layout demo_sdata { sock := 9, header_sent := false }
    { ret := 4, serr := 0 } (by decide) (by decide)

/-! ## Shutdown (C9) -/

/-- C9: `srt_stream_shutdown` leaves the registry empty, the three buffers null and the
listening socket invalid, having called `srt_close` once on every registered client, in
order, and then once on the listening socket if there was one; a second shutdown changes
nothing and closes nothing. -/
theorem srt_stream_shutdown_idempotent (s : srt_stream_data) :
    (srt_stream_shutdown s).1.clients = [] ∧
    (srt_stream_shutdown s).1.stereo_buffer = none ∧
    (srt_stream_shutdown s).1.pcm_buffer = none ∧
    (srt_stream_shutdown s).1.resample_buffer = none ∧
    (srt_stream_shutdown s).1.listen_socket = SRT_INVALID_SOCK ∧
    (srt_stream_shutdown s).2 = s.clients.map (fun c => Event.close c.sock) ++
      (if s.listen_socket ≠ SRT_INVALID_SOCK then [Event.close s.listen_socket] else []) ∧
    srt_stream_shutdown (srt_stream_shutdown s).1 = ((srt_stream_shutdown s).1, []) := by
  by_cases h : s.listen_socket = SRT_INVALID_SOCK
  · simp [srt_stream_shutdown, h]
  · simp [srt_stream_shutdown, h]

/-! ## Oversized input (C8) -/

/-- C8: on every instance (in particular one produced by `srt_stream_init`), a write call
whose derived sample count exceeds the capacity makes no call into the transport and
returns the instance unchanged, so a sequence of calls behaves the same with or without
it in front. -/
theorem oversized_write_dropped (b : Build) (fuel : Nat) (sdata : srt_stream_data)
    (c : Call) (cs : List Call) (h : oversized sdata c) :
    run_call b fuel sdata c = Res.ok (sdata, []) ∧
    run_calls b fuel sdata (c :: cs) = run_calls b fuel sdata cs := by
  have h1 : run_call b fuel sdata c = Res.ok (sdata, []) := by
    cases c with
    | write tr data len =>
      obtain ⟨hf, hlen⟩ := h
      simp only [run_call, srt_stream_write, hf, if_true, hlen]
    | write_stereo tr left right len =>
      have hlen : len / 4 * 2 > sdata.stereo_buffer_len := by
        have : 2 * (len / 4) > sdata.stereo_buffer_len := h
        omega
      simp only [run_call, srt_stream_write_stereo, hlen, if_true, ite_self]
    | send_bytes tr data len => exact absurd h (by simp [oversized])
    | shutdown => exact absurd h (by simp [oversized])
  refine ⟨h1, ?_⟩
  rw [run_calls, h1]
  cases hrc : run_calls b fuel sdata cs with
  | ok r => simp [hrc]
  | fault => simp [hrc]
  | nofuel => simp [hrc]

/-- Witness of C8: on the instance produced by `srt_stream_init` for 16-byte blocks in
stereo PCM (capacity 8 samples), a mono write of 36 bytes (9 samples) is dropped. -/
theorem oversized_write_dropped_witness :
    (srt_stream_init demo_build false demo_init_env demo_config MM_STEREO 16).1 = true ∧
    demo_instance.pcm_buffer_len = 8 ∧
    run_call demo_build 8 demo_instance (Call.write demo_transport [] 36) =
      Res.ok (demo_instance, []) ∧
    run_calls demo_build 8 demo_instance
        (Call.write demo_transport [] 36 ::
          [Call.write_stereo demo_transport_b [1 / 2, 3] [-1 / 4, -5] 8]) =
      run_calls demo_build 8 demo_instance
        [Call.write_stereo demo_transport_b [1 / 2, 3] [-1 / 4, -5] 8] :=
  ⟨by decide, by decide,
    oversized_write_dropped demo_build 8 demo_instance (Call.write demo_transport [] 36)
      [Call.write_stereo demo_transport_b [1 / 2, 3] [-1 / 4, -5] 8]
      ⟨by decide, by decide⟩⟩

/-! ## Quantization in the write paths (C3) -/

theorem srt_stream_accept_buffers (pending : List SRTSOCKET) (sdata : srt_stream_data) :
    (srt_stream_accept sdata pending).1.pcm_buffer = sdata.pcm_buffer := by
  rw [srt_stream_accept_state]

/-- The tail of the PCM/WAV write paths leaves the quantization buffer as it is. -/
theorem send_pcm_pcm_buffer (b : Build) (fuel : Nat) (tr : Transport)
    (sdata sdata1 : srt_stream_data) (n : Nat) (ev : List Event)
    (h : send_pcm b fuel tr sdata n = Res.ok (sdata1, ev)) :
    sdata1.pcm_buffer = sdata.pcm_buffer := by
  unfold send_pcm at h
  split at h
  · split at h
    · have := srt_stream_send_frame _ _ _ _ _ _ _ h
      rw [this]
    · cases h
  · have := srt_stream_send_frame _ _ _ _ _ _ _ h
    rw [this]

/-- The mono write path up to the fan-out: the first `len / 4` slots of the quantization
buffer receive the quantized samples. -/
theorem srt_stream_write_quantizes (b : Build) (fuel : Nat) (tr : Transport)
    (sdata : srt_stream_data) (data : List ℚ) (len : Nat) (buf : List Int)
    (hf : sdata.format = SRT_STREAM_WAV ∨ sdata.format = SRT_STREAM_PCM)
    (hb : sdata.pcm_buffer = some buf) (hcap : len / 4 ≤ sdata.pcm_buffer_len)
    (halloc : sdata.pcm_buffer_len ≤ buf.length) (hdata : len / 4 ≤ data.length) :
    ∃ buf1, buf1.length = buf.length ∧
      (∀ i, i < len / 4 → buf1[i]? = some (quantize (data.getD i 0))) ∧
      (∀ i, len / 4 ≤ i → buf1[i]? = buf[i]?) ∧
      srt_stream_write b fuel tr sdata data len =
        send_pcm b fuel tr { sdata with pcm_buffer := some buf1 } (len / 4) := by
  obtain ⟨buf1, h1, h2, h3, h4⟩ := quantize_loop_spec data (len / 4) 0 buf (by omega) (by omega)
  refine ⟨buf1, h2, fun i hi => h3 i (Nat.zero_le _) (by omega), fun i hi => h4 i (by omega), ?_⟩
  unfold srt_stream_write
  simp only [hf, if_true, not_lt.mpr hcap, if_false, quantize_block, hb, h1, gt_iff_lt]

/-- The stereo write path up to the fan-out: slot `2 i` of the quantization buffer
receives the quantized `left[i]` and slot `2 i + 1` the quantized `right[i]`. -/
theorem srt_stream_write_stereo_quantizes (b : Build) (fuel : Nat) (tr : Transport)
    (sdata : srt_stream_data) (left right : List ℚ) (len : Nat) (sb : List ℚ) (buf : List Int)
    (hf : sdata.format = SRT_STREAM_WAV ∨ sdata.format = SRT_STREAM_PCM)
    (hs : sdata.stereo_buffer = some sb) (hscap : len / 4 * 2 ≤ sdata.stereo_buffer_len)
    (hsalloc : sdata.stereo_buffer_len ≤ sb.length)
    (hb : sdata.pcm_buffer = some buf) (hcap : len / 4 * 2 ≤ sdata.pcm_buffer_len)
    (halloc : sdata.pcm_buffer_len ≤ buf.length)
    (hl : len / 4 ≤ left.length) (hr : len / 4 ≤ right.length) :
    ∃ sb1 buf1, buf1.length = buf.length ∧
      (∀ i, i < len / 4 → buf1[2 * i]? = some (quantize (left.getD i 0)) ∧
        buf1[2 * i + 1]? = some (quantize (right.getD i 0))) ∧
      srt_stream_write_stereo b fuel tr sdata left right len =
        send_pcm b fuel tr { sdata with stereo_buffer := some sb1, pcm_buffer := some buf1 }
          (len / 4 * 2) := by
  obtain ⟨sb1, s1, s2, s3, _⟩ := interleave_loop_spec left right (len / 4) 0 sb
    (by omega) (by omega) (by omega)
  obtain ⟨buf1, h1, h2, h3, _⟩ := quantize_loop_spec sb1 (len / 4 * 2) 0 buf
    (by omega) (by omega)
  have hget : ∀ j x, sb1[j]? = some x → sb1.getD j 0 = x := by
    intro j x hx
    rw [List.getD_eq_getElem?_getD, hx]
    rfl
  refine ⟨sb1, buf1, h2, ?_, ?_⟩
  · intro i hi
    obtain ⟨t1, t2⟩ := s3 i (Nat.zero_le _) (by omega)
    rw [h3 (2 * i) (Nat.zero_le _) (by omega), h3 (2 * i + 1) (Nat.zero_le _) (by omega),
      hget _ _ t1, hget _ _ t2]
    exact ⟨rfl, rfl⟩
  · unfold srt_stream_write_stereo
    have hne : ¬ (sdata.stereo_buffer = none) := by rw [hs]; simp
    simp only [hne, if_false, not_lt.mpr hscap, gt_iff_lt, hs, s1, hf, if_true,
      not_lt.mpr hcap, quantize_block, Option.getD_some, hb, h1]
    rw [if_neg (by simp)]

/-- C3 (as amended): in both write paths the value stored in the quantization buffer for
an input sample `v` is `truncate(fl(clamp(v, -1, 1) * 32767))`, where `fl` delivers the
product rounded to `float` (24-bit significand, ties to even): it is 32767 for every
`v ≥ 1` (so 1.5 gives the same as 1.0), -32767 for every `v ≤ -1` (so -2.0 gives the same
as -1.0), and it always lies in `[-32767, 32767]`.  The mono path stores it at index `i`
for `data[i]`, the stereo path at `2 i` for `left[i]` and at `2 i + 1` for `right[i]`, and
the rest of the write call leaves the quantization buffer as it is. -/
theorem quantization_clips (v : ℚ) :
    (quantize v = trunc (fl 24 (max (-1) (min v 1) * 32767)) ∧
      -32767 ≤ quantize v ∧ quantize v ≤ 32767 ∧
      (1 ≤ v → quantize v = 32767) ∧ (v ≤ -1 → quantize v = -32767)) ∧
    (quantize (3 / 2) = quantize 1 ∧ quantize (-2) = quantize (-1)) ∧
    (∀ (b : Build) (fuel : Nat) (tr : Transport) (sdata : srt_stream_data) (data : List ℚ)
      (len : Nat) (buf : List Int),
      (sdata.format = SRT_STREAM_WAV ∨ sdata.format = SRT_STREAM_PCM) →
      sdata.pcm_buffer = some buf → len / 4 ≤ sdata.pcm_buffer_len →
      sdata.pcm_buffer_len ≤ buf.length → len / 4 ≤ data.length →
      ∃ buf1, buf1.length = buf.length ∧
        (∀ i, i < len / 4 →
          buf1[i]? = some (trunc (fl 24 (max (-1) (min (data.getD i 0) 1) * 32767)))) ∧
        (∀ i, len / 4 ≤ i → buf1[i]? = buf[i]?) ∧
        srt_stream_write b fuel tr sdata data len =
          send_pcm b fuel tr { sdata with pcm_buffer := some buf1 } (len / 4)) ∧
    (∀ (b : Build) (fuel : Nat) (tr : Transport) (sdata : srt_stream_data)
      (left right : List ℚ) (len : Nat) (sb : List ℚ) (buf : List Int),
      (sdata.format = SRT_STREAM_WAV ∨ sdata.format = SRT_STREAM_PCM) →
      sdata.stereo_buffer = some sb → len / 4 * 2 ≤ sdata.stereo_buffer_len →
      sdata.stereo_buffer_len ≤ sb.length →
      sdata.pcm_buffer = some buf → len / 4 * 2 ≤ sdata.pcm_buffer_len →
      sdata.pcm_buffer_len ≤ buf.length → len / 4 ≤ left.length → len / 4 ≤ right.length →
      ∃ sb1 buf1, buf1.length = buf.length ∧
        (∀ i, i < len / 4 →
          buf1[2 * i]? = some (trunc (fl 24 (max (-1) (min (left.getD i 0) 1) * 32767))) ∧
          buf1[2 * i + 1]? =
            some (trunc (fl 24 (max (-1) (min (right.getD i 0) 1) * 32767)))) ∧
        srt_stream_write_stereo b fuel tr sdata left right len =
          send_pcm b fuel tr { sdata with stereo_buffer := some sb1, pcm_buffer := some buf1 }
            (len / 4 * 2)) ∧
    (∀ (b : Build) (fuel : Nat) (tr : Transport) (sdata sdata1 : srt_stream_data) (n : Nat)
      (ev : List Event), send_pcm b fuel tr sdata n = Res.ok (sdata1, ev) →
      sdata1.pcm_buffer = sdata.pcm_buffer) := by
  have hq : ∀ w, quantize w = trunc (fl 24 (max (-1) (min w 1) * 32767)) := quantize_eq
  refine ⟨⟨hq v, (quantize_range v).1, (quantize_range v).2, quantize_hi, quantize_lo⟩,
    ⟨?_, ?_⟩, ?_, ?_, ?_⟩
  · rw [quantize_hi (by norm_num), quantize_hi (le_refl _)]
  · rw [quantize_lo (by norm_num), quantize_lo (le_refl _)]
  · intro b fuel tr sdata data len buf hf hb hcap halloc hdata
    obtain ⟨buf1, h1, h2, h3, h4⟩ :=
      srt_stream_write_quantizes b fuel tr sdata data len buf hf hb hcap halloc hdata
    exact ⟨buf1, h1, fun i hi => by rw [h2 i hi, hq], h3, h4⟩
  · intro b fuel tr sdata left right len sb buf hf hs hscap hsalloc hb hcap halloc hl hr
    obtain ⟨sb1, buf1, h1, h2, h3⟩ := srt_stream_write_stereo_quantizes b fuel tr sdata left
      right len sb buf hf hs hscap hsalloc hb hcap halloc hl hr
    exact ⟨sb1, buf1, h1, fun i hi => by rw [(h2 i hi).1, (h2 i hi).2, hq, hq]; exact ⟨rfl, rfl⟩,
      h3⟩
  · intro b fuel tr sdata sdata1 n ev h
    exact send_pcm_pcm_buffer b fuel tr sdata sdata1 n ev h

/-- Witness of C3: the sample 1.5, and a mono and a stereo write on the instance produced
by `srt_stream_init` (capacity 8 samples). -/
theorem quantization_clips_witness :
    quantize (3 / 2) = 32767 ∧
    (∃ buf1, buf1.length = (List.replicate 8 (0 : Int)).length ∧
      (∀ i, i < 12 / 4 → buf1[i]? =
        some (trunc (fl 24 (max (-1) (min (([1 / 2, 3, -5] : List ℚ).getD i 0) 1) * 32767)))) ∧
      (∀ i, 12 / 4 ≤ i → buf1[i]? = (List.replicate 8 (0 : Int))[i]?) ∧
      srt_stream_write demo_build 8 demo_transport_b demo_instance [1 / 2, 3, -5] 12 =
        send_pcm demo_build 8 demo_transport_b { demo_instance with pcm_buffer := some buf1 }
          (12 / 4)) ∧
    (∃ sb1 buf1, buf1.length = (List.replicate 8 (0 : Int)).length ∧
      (∀ i, i < 8 / 4 →
        buf1[2 * i]? =
          some (trunc (fl 24 (max (-1) (min (([1 / 2, 3] : List ℚ).getD i 0) 1) * 32767))) ∧
        buf1[2 * i + 1]? =
          some (trunc (fl 24 (max (-1) (min (([-1 / 4, -5] : List ℚ).getD i 0) 1) * 32767)))) ∧
      srt_stream_write_stereo demo_build 8 demo_transport_b demo_instance [1 / 2, 3]
          [-1 / 4, -5] 8 =
        send_pcm demo_build 8 demo_transport_b
          { demo_instance with stereo_buffer := some sb1, pcm_buffer := some buf1 }
          (8 / 4 * 2)) :=
  have t := quantization_clips (3 / 2)
  ⟨t.1.2.2.2.1 (by norm_num),
    t.2.2.1 demo_build 8 demo_transport_b demo_instance [1 / 2, 3, -5] 12 (List.replicate 8 0)
      (by decide) (by decide) (by decide) (by decide) (by decide),
    t.2.2.2.1 demo_build 8 demo_transport_b demo_instance [1 / 2, 3] [-1 / 4, -5] 8
      (List.replicate 8 0) (List.replicate 8 0) (by decide) (by with_unfolding_all decide)
      (by decide) (by decide) (by decide) (by decide) (by decide) (by decide) (by decide)⟩

/-- Counterexample to C3 as stated: the sample `v = 32769 / 2 ^ 30` is a `float`, and the
exact product `v * 32767 = 1 - 2 ^ -30` truncates to 0; the `float` product is rounded
to 1 and the code stores 1, in the mono path for instance. -/
theorem quantization_not_exact :
    fl 24 (32769 / 1073741824) = 32769 / 1073741824 ∧
    trunc (max (-1) (min (32769 / 1073741824) 1) * 32767) = 0 ∧
    clamp_scale (32769 / 1073741824) = 0 ∧
    quantize (32769 / 1073741824) = 1 ∧
    (∃ buf1, buf1[0]? = some 1 ∧
      srt_stream_write demo_build 8 demo_transport_b demo_instance [32769 / 1073741824] 4 =
        send_pcm demo_build 8 demo_transport_b { demo_instance with pcm_buffer := some buf1 }
          (4 / 4)) := by
  have hq : quantize (32769 / 1073741824) = 1 := by decide!
  refine ⟨by decide!, by decide!, by decide!, hq, ?_⟩
  obtain ⟨buf1, _, h2, _, h4⟩ := srt_stream_write_quantizes demo_build 8 demo_transport_b
    demo_instance [32769 / 1073741824] 4 (List.replicate 8 0) (by decide)
    (by with_unfolding_all decide) (by decide) (by decide) (by decide)
  refine ⟨buf1, ?_, h4⟩
  rw [h2 0 (by decide)]
  exact congrArg some hq

/-! ## Header once (C7) -/

theorem admitted_append (l1 l2 : List Event) :
    admitted (l1 ++ l2) = admitted l1 ++ admitted l2 := by
  simp [admitted]

theorem admitted_socket_options (m : srt_modes) (s : SRTSOCKET) :
    admitted (socket_options m s) = [] := by
  cases m <;> simp [socket_options, admitted]

theorem admitted_accept (pending : List SRTSOCKET) :
    ∀ sdata : srt_stream_data, admitted (srt_stream_accept sdata pending).2 = accepted pending := by
  induction pending with
  | nil => intro sdata; simp [srt_stream_accept, admitted, accepted]
  | cons s rest ih =>
    intro sdata
    by_cases h : s = SRT_INVALID_SOCK
    · simp [srt_stream_accept, admitted, accepted, h]
    · have hacc : accepted (s :: rest) = s :: accepted rest := by
        simp [accepted, List.takeWhile_cons, h]
      rw [srt_stream_accept, if_neg h, hacc]
      show admitted (Event.accept sdata.listen_socket s :: socket_options sdata.srt_mode s ++ _) = _
      rw [List.cons_append, show ∀ l, admitted (Event.accept sdata.listen_socket s :: l) =
        s :: admitted l from fun l => by simp [admitted, h]]
      rw [admitted_append, admitted_socket_options, List.nil_append, ih]

theorem admitted_on_socket (log : List Event) (s : SRTSOCKET)
    (h : ∀ e ∈ log, on_socket s e = true) : admitted log = [] := by
  unfold admitted
  rw [List.filterMap_eq_nil_iff]
  intro e he
  have := h e he
  cases e <;> simp [on_socket] at this ⊢

theorem admitted_logged (sdata : srt_stream_data) (tr : Transport) (data : List Nat)
    (len fuel : Nat) :
    ∀ (all : List srt_client) (visits : List (srt_client × ChunkExit × List Event)),
      List.Forall₂ (fun c v => send_client sdata tr data len fuel c = Res.ok v) all visits →
      admitted (logged visits) = [] := by
  intro all visits h
  induction h with
  | nil => simp [logged, admitted]
  | @cons c v all visits hv _ ih =>
    obtain ⟨c1, e, evs⟩ := v
    obtain ⟨_, h2, _, _⟩ := send_client_log _ _ _ _ _ _ _ _ _ hv
    have hl : logged ((c1, e, evs) :: visits) = evs ++ logged visits := by simp [logged]
    rw [hl, admitted_append, admitted_on_socket evs c.sock h2, ih]
    rfl

/-- The sends of a chunk-loop log are payload sends. -/
theorem send_chunks_payload (payload_size : Int) (sock : SRTSOCKET) (data : List Nat)
    (ans : Nat → SendAnswer) (fuel k : Nat) (ptr : Int) (remaining : Nat) (e : ChunkExit)
    (evs : List Event)
    (h : send_chunks payload_size sock data ans fuel k ptr remaining = Res.ok (e, evs)) :
    ∀ x ∈ sends_to sock evs, is_payload_send x = true := by
  have hans := send_chunks_answers _ _ _ _ _ _ _ _ _ _ h
  intro x hx
  have hmem : x ∈ evs := (List.mem_filter.mp hx).1
  have hsend := (List.mem_filter.mp hx).2
  rcases hans x hmem with ⟨j, buf, l, rfl⟩ | rfl
  · rfl
  · simp at hsend

/-- The sends of the visit of a client. -/
theorem send_client_sends (sdata : srt_stream_data) (tr : Transport) (data : List Nat)
    (len fuel : Nat) (c c1 : srt_client) (e : ChunkExit) (evs : List Event)
    (h : send_client sdata tr data len fuel c = Res.ok (c1, e, evs)) :
    (c.header_sent = true → ∀ x ∈ sends_to c.sock evs, is_payload_send x = true) ∧
    (sdata.format = SRT_STREAM_WAV → c.header_sent = false →
      header_first (sends_to c.sock evs) = true) := by
  rw [send_client_eq] at h
  cases hsc : send_chunks sdata.payload_size c.sock data
      (fun k => tr.answer c.sock ((client_header sdata tr c).length + k)) fuel 0 0 len with
  | fault => simp [hsc] at h
  | nofuel => simp [hsc] at h
  | ok r =>
    obtain ⟨e1, evs1⟩ := r
    simp only [hsc, Res.ok.injEq, Prod.mk.injEq] at h
    obtain ⟨_, _, rfl⟩ := h
    have hp := send_chunks_payload _ _ _ _ _ _ _ _ _ _ hsc
    constructor
    · intro hs
      have hh : client_header sdata tr c = [] := by
        unfold client_header
        simp [hs]
      rw [hh, List.nil_append]
      exact hp
    · intro hf hs
      have hh : client_header sdata tr c =
          [Event.send SendSite.header c.sock (wav_header sdata) 44 (tr.answer c.sock 0)] := by
        unfold client_header srt_stream_send_header
        simp [hf, hs]
      rw [hh, sends_to_append]
      have : sends_to c.sock
          [Event.send SendSite.header c.sock (wav_header sdata) 44 (tr.answer c.sock 0)] =
          [Event.send SendSite.header c.sock (wav_header sdata) 44 (tr.answer c.sock 0)] := by
        simp [sends_to]
      rw [this]
      simp only [List.singleton_append, header_first, is_header_send, Bool.true_and,
        List.all_eq_true]
      exact hp

/-- Clients whose header flag is set are sent payload chunks only. -/
theorem visits_payload_only (sdata : srt_stream_data) (tr : Transport) (data : List Nat)
    (len fuel : Nat) (s : SRTSOCKET) :
    ∀ (all : List srt_client) (visits : List (srt_client × ChunkExit × List Event)),
      List.Forall₂ (fun c v => send_client sdata tr data len fuel c = Res.ok v) all visits →
      (∀ c ∈ all, c.sock = s → c.header_sent = true) →
      ∀ x ∈ sends_to s (logged visits), is_payload_send x = true := by
  intro all visits h
  induction h with
  | nil => intro _ x hx; simp [logged, sends_to] at hx
  | @cons c v all visits hv _ ih =>
    intro hall x hx
    obtain ⟨c1, e, evs⟩ := v
    obtain ⟨_, h2, _, _⟩ := send_client_log _ _ _ _ _ _ _ _ _ hv
    have hl : logged ((c1, e, evs) :: visits) = evs ++ logged visits := by simp [logged]
    rw [hl, sends_to_append] at hx
    rcases List.mem_append.mp hx with hx | hx
    · by_cases hcs : c.sock = s
      · subst hcs
        exact (send_client_sends _ _ _ _ _ _ _ _ _ hv).1
          (hall c (List.mem_cons_self _ _) rfl) x hx
      · rw [sends_to_other s c.sock hcs evs h2] at hx
        cases hx
    · exact ih (fun c hc => hall c (List.mem_cons_of_mem _ hc)) x hx

theorem mark_header_wav (c : srt_client) :
    (mark_header SRT_STREAM_WAV c).header_sent = true := by
  unfold mark_header
  by_cases h : c.header_sent = false
  · simp [h]
  · simp only [h, and_false, if_false]
    simpa using h

theorem kept_mem (sdata : srt_stream_data) (tr : Transport) (data : List Nat)
    (len fuel : Nat) :
    ∀ (all : List srt_client) (visits : List (srt_client × ChunkExit × List Event)),
      List.Forall₂ (fun c v => send_client sdata tr data len fuel c = Res.ok v) all visits →
      ∀ c ∈ kept visits, ∃ c0 ∈ all, c = mark_header sdata.format c0 := by
  intro all visits h
  induction h with
  | nil => intro c hc; simp [kept] at hc
  | @cons c0 v all visits hv _ ih =>
    intro c hc
    obtain ⟨c1, e, evs⟩ := v
    obtain ⟨h1, _, _, _⟩ := send_client_log _ _ _ _ _ _ _ _ _ hv
    have hk : c = c1 ∨ c ∈ kept visits := by
      unfold kept at hc ⊢
      rw [List.filter_cons] at hc
      split at hc
      · rcases List.mem_cons.mp hc with hc | hc
        · exact Or.inl hc
        · exact Or.inr hc
      · exact Or.inr hc
    rcases hk with rfl | hk
    · exact ⟨c0, List.mem_cons_self _ _, h1⟩
    · obtain ⟨c2, hc2, hc3⟩ := ih c hk
      exact ⟨c2, List.mem_cons_of_mem _ hc2, hc3⟩

theorem filter_new_clients (s : SRTSOCKET) :
    ∀ P : List SRTSOCKET, P.Nodup → s ∈ P →
      (P.map new_client).filter (fun x => decide (x.sock = s)) = [new_client s] := by
  intro P
  induction P with
  | nil => intro _ h; cases h
  | cons p rest ih =>
    intro hnd hs
    have hnd2 := List.nodup_cons.mp hnd
    by_cases hp : p = s
    · subst hp
      have : (rest.map new_client).filter (fun x => decide (x.sock = p)) = [] := by
        rw [List.filter_eq_nil_iff]
        intro x hx
        obtain ⟨y, hy, rfl⟩ := List.mem_map.mp hx
        simp only [new_client, decide_eq_true_eq]
        intro hyp
        exact hnd2.1 (hyp ▸ hy)
      simp [List.filter_cons, new_client] at this ⊢
      exact this
    · have hs2 : s ∈ rest := by
        rcases List.mem_cons.mp hs with h | h
        · exact absurd h.symm hp
        · exact h
      have := ih hnd2.2 hs2
      simp only [List.map_cons, List.filter_cons, new_client, hp, decide_False] at this ⊢
      simpa using this

theorem filter_absent (s : SRTSOCKET) (l : List srt_client)
    (h : s ∉ l.map (fun c => c.sock)) : l.filter (fun x => decide (x.sock = s)) = [] := by
  rw [List.filter_eq_nil_iff]
  intro x hx
  simp only [decide_eq_true_eq]
  intro hxs
  exact h (List.mem_map.mpr ⟨x, hx, hxs⟩)

/-- One fan-out on a WAV instance whose registered clients all have their header flag
set. -/
theorem srt_stream_send_step (fuel : Nat) (tr : Transport) (sdata sdata1 : srt_stream_data)
    (data : List Nat) (len : Nat) (ev : List Event)
    (hf : sdata.format = SRT_STREAM_WAV) (hh : ∀ c ∈ sdata.clients, c.header_sent = true)
    (h : srt_stream_send fuel tr sdata data len = Res.ok (sdata1, ev)) :
    sdata1.format = sdata.format ∧
    (∀ c ∈ sdata1.clients, c.header_sent = true ∧
      (c.sock ∈ sdata.clients.map (fun c => c.sock) ∨ c.sock ∈ admitted ev)) ∧
    (admitted ev = accepted tr.pending ∨ admitted ev = []) ∧
    ((accepted tr.pending).Nodup →
      (∀ x ∈ accepted tr.pending, x ∉ sdata.clients.map (fun c => c.sock)) →
      ∀ s ∈ admitted ev, header_first (sends_to s ev) = true) ∧
    (∀ s, s ∉ admitted ev → (∀ x ∈ sends_to s ev, is_payload_send x = true) ∧
      (s ∉ sdata.clients.map (fun c => c.sock) → sends_to s ev = [])) := by
  by_cases hv : sdata.listen_socket = SRT_INVALID_SOCK
  · rw [srt_stream_send_invalid _ _ _ _ _ hv] at h
    simp only [Res.ok.injEq, Prod.mk.injEq] at h
    obtain ⟨rfl, rfl⟩ := h
    refine ⟨rfl, fun c hc => ⟨hh c hc, Or.inl (List.mem_map.mpr ⟨c, hc, rfl⟩)⟩, Or.inr rfl,
      fun _ _ s hs => by simp [admitted] at hs, fun s _ => ⟨fun x hx => by simp [sends_to] at hx,
      fun _ => rfl⟩⟩
  · obtain ⟨visits, hvis, h2, h3⟩ := srt_stream_send_visits _ _ _ _ _ _ _ hv h
    have hadm : admitted ev = accepted tr.pending := by
      rw [h3, admitted_append, admitted_accept, admitted_logged _ _ _ _ _ _ _ hvis,
        List.append_nil]
    have hsends : ∀ s, sends_to s ev = sends_to s (logged visits) := by
      intro s
      rw [h3, sends_to_append, sends_to_accept, List.nil_append]
    refine ⟨by rw [h2], ?_, Or.inl hadm, ?_, ?_⟩
    · intro c hc
      rw [h2] at hc
      obtain ⟨c0, hc0, rfl⟩ := kept_mem _ _ _ _ _ _ _ hvis c hc
      rw [hf]
      refine ⟨mark_header_wav c0, ?_⟩
      rw [mark_header_sock, hadm]
      rcases List.mem_append.mp hc0 with hc0 | hc0
      · exact Or.inl (List.mem_map.mpr ⟨c0, hc0, rfl⟩)
      · obtain ⟨y, hy, rfl⟩ := List.mem_map.mp hc0
        exact Or.inr hy
    · intro hnd hdis s hs
      rw [hadm] at hs
      have hfil : (sdata.clients ++ (accepted tr.pending).map new_client).filter
          (fun x => decide (x.sock = s)) = [new_client s] := by
        rw [List.filter_append, filter_absent s sdata.clients (hdis s hs), List.nil_append]
        exact filter_new_clients s _ hnd hs
      obtain ⟨v, a1, b1, _⟩ := visits_single _ _ _ _ _ s (new_client s) _ _ hvis hfil
      obtain ⟨w1, we, wl⟩ := v
      rw [hsends, b1]
      exact (send_client_sends _ _ _ _ _ _ _ _ _ a1).2 hf rfl
    · intro s hs
      rw [hadm] at hs
      rw [hsends]
      constructor
      · apply visits_payload_only _ _ _ _ _ s _ _ hvis
        intro c hc hcs
        rcases List.mem_append.mp hc with hc | hc
        · exact hh c hc
        · obtain ⟨y, hy, rfl⟩ := List.mem_map.mp hc
          exact absurd (hcs ▸ hy) hs
      · intro hns
        have hfil : (sdata.clients ++ (accepted tr.pending).map new_client).filter
            (fun x => decide (x.sock = s)) = [] := by
          rw [List.filter_append, filter_absent s sdata.clients hns, List.nil_append]
          apply filter_absent
          intro hmem
          obtain ⟨x, hx, hxs⟩ := List.mem_map.mp hmem
          obtain ⟨y, hy, rfl⟩ := List.mem_map.mp hx
          exact hs (hxs ▸ hy)
        exact (visits_absent _ _ _ _ _ s _ _ hvis hfil).1

theorem quantize_block_shape (src : List ℚ) (n : Nat) (s s1 : srt_stream_data)
    (h : quantize_block src n s = Res.ok s1) :
    s1.format = s.format ∧ s1.clients = s.clients := by
  unfold quantize_block at h
  split at h
  · cases h; exact ⟨rfl, rfl⟩
  · cases h
  · cases h

theorem send_pcm_shape (b : Build) (fuel : Nat) (tr : Transport) (s s1 : srt_stream_data)
    (n : Nat) (ev : List Event) (h : send_pcm b fuel tr s n = Res.ok (s1, ev)) :
    ∃ s0 data len, s0.format = s.format ∧ s0.clients = s.clients ∧
      srt_stream_send fuel tr s0 data len = Res.ok (s1, ev) := by
  unfold send_pcm at h
  split at h
  · split at h
    · refine ⟨_, _, _, ?_, ?_, h⟩ <;> rfl
    · cases h
  · exact ⟨s, _, _, rfl, rfl, h⟩

theorem srt_stream_shutdown_shape (s : srt_stream_data) :
    (srt_stream_shutdown s).1.format = s.format ∧ (srt_stream_shutdown s).1.clients = [] ∧
      ∀ e ∈ (srt_stream_shutdown s).2, ∃ t, e = Event.close t := by
  by_cases h : s.listen_socket = SRT_INVALID_SOCK
  · simp [srt_stream_shutdown, h]
  · simp only [srt_stream_shutdown, ne_eq, h, not_false_eq_true, if_true, true_and]
    intro e he
    rcases List.mem_append.mp he with he | he
    · obtain ⟨x, _, rfl⟩ := List.mem_map.mp he
      exact ⟨_, rfl⟩
    · simp only [List.mem_singleton] at he
      exact ⟨_, he⟩

/-- A call either changes neither registry nor format and makes no call into the
transport, or is a fan-out on an instance with the same registry and format, or is the
shutdown. -/
theorem run_call_shape (b : Build) (fuel : Nat) (s s1 : srt_stream_data) (c : Call)
    (ev : List Event) (h : run_call b fuel s c = Res.ok (s1, ev)) :
    (s1.format = s.format ∧ s1.clients = s.clients ∧ ev = []) ∨
    (∃ tr s0 data len, tr.pending = call_pending c ∧ s0.format = s.format ∧
      s0.clients = s.clients ∧ srt_stream_send fuel tr s0 data len = Res.ok (s1, ev)) ∨
    (s1.format = s.format ∧ s1.clients = [] ∧ ∀ e ∈ ev, ∃ t, e = Event.close t) := by
  cases c with
  | write tr data len =>
    simp only [run_call, srt_stream_write] at h
    split at h
    · split at h
      · cases h; exact Or.inl ⟨rfl, rfl, rfl⟩
      · cases hq : quantize_block data (len / 4) s with
        | fault => simp [hq] at h
        | nofuel => simp [hq] at h
        | ok sq =>
          simp only [hq] at h
          obtain ⟨q1, q2⟩ := quantize_block_shape _ _ _ _ hq
          obtain ⟨s0, d, l, p1, p2, p3⟩ := send_pcm_shape _ _ _ _ _ _ _ h
          exact Or.inr (Or.inl ⟨tr, s0, d, l, rfl, by rw [p1, q1], by rw [p2, q2], p3⟩)
    · exact Or.inr (Or.inl ⟨tr, s, _, _, rfl, rfl, rfl, h⟩)
  | write_stereo tr left right len =>
    simp only [run_call, srt_stream_write_stereo] at h
    split at h
    · cases h; exact Or.inl ⟨rfl, rfl, rfl⟩
    · split at h
      · cases h; exact Or.inl ⟨rfl, rfl, rfl⟩
      · cases hi : interleave_loop left right (len / 4) 0 s.stereo_buffer with
        | fault => simp [hi] at h
        | nofuel => simp [hi] at h
        | ok sb =>
          simp only [hi] at h
          split at h
          · split at h
            · cases h; exact Or.inl ⟨rfl, rfl, rfl⟩
            · cases hq : quantize_block (sb.getD []) (len / 4 * 2)
                  { s with stereo_buffer := sb } with
              | fault => simp [hq] at h
              | nofuel => simp [hq] at h
              | ok sq =>
                simp only [hq] at h
                obtain ⟨q1, q2⟩ := quantize_block_shape _ _ _ _ hq
                obtain ⟨s0, d, l, p1, p2, p3⟩ := send_pcm_shape _ _ _ _ _ _ _ h
                exact Or.inr (Or.inl ⟨tr, s0, d, l, rfl, by rw [p1, q1], by rw [p2, q2], p3⟩)
          · exact Or.inr (Or.inl ⟨tr, _, _, _, rfl, by
              refine ⟨?_, ?_, h⟩ <;> rfl⟩)
  | send_bytes tr data len =>
    exact Or.inr (Or.inl ⟨tr, s, data, len, rfl, rfl, rfl, h⟩)
  | shutdown =>
    simp only [run_call, Res.ok.injEq] at h
    right; right
    have e1 : s1 = (srt_stream_shutdown s).1 := by rw [h]
    have e2 : ev = (srt_stream_shutdown s).2 := by rw [h]
    rw [e1, e2]
    exact srt_stream_shutdown_shape s

/-- One call on a WAV instance whose registered clients all have their header flag set. -/
theorem run_call_step (b : Build) (fuel : Nat) (s s1 : srt_stream_data) (c : Call)
    (ev : List Event)
    (hf : s.format = SRT_STREAM_WAV) (hh : ∀ x ∈ s.clients, x.header_sent = true)
    (h : run_call b fuel s c = Res.ok (s1, ev)) :
    s1.format = s.format ∧
    (∀ x ∈ s1.clients, x.header_sent = true ∧
      (x.sock ∈ s.clients.map (fun c => c.sock) ∨ x.sock ∈ admitted ev)) ∧
    (admitted ev = accepted (call_pending c) ∨ admitted ev = []) ∧
    ((accepted (call_pending c)).Nodup →
      (∀ x ∈ accepted (call_pending c), x ∉ s.clients.map (fun c => c.sock)) →
      ∀ t ∈ admitted ev, header_first (sends_to t ev) = true) ∧
    (∀ t, t ∉ admitted ev → (∀ x ∈ sends_to t ev, is_payload_send x = true) ∧
      (t ∉ s.clients.map (fun c => c.sock) → sends_to t ev = [])) := by
  rcases run_call_shape b fuel s s1 c ev h with ⟨h1, h2, rfl⟩ | ⟨tr, s0, d, l, p0, p1, p2, p3⟩ |
    ⟨h1, h2, h3⟩
  · refine ⟨h1, fun x hx => ?_, Or.inr rfl, fun _ _ t ht => by simp [admitted] at ht,
      fun t _ => ⟨fun x hx => by simp [sends_to] at hx, fun _ => rfl⟩⟩
    rw [h2] at hx
    exact ⟨hh x hx, Or.inl (List.mem_map.mpr ⟨x, hx, rfl⟩)⟩
  · have := srt_stream_send_step fuel tr s0 s1 d l ev (by rw [p1, hf])
      (by rw [p2]; exact hh) p3
    rw [p1, p2, p0] at this
    exact this
  · have hadm : admitted ev = [] := by
      unfold admitted
      rw [List.filterMap_eq_nil_iff]
      intro e he
      obtain ⟨t, rfl⟩ := h3 e he
      rfl
    have hsend : ∀ t, sends_to t ev = [] := by
      intro t
      unfold sends_to
      rw [List.filter_eq_nil_iff]
      intro e he
      obtain ⟨t, rfl⟩ := h3 e he
      simp
    refine ⟨h1, fun x hx => (by rw [h2] at hx; cases hx), Or.inr hadm,
      fun _ _ t ht => (by rw [hadm] at ht; cases ht),
      fun t _ => ⟨fun x hx => (by rw [hsend] at hx; cases hx), fun _ => hsend t⟩⟩

theorem header_first_append (l1 l2 : List Event) (h1 : header_first l1 = true)
    (h2 : ∀ x ∈ l2, is_payload_send x = true) : header_first (l1 ++ l2) = true := by
  cases l1 with
  | nil => simp [header_first] at h1
  | cons e rest =>
    simp only [header_first, Bool.and_eq_true, List.all_eq_true, List.cons_append,
      List.mem_append] at h1 ⊢
    refine ⟨h1.1, fun x hx => ?_⟩
    rcases hx with hx | hx
    · exact h1.2 x hx
    · exact h2 x hx

/-- The invariant of a run on a WAV instance: the clients admitted during the run are sent
the header first and payload chunks after it, and clients registered before the run
(their header flag set) are sent payload chunks only. -/
theorem run_calls_headers (b : Build) (fuel : Nat) :
    ∀ (calls : List Call) (s0 s2 : srt_stream_data) (tr : List Event),
      s0.format = SRT_STREAM_WAV → (∀ c ∈ s0.clients, c.header_sent = true) →
      (all_accepted calls).Nodup →
      (∀ c ∈ s0.clients, c.sock ∉ all_accepted calls) →
      run_calls b fuel s0 calls = Res.ok (s2, tr) →
      (∀ c ∈ s2.clients, c.header_sent = true ∧
        (c.sock ∈ s0.clients.map (fun c => c.sock) ∨ c.sock ∈ admitted tr)) ∧
      (∀ t ∈ admitted tr, t ∈ all_accepted calls) ∧
      (∀ t ∈ admitted tr, header_first (sends_to t tr) = true) ∧
      (∀ t, t ∉ admitted tr → (∀ x ∈ sends_to t tr, is_payload_send x = true) ∧
        (t ∉ s0.clients.map (fun c => c.sock) → sends_to t tr = [])) := by
  intro calls
  induction calls with
  | nil =>
    intro s0 s2 tr _ hh _ _ h
    simp only [run_calls, Res.ok.injEq, Prod.mk.injEq] at h
    obtain ⟨rfl, rfl⟩ := h
    refine ⟨fun c hc => ⟨hh c hc, Or.inl (List.mem_map.mpr ⟨c, hc, rfl⟩)⟩,
      fun t ht => (by simp [admitted] at ht), fun t ht => (by simp [admitted] at ht),
      fun t _ => ⟨fun x hx => (by simp [sends_to] at hx), fun _ => rfl⟩⟩
  | cons c cs ih =>
    intro s0 s2 tr hf hh hnd hdis h
    rw [run_calls] at h
    cases h1 : run_call b fuel s0 c with
    | fault => simp [h1] at h
    | nofuel => simp [h1] at h
    | ok r1 =>
      obtain ⟨s1, ev1⟩ := r1
      simp only [h1] at h
      cases h2 : run_calls b fuel s1 cs with
      | fault => simp [h2] at h
      | nofuel => simp [h2] at h
      | ok r2 =>
        obtain ⟨s3, ev2⟩ := r2
        simp only [h2, Res.ok.injEq, Prod.mk.injEq] at h
        obtain ⟨rfl, rfl⟩ := h
        have hall : all_accepted (c :: cs) = accepted (call_pending c) ++ all_accepted cs := by
          simp [all_accepted]
        rw [hall] at hnd hdis
        have hndP : (accepted (call_pending c)).Nodup := (List.nodup_append.mp hnd).1
        have hndA : (all_accepted cs).Nodup := (List.nodup_append.mp hnd).2.1
        have hPA : ∀ t, t ∈ accepted (call_pending c) → t ∉ all_accepted cs := by
          intro t ht hta
          exact (List.nodup_append.mp hnd).2.2 ht hta
        obtain ⟨S1, S2, S3, S4, S5⟩ := run_call_step b fuel s0 s1 c ev1 hf hh h1
        have hsub : ∀ t ∈ admitted ev1, t ∈ accepted (call_pending c) := by
          intro t ht
          rcases S3 with e | e
          · rw [e] at ht; exact ht
          · rw [e] at ht; cases ht
        have hdis0 : ∀ x ∈ accepted (call_pending c), x ∉ s0.clients.map (fun c => c.sock) := by
          intro x hx hmem
          obtain ⟨y, hy, rfl⟩ := List.mem_map.mp hmem
          exact hdis y hy (List.mem_append.mpr (Or.inl hx))
        have hs1 : ∀ x ∈ s1.clients, x.sock ∉ all_accepted cs := by
          intro x hx
          rcases (S2 x hx).2 with hm | hm
          · obtain ⟨y, hy, hys⟩ := List.mem_map.mp hm
            intro hmem
            exact hdis y hy (List.mem_append.mpr (Or.inr (hys ▸ hmem)))
          · exact hPA _ (hsub _ hm)
        obtain ⟨G1, G2, G3, G4⟩ := ih s1 s3 ev2 (by rw [S1, hf]) (fun x hx => (S2 x hx).1)
          hndA hs1 h2
        have hs1socks : ∀ t, t ∈ s1.clients.map (fun c => c.sock) →
            t ∈ s0.clients.map (fun c => c.sock) ∨ t ∈ admitted ev1 := by
          intro t ht
          obtain ⟨y, hy, rfl⟩ := List.mem_map.mp ht
          exact (S2 y hy).2
        refine ⟨?_, ?_, ?_, ?_⟩
        · intro x hx
          refine ⟨(G1 x hx).1, ?_⟩
          rw [admitted_append]
          rcases (G1 x hx).2 with hm | hm
          · rcases hs1socks _ hm with hm | hm
            · exact Or.inl hm
            · exact Or.inr (List.mem_append.mpr (Or.inl hm))
          · exact Or.inr (List.mem_append.mpr (Or.inr hm))
        · intro t ht
          rw [admitted_append] at ht
          rw [hall]
          rcases List.mem_append.mp ht with ht | ht
          · exact List.mem_append.mpr (Or.inl (hsub t ht))
          · exact List.mem_append.mpr (Or.inr (G2 t ht))
        · intro t ht
          rw [admitted_append] at ht
          rw [sends_to_append]
          rcases List.mem_append.mp ht with ht | ht
          · have hnot : t ∉ admitted ev2 := fun hm => hPA t (hsub t ht) (G2 t hm)
            exact header_first_append _ _ (S4 hndP hdis0 t ht) (G4 t hnot).1
          · have hnotP : t ∉ accepted (call_pending c) := fun hm => hPA t hm (G2 t ht)
            have hnot1 : t ∉ admitted ev1 := fun hm => hnotP (hsub t hm)
            have hnot0 : t ∉ s0.clients.map (fun c => c.sock) := by
              intro hmem
              obtain ⟨y, hy, rfl⟩ := List.mem_map.mp hmem
              exact hdis y hy (List.mem_append.mpr (Or.inr (G2 _ ht)))
            rw [(S5 t hnot1).2 hnot0, List.nil_append]
            exact G3 t ht
        · intro t ht
          rw [admitted_append] at ht
          have hnot1 : t ∉ admitted ev1 := fun hm => ht (List.mem_append.mpr (Or.inl hm))
          have hnot2 : t ∉ admitted ev2 := fun hm => ht (List.mem_append.mpr (Or.inr hm))
          rw [sends_to_append]
          constructor
          · intro x hx
            rcases List.mem_append.mp hx with hx | hx
            · exact (S5 t hnot1).1 x hx
            · exact (G4 t hnot2).1 x hx
          · intro hnot0
            have hnots1 : t ∉ s1.clients.map (fun c => c.sock) := by
              intro hm
              rcases hs1socks t hm with hm | hm
              · exact hnot0 hm
              · exact hnot1 hm
            rw [(S5 t hnot1).2 hnot0, (G4 t hnot2).2 hnots1]
            rfl

/-- C7: take a WAV instance with an empty registry (as `srt_stream_init` leaves it), an
environment that never hands out the same connection handle twice, and any sequence of
calls that returns.  Every client is registered with its header flag clear; every client
admitted during the run is sent the header as its first send and payload chunks only after
it, so exactly one header in its whole trace; a socket that was not admitted is sent
nothing; and every client still registered has its header flag set. -/
theorem header_sent_once (b : Build) (fuel : Nat) (calls : List Call)
    (sdata sdata1 : srt_stream_data) (tr : List Event)
    (hf : sdata.format = SRT_STREAM_WAV) (hc : sdata.clients = [])
    (hfresh : (all_accepted calls).Nodup)
    (h : run_calls b fuel sdata calls = Res.ok (sdata1, tr)) :
    (∀ (sd : srt_stream_data) (pending : List SRTSOCKET),
      (srt_stream_accept sd pending).1.clients =
        sd.clients ++ (accepted pending).map (fun s => { sock := s, header_sent := false })) ∧
    (∀ t ∈ admitted tr, header_first (sends_to t tr) = true) ∧
    (∀ t, t ∉ admitted tr → sends_to t tr = []) ∧
    (∀ c ∈ sdata1.clients, c.header_sent = true ∧ c.sock ∈ admitted tr) := by
  obtain ⟨G1, _, G3, G4⟩ := run_calls_headers b fuel calls sdata sdata1 tr hf
    (by rw [hc]; intro c hc2; cases hc2) hfresh (by rw [hc]; intro c hc2; cases hc2) h
  refine ⟨?_, G3, ?_, ?_⟩
  · intro sd pending
    rw [srt_stream_accept_state]
    rfl
  · intro t ht
    exact (G4 t ht).2 (by rw [hc]; simp)
  · intro c hcm
    refine ⟨(G1 c hcm).1, ?_⟩
    rcases (G1 c hcm).2 with hm | hm
    · rw [hc] at hm; cases hm
    · exact hm

theorem demo_wav_run :
    run_calls demo_build 8 demo_instance_wav demo_calls =
      Res.ok (demo_wav_result.1, demo_wav_result.2) := by
  decide!

/-- Witness of C7: three writes on the WAV instance produced by `srt_stream_init`, during
which the connections 9 and 10 arrive; in the second write connection 9 is answered with
an error whose `serr` reads `SRT_EASYNCSND`. -/
theorem header_sent_once_witness :
    admitted demo_wav_result.2 = [9, 10] ∧
    (sends_to 9 demo_wav_result.2).length = 4 ∧
    (∀ t ∈ admitted demo_wav_result.2, header_first (sends_to t demo_wav_result.2) = true) ∧
    (∀ t, t ∉ admitted demo_wav_result.2 → sends_to t demo_wav_result.2 = []) ∧
    (∀ c ∈ demo_wav_result.1.clients, c.header_sent = true ∧
      c.sock ∈ admitted demo_wav_result.2) :=
  ⟨by decide!, by decide!,
    (header_sent_once demo_build 8 demo_calls demo_instance_wav demo_wav_result.1
      demo_wav_result.2 (by decide) (by decide) (by decide) demo_wav_run).2⟩

/-! ## Transient backpressure (C11) -/

/-- A payload send answered with `serr = SRT_EASYNCSND` is the last event of the chunk loop, which is
then left without closing. -/
theorem send_chunks_block (payload_size : Int) (sock : SRTSOCKET) (data : List Nat)
    (ans : Nat → SendAnswer) :
    ∀ (fuel k : Nat) (ptr : Int) (remaining : Nat) (e : ChunkExit) (evs : List Event),
      send_chunks payload_size sock data ans fuel k ptr remaining = Res.ok (e, evs) →
      ∀ pre x post, evs = pre ++ x :: post →
        (∃ buf l a, x = Event.send SendSite.payload sock buf l a ∧ breaking_answer a = true) →
        post = [] ∧ e = ChunkExit.again := by
  intro fuel
  induction fuel with
  | zero =>
    intro k ptr remaining e evs h pre x post hsplit _
    unfold send_chunks at h
    by_cases hr : remaining > 0
    · simp [hr] at h
    · simp only [hr, if_false, Res.ok.injEq, Prod.mk.injEq] at h
      obtain ⟨rfl, rfl⟩ := h
      simp at hsplit
  | succ fuel ih =>
    intro k ptr remaining e evs h pre x post hsplit hx
    obtain ⟨buf, l, a, rfl, hwb⟩ := hx
    simp only [breaking_answer, Bool.and_eq_true, decide_eq_true_eq] at hwb
    unfold send_chunks at h
    by_cases hr : remaining > 0
    · simp only [hr, if_true] at h
      by_cases he : (ans k).ret = SRT_ERROR
      · simp only [he, if_true] at h
        by_cases hs : (ans k).serr = SRT_EASYNCSND
        · simp only [hs, if_true, Res.ok.injEq, Prod.mk.injEq] at h
          obtain ⟨rfl, rfl⟩ := h
          cases pre with
          | nil =>
            simp only [List.nil_append, List.cons.injEq] at hsplit
            exact ⟨hsplit.2.symm, rfl⟩
          | cons p pre2 =>
            simp only [List.cons_append, List.cons.injEq] at hsplit
            have := hsplit.2
            simp at this
        · simp only [hs, if_false, Res.ok.injEq, Prod.mk.injEq] at h
          obtain ⟨rfl, rfl⟩ := h
          cases pre with
          | nil =>
            simp only [List.nil_append, List.cons.injEq, Event.send.injEq] at hsplit
            obtain ⟨⟨_, _, _, _, ha⟩, _⟩ := hsplit
            rw [← ha] at hwb
            exact absurd hwb.2 hs
          | cons p pre2 =>
            simp only [List.cons_append, List.cons.injEq] at hsplit
            cases pre2 with
            | nil =>
              simp only [List.nil_append, List.cons.injEq] at hsplit
              have := hsplit.2.1
              cases this
            | cons q pre3 =>
              have := hsplit.2
              simp at this
      · simp only [he, if_false] at h
        split at h
        · rename_i e1 evs1 heq
          simp only [Res.ok.injEq, Prod.mk.injEq] at h
          obtain ⟨rfl, rfl⟩ := h
          cases pre with
          | nil =>
            simp only [List.nil_append, List.cons.injEq, Event.send.injEq] at hsplit
            obtain ⟨⟨_, _, _, _, ha⟩, _⟩ := hsplit
            rw [← ha] at hwb
            exact absurd hwb.1 he
          | cons p pre2 =>
            simp only [List.cons_append, List.cons.injEq] at hsplit
            exact ih _ _ _ _ _ heq pre2 _ post hsplit.2 ⟨buf, l, a, rfl, by
              simp [breaking_answer, hwb.1, hwb.2]⟩
        · cases h
        · cases h
    · simp only [hr, if_false, Res.ok.injEq, Prod.mk.injEq] at h
      obtain ⟨rfl, rfl⟩ := h
      simp at hsplit

/-- The same for one visit of the fan-out loop. -/
theorem send_client_block (sdata : srt_stream_data) (tr : Transport) (data : List Nat)
    (len fuel : Nat) (c c1 : srt_client) (e : ChunkExit) (evs : List Event)
    (h : send_client sdata tr data len fuel c = Res.ok (c1, e, evs))
    (pre post : List Event) (x : Event) (hsplit : evs = pre ++ x :: post)
    (hx : ∃ buf l a, x = Event.send SendSite.payload c.sock buf l a ∧ breaking_answer a = true) :
    post = [] ∧ e = ChunkExit.again := by
  rw [send_client_eq] at h
  cases hsc : send_chunks sdata.payload_size c.sock data
      (fun k => tr.answer c.sock ((client_header sdata tr c).length + k)) fuel 0 0 len with
  | fault => simp [hsc] at h
  | nofuel => simp [hsc] at h
  | ok r =>
    obtain ⟨e1, evs1⟩ := r
    simp only [hsc, Res.ok.injEq, Prod.mk.injEq] at h
    obtain ⟨_, rfl, rfl⟩ := h
    have hb := send_chunks_block _ _ _ _ _ _ _ _ _ _ hsc
    rcases client_header_cases sdata tr c with hh | ⟨_, _, hh⟩
    · rw [hh, List.nil_append] at hsplit
      exact hb pre x post hsplit hx
    · rw [hh] at hsplit
      cases pre with
      | nil =>
        obtain ⟨buf, l, a, rfl, _⟩ := hx
        simp at hsplit
      | cons p pre2 =>
        simp only [List.singleton_append, List.cons_append, List.cons.injEq] at hsplit
        exact hb pre2 x post hsplit.2 hx

theorem sends_to_all (s : SRTSOCKET) (log : List Event)
    (h1 : ∀ e ∈ log, on_socket s e = true) (h2 : closes log = []) : sends_to s log = log := by
  unfold sends_to
  rw [List.filter_eq_self]
  intro e he
  have hon := h1 e he
  have hcl : ∀ t, e ≠ Event.close t := by
    intro t ht
    subst ht
    unfold closes at h2
    rw [List.filterMap_eq_nil_iff] at h2
    have := h2 _ he
    simp at this
  cases e <;> simp [on_socket] at hon ⊢
  · exact hon
  · exact absurd rfl (hcl _)

/-- The first call of the chunk loop hands over the bytes of the payload from the offset
it is started with. -/
theorem send_chunks_first (payload_size : Int) (sock : SRTSOCKET) (data : List Nat)
    (ans : Nat → SendAnswer) (fuel k : Nat) (ptr : Int) (remaining : Nat) (e : ChunkExit)
    (evs : List Event) (hpos : 0 < remaining)
    (h : send_chunks payload_size sock data ans fuel k ptr remaining = Res.ok (e, evs)) :
    ∃ l rest, evs = Event.send SendSite.payload sock ((data.drop ptr.toNat).take l.toNat) l
      (ans k) :: rest := by
  cases fuel with
  | zero =>
    unfold send_chunks at h
    simp [hpos] at h
  | succ fuel =>
    unfold send_chunks at h
    simp only [gt_iff_lt, hpos, if_true] at h
    by_cases he : (ans k).ret = SRT_ERROR
    · simp only [he, if_true] at h
      by_cases hs : (ans k).serr = SRT_EASYNCSND
      · simp only [hs, if_true, Res.ok.injEq, Prod.mk.injEq] at h
        exact ⟨_, [], h.2.symm⟩
      · simp only [hs, if_false, Res.ok.injEq, Prod.mk.injEq] at h
        exact ⟨_, _, h.2.symm⟩
    · simp only [he, if_false] at h
      split at h
      · simp only [Res.ok.injEq, Prod.mk.injEq] at h
        exact ⟨_, _, h.2.symm⟩
      · cases h
      · cases h

/-- A socket that is closed during the visits belongs to a client whose visit ended on a
fatal answer. -/
theorem closes_mem (sdata : srt_stream_data) (tr : Transport) (data : List Nat)
    (len fuel : Nat) (s : SRTSOCKET) :
    ∀ (all : List srt_client) (visits : List (srt_client × ChunkExit × List Event)),
      List.Forall₂ (fun c v => send_client sdata tr data len fuel c = Res.ok v) all visits →
      s ∈ closes (logged visits) →
      ∃ c ∈ all, c.sock = s ∧ ∃ v, send_client sdata tr data len fuel c = Res.ok v ∧
        v.2.1 = ChunkExit.fatal := by
  intro all visits h
  induction h with
  | nil => intro hs; simp [logged, closes] at hs
  | @cons c v all visits hv _ ih =>
    intro hs
    obtain ⟨c1, e, evs⟩ := v
    obtain ⟨_, _, h3, _⟩ := send_client_log _ _ _ _ _ _ _ _ _ hv
    have hl : closes (logged ((c1, e, evs) :: visits)) = closes evs ++ closes (logged visits) := by
      simp [logged, closes]
    rw [hl, h3] at hs
    rcases List.mem_append.mp hs with hs | hs
    · by_cases hfat : e = ChunkExit.fatal
      · simp only [hfat, if_true, List.mem_singleton] at hs
        exact ⟨c, List.mem_cons_self _ _, hs.symm, _, hv, hfat⟩
      · simp [hfat] at hs
    · obtain ⟨c2, hc2, hc3, hc4⟩ := ih hs
      exact ⟨c2, List.mem_cons_of_mem _ hc2, hc3, hc4⟩

/-- The path of line 68.  Let `c` be the one client on its socket in a returning fan-out,
and let one of the payload sends to it be answered with an error whose `serr` reads
`SRT_EASYNCSND`.  Then that send is the last send to `c` in the call, its socket is not
closed, it stays registered, the instance changes in nothing but the registry (no tail is
kept), and in the next fan-out the first send to `c` is a payload send handing over the
new payload from its first byte. -/
theorem easyncsnd_drops_tail (fuel : Nat) (tr : Transport) (sdata sdata1 : srt_stream_data)
    (data : List Nat) (len : Nat) (ev : List Event) (c : srt_client)
    (hl : sdata.listen_socket ≠ SRT_INVALID_SOCK)
    (hc : (sdata.clients ++ (accepted tr.pending).map new_client).filter
      (fun x => decide (x.sock = c.sock)) = [c])
    (h : srt_stream_send fuel tr sdata data len = Res.ok (sdata1, ev))
    (hb : ∃ x ∈ sends_to c.sock ev, ∃ buf l a,
      x = Event.send SendSite.payload c.sock buf l a ∧ breaking_answer a = true) :
    (∃ pre buf l a, sends_to c.sock ev = pre ++ [Event.send SendSite.payload c.sock buf l a] ∧
      breaking_answer a = true) ∧
    c.sock ∉ closes ev ∧
    sdata1.clients.filter (fun x => decide (x.sock = c.sock)) = [mark_header sdata.format c] ∧
    sdata1 = { sdata with clients := sdata1.clients } ∧
    (∀ (fuel2 : Nat) (tr2 : Transport) (sdata2 : srt_stream_data) (data2 : List Nat)
      (len2 : Nat) (ev2 : List Event), 0 < len2 →
      (sdata1.clients ++ (accepted tr2.pending).map new_client).filter
        (fun x => decide (x.sock = c.sock)) = [mark_header sdata.format c] →
      srt_stream_send fuel2 tr2 sdata1 data2 len2 = Res.ok (sdata2, ev2) →
      ∃ l a rest, sends_to c.sock ev2 =
        Event.send SendSite.payload c.sock (data2.take l.toNat) l a :: rest) := by
  obtain ⟨visits, hvis, hs1, he1⟩ := srt_stream_send_visits _ _ _ _ _ _ _ hl h
  obtain ⟨v, a1, b1, c1⟩ := visits_single _ _ _ _ _ c.sock c _ _ hvis hc
  obtain ⟨w1, we, wl⟩ := v
  obtain ⟨g1, g2, g3, _⟩ := send_client_log _ _ _ _ _ _ _ _ _ a1
  have hsends : sends_to c.sock ev = sends_to c.sock wl := by
    rw [he1, sends_to_append, sends_to_accept, List.nil_append, b1]
  obtain ⟨x, hx, buf, l, a, rfl, hwb⟩ := hb
  rw [hsends] at hx
  have hxm : Event.send SendSite.payload c.sock buf l a ∈ wl := (List.mem_filter.mp hx).1
  obtain ⟨pre, post, hsplit⟩ := List.append_of_mem hxm
  obtain ⟨hpost, hagain⟩ := send_client_block _ _ _ _ _ _ _ _ _ a1 pre post _ hsplit
    ⟨buf, l, a, rfl, hwb⟩
  subst hpost
  have hcl : closes wl = [] := by rw [g3, hagain]; simp
  have hk : sdata1.clients = kept visits := by rw [hs1]
  have hfmt : sdata1.format = sdata.format := by rw [hs1]
  refine ⟨⟨pre, buf, l, a, ?_, hwb⟩, ?_, ?_, ?_, ?_⟩
  · rw [hsends, sends_to_all c.sock wl g2 hcl, hsplit]
  · intro hmem
    rw [he1] at hmem
    have hca : closes ((srt_stream_accept sdata tr.pending).2 ++ logged visits) =
        closes (srt_stream_accept sdata tr.pending).2 ++ closes (logged visits) := by
      simp [closes]
    rw [hca, closes_accept, List.nil_append] at hmem
    obtain ⟨c2, hc2, hc3, v2, hv2, hfat⟩ := closes_mem _ _ _ _ _ c.sock _ _ hvis hmem
    have hin : c2 ∈ (sdata.clients ++ (accepted tr.pending).map new_client).filter
        (fun x => decide (x.sock = c.sock)) :=
      List.mem_filter.mpr ⟨hc2, by simpa using hc3⟩
    rw [hc, List.mem_singleton] at hin
    subst hin
    rw [a1] at hv2
    cases hv2
    rw [hagain] at hfat
    cases hfat
  · rw [hk, c1, g1]
    simp [hagain]
  · rw [hs1]
  · intro fuel2 tr2 sdata2 data2 len2 ev2 hpos hc2 h2
    have hl2 : sdata1.listen_socket ≠ SRT_INVALID_SOCK := by rw [hs1]; exact hl
    obtain ⟨visits2, hvis2, _, he2⟩ := srt_stream_send_visits _ _ _ _ _ _ _ hl2 h2
    have hc2' : (sdata1.clients ++ (accepted tr2.pending).map new_client).filter
        (fun x => decide (x.sock = (mark_header sdata.format c).sock)) =
        [mark_header sdata.format c] := by
      rw [mark_header_sock]; exact hc2
    obtain ⟨v2, a2, b2, _⟩ := visits_single _ _ _ _ _ (mark_header sdata.format c).sock
      (mark_header sdata.format c) _ _ hvis2 hc2'
    rw [mark_header_sock] at b2
    have hsends2 : sends_to c.sock ev2 = sends_to c.sock v2.2.2 := by
      rw [he2, sends_to_append, sends_to_accept, List.nil_append, b2]
    have hhdr : client_header sdata1 tr2 (mark_header sdata.format c) = [] := by
      unfold client_header
      rw [hfmt]
      by_cases hw : sdata.format = SRT_STREAM_WAV
      · have := mark_header_wav c
        rw [← hw] at this
        simp [this]
      · simp [hw]
    rw [send_client_eq, hhdr] at a2
    generalize hsc : send_chunks sdata1.payload_size (mark_header sdata.format c).sock data2
      _ fuel2 0 0 len2 = r at a2
    cases r with
    | fault => cases a2
    | nofuel => cases a2
    | ok r =>
      obtain ⟨e2, evs2⟩ := r
      simp only [Res.ok.injEq] at a2
      obtain ⟨l2, rest, hfirst⟩ := send_chunks_first _ _ _ _ _ _ _ _ _ _ hpos hsc
      rw [hsends2, ← a2]
      simp only [List.nil_append]
      rw [hfirst, mark_header_sock]
      exact ⟨l2, tr2.answer c.sock (([] : List Event).length + 0), sends_to c.sock rest,
        by simp [sends_to]⟩

theorem demo_send_e :
    srt_stream_send 6 demo_transport_e demo_sdata_b demo_payload 6 =
      Res.ok (demo_sdata_b, demo_log_e) := by
  decide

/-- Client 8 is answered with `serr = SRT_EASYNCSND` on the first chunk of six bytes; the
next fan-out of the same six bytes sends it `[1, 2, 3, 4]` first. -/
theorem easyncsnd_drops_tail_demo :
    (∃ pre buf l a, sends_to 8 demo_log_e = pre ++ [Event.send SendSite.payload 8 buf l a] ∧
      breaking_answer a = true) ∧
    (8 : SRTSOCKET) ∉ closes demo_log_e ∧
    demo_sdata_b.clients.filter (fun x => decide (x.sock = 8)) =
      [mark_header demo_sdata_b.format { sock := 8, header_sent := true }] ∧
    demo_sdata_b = { demo_sdata_b with clients := demo_sdata_b.clients } ∧
    (∃ l a rest, sends_to 8 demo_log_b =
      Event.send SendSite.payload 8 (demo_payload.take l.toNat) l a :: rest) :=
  have t := easyncsnd_drops_tail 6 demo_transport_e demo_sdata_b demo_sdata_b demo_payload 6
    demo_log_e { sock := 8, header_sent := true } (by decide) (by decide) demo_send_e
    ⟨Event.send SendSite.payload 8 [1, 2, 3, 4] 4 { ret := -1, serr := 6001 }, by decide,
      [1, 2, 3, 4], 4, { ret := -1, serr := 6001 }, rfl, by decide⟩
  ⟨t.1, t.2.1, t.2.2.1, t.2.2.2.1,
    t.2.2.2.2 6 demo_transport_b demo_sdata_b demo_payload 6 demo_log_b (by decide) (by decide)
      demo_send_b⟩

/-! ## Connection acceptor (C12) -/

theorem srt_stream_accept_serr_eq (outcomes : List (SRTSOCKET × Int)) :
    ∀ sdata : srt_stream_data,
      srt_stream_accept_serr sdata outcomes = srt_stream_accept sdata (outcomes.map Prod.fst) := by
  induction outcomes with
  | nil => intro sdata; rfl
  | cons o rest ih =>
    intro sdata
    obtain ⟨s, serr⟩ := o
    by_cases h : s = SRT_INVALID_SOCK
    · simp [srt_stream_accept_serr, srt_stream_accept, h]
    · simp only [srt_stream_accept_serr, srt_stream_accept, List.map_cons, h, if_false, ih]

theorem accept_calls (pending : List SRTSOCKET) :
    ∀ sdata : srt_stream_data,
      ((srt_stream_accept sdata pending).2.filter is_accept).length =
        (accepted pending).length + 1 := by
  induction pending with
  | nil => intro sdata; simp [srt_stream_accept, accepted, is_accept]
  | cons s rest ih =>
    intro sdata
    by_cases h : s = SRT_INVALID_SOCK
    · simp [srt_stream_accept, accepted, is_accept, h]
    · have hacc : accepted (s :: rest) = s :: accepted rest := by
        simp [accepted, List.takeWhile_cons, h]
      have hopt : (socket_options sdata.srt_mode s).filter is_accept = [] := by
        cases sdata.srt_mode <;> simp [socket_options, is_accept]
      rw [srt_stream_accept, if_neg h, hacc]
      simp only [List.cons_append, List.filter_cons, is_accept, if_true, List.filter_append, hopt,
        List.nil_append, List.length_cons, ih]

/-- C12: for every registry and every finite sequence of accept outcomes (return value and
error code), `srt_stream_accept` leaves the existing entries in place and appends, in
accept order, one client `{socket, header_sent = false}` for each connection accepted
before the first failed accept; it calls `srt_accept` once more than it accepts, stopping
at the first failure whatever its error code; it closes nothing, sends nothing and changes
no other field. -/
theorem srt_stream_accept_appends (sdata : srt_stream_data)
    (outcomes : List (SRTSOCKET × Int)) :
    (srt_stream_accept_serr sdata outcomes).1 =
      { sdata with
        clients := sdata.clients ++ (accepted (outcomes.map Prod.fst)).map new_client } ∧
    accepted (outcomes.map Prod.fst) =
      (outcomes.map Prod.fst).takeWhile (fun s => decide (s ≠ SRT_INVALID_SOCK)) ∧
    (∀ s, new_client s = { sock := s, header_sent := false }) ∧
    ((srt_stream_accept_serr sdata outcomes).2.filter is_accept).length =
      (accepted (outcomes.map Prod.fst)).length + 1 ∧
    closes (srt_stream_accept_serr sdata outcomes).2 = [] ∧
    (∀ e ∈ (srt_stream_accept_serr sdata outcomes).2, is_send e = false) ∧
    srt_stream_accept_serr sdata outcomes = srt_stream_accept sdata (outcomes.map Prod.fst) := by
  rw [srt_stream_accept_serr_eq]
  exact ⟨srt_stream_accept_state _ _, rfl, fun _ => rfl, accept_calls _ _, closes_accept _ _,
    fun e he => (srt_stream_accept_events _ _ e he).1, rfl⟩

/-! ## Buffer sizing at initialization -/

theorem srt_stream_init_eq (b : Build) (g : Bool) (env : InitEnv) (cfg : srt_stream_data)
    (mode : mix_modes) (len : Nat) :
    srt_stream_init b g env cfg mode len =
      if srt_try_startup g env = false then (false, cfg, srt_try_startup g env, [])
      else init_listen (srt_try_startup g env) env (init_buffers b cfg mode len) := rfl

theorem init_listen_ok (g : Bool) (env : InitEnv) (x sdata : srt_stream_data) (g1 : Bool)
    (ev : List Event) (h : init_listen g env x = (true, sdata, g1, ev)) :
    env.new_socket ≠ SRT_INVALID_SOCK ∧ env.inet_aton_ok = true ∧ env.bind_ok = true ∧
    env.listen_ok = true ∧
    sdata = { x with listen_socket := env.new_socket,
                     payload_size := env.payload_size.getD SRT_LIVE_DEF_PLSIZE,
                     clients := [] } := by
  unfold init_listen at h
  by_cases h2 : env.new_socket = SRT_INVALID_SOCK
  · simp [h2] at h
  by_cases h3 : env.inet_aton_ok = false
  · simp [h2, h3] at h
  by_cases h4 : env.bind_ok = false
  · simp [h2, h3, h4] at h
  by_cases h5 : env.listen_ok = false
  · simp [h2, h3, h4, h5] at h
  simp only [h2, h3, h4, h5, if_false, Prod.mk.injEq, true_and] at h
  obtain ⟨rfl, _, _⟩ := h
  refine ⟨h2, by simpa using h3, by simpa using h4, by simpa using h5, ?_⟩
  cases env.payload_size <;> rfl

theorem init_listen_success (g : Bool) (env : InitEnv) (x : srt_stream_data)
    (h2 : env.new_socket ≠ SRT_INVALID_SOCK) (h3 : env.inet_aton_ok = true)
    (h4 : env.bind_ok = true) (h5 : env.listen_ok = true) :
    ∃ ev sd, init_listen g env x = (true, sd, g, ev) ∧
      sd = { x with listen_socket := env.new_socket,
                    payload_size := env.payload_size.getD SRT_LIVE_DEF_PLSIZE,
                    clients := [] } := by
  unfold init_listen
  simp only [h2, h3, h4, h5, if_false]
  cases env.payload_size <;> exact ⟨_, _, rfl, rfl⟩

theorem init_buffers_fields (b : Build) (cfg : srt_stream_data) (mode : mix_modes) (len : Nat) :
    (init_buffers b cfg mode len).format = cfg.format ∧
    (init_buffers b cfg mode len).sample_rate = cfg.sample_rate ∧
    (init_buffers b cfg mode len).srt_mode = cfg.srt_mode ∧
    (init_buffers b cfg mode len).mode = mode ∧
    (init_buffers b cfg mode len).stereo_buffer_len =
      (if cfg.format ≠ SRT_STREAM_MP3 ∧ mode = MM_STEREO then len / 4 * 2 else 0) ∧
    (init_buffers b cfg mode len).stereo_buffer =
      (if cfg.format ≠ SRT_STREAM_MP3 ∧ mode = MM_STEREO then
        some (List.replicate (len / 4 * 2) 0) else none) ∧
    (init_buffers b cfg mode len).pcm_buffer_len =
      (if cfg.format = SRT_STREAM_WAV ∨ cfg.format = SRT_STREAM_PCM then
        len / 4 * (if mode = MM_STEREO then 2 else 1) else 0) ∧
    (init_buffers b cfg mode len).pcm_buffer =
      (if cfg.format = SRT_STREAM_WAV ∨ cfg.format = SRT_STREAM_PCM then
        some (List.replicate (len / 4 * (if mode = MM_STEREO then 2 else 1)) 0) else none) ∧
    (init_buffers b cfg mode len).resample_buffer_len =
      (if cfg.sample_rate ≠ b.WAVE_RATE ∧
          (cfg.format = SRT_STREAM_WAV ∨ cfg.format = SRT_STREAM_PCM) then
        ((len / 4 * (if mode = MM_STEREO then 2 else 1) * to_u64 cfg.sample_rate % 2 ^ 64) /
          to_u64 b.WAVE_RATE + 1) % 2 ^ 64 else 0) ∧
    (init_buffers b cfg mode len).resample_buffer =
      (if cfg.sample_rate ≠ b.WAVE_RATE ∧
          (cfg.format = SRT_STREAM_WAV ∨ cfg.format = SRT_STREAM_PCM) then
        some (List.replicate ((init_buffers b cfg mode len).resample_buffer_len) 0)
       else none) := by
  obtain ⟨fmt, sm, sr, md, ps, ls, cl, sb, sbl, pb, pbl, rb, rbl⟩ := cfg
  by_cases hr : sr = b.WAVE_RATE <;> cases fmt <;> cases mode <;>
    simp [init_buffers, hr]

/-- What a successful `srt_stream_init` leaves in the instance: the buffers of
`init_buffers`, the new listening socket, the negotiated payload size and an empty
registry. -/
theorem srt_stream_init_result (b : Build) (g : Bool) (env : InitEnv) (cfg : srt_stream_data)
    (mode : mix_modes) (len : Nat) (sdata : srt_stream_data) (g1 : Bool) (ev : List Event)
    (h : srt_stream_init b g env cfg mode len = (true, sdata, g1, ev)) :
    env.new_socket ≠ SRT_INVALID_SOCK ∧
    sdata = { init_buffers b cfg mode len with
                listen_socket := env.new_socket,
                payload_size := env.payload_size.getD SRT_LIVE_DEF_PLSIZE,
                clients := [] } := by
  rw [srt_stream_init_eq] at h
  by_cases h1 : srt_try_startup g env = false
  · rw [if_pos h1] at h
    simp at h
  · rw [if_neg h1] at h
    obtain ⟨h2, _, _, _, h6⟩ := init_listen_ok _ _ _ _ _ _ h
    exact ⟨h2, h6⟩

/-- The resample capacity in 64-bit arithmetic equals the exact quotient plus one when the
product does not wrap. -/
theorem resample_capacity_exact (n : Nat) (sr w : Int) (hw : 0 < w) (hw2 : w < 2 ^ 64)
    (hs : 0 ≤ sr) (hno : (n : Int) * sr + 1 < 2 ^ 64) :
    ((((n * to_u64 sr % 2 ^ 64) / to_u64 w + 1) % 2 ^ 64 : Nat) : Int) = (n : Int) * sr / w + 1 := by
  have hprod0 : 0 ≤ (n : Int) * sr := by positivity
  have hq0 : 0 ≤ (n : Int) * sr / w := Int.ediv_nonneg hprod0 (le_of_lt hw)
  have hq1 : (n : Int) * sr / w ≤ (n : Int) * sr := Int.ediv_le_self _ hprod0
  have hw3 : (to_u64 w : Int) = w := to_u64_of_range (le_of_lt hw) hw2
  by_cases hz : n = 0
  · subst hz
    simp
  · have hpos : (1 : Int) ≤ (n : Int) := by omega
    have hs2 : sr < 2 ^ 64 := by nlinarith
    have hs3 : (to_u64 sr : Int) = sr := to_u64_of_range hs hs2
    push_cast
    rw [hs3, hw3]
    have hno2 : (n : Int) * sr + 1 < 18446744073709551616 := by simpa using hno
    rw [Int.emod_eq_of_lt hprod0 (by omega), Int.emod_eq_of_lt (by omega) (by omega)]

theorem demo_init_16k :
    srt_stream_init demo_build false demo_init_env demo_config_16k MM_STEREO 16 =
      (true, demo_instance_16k, true,
        (srt_stream_init demo_build false demo_init_env demo_config_16k MM_STEREO 16).2.2.2) :=
  rfl

theorem capacity_some {α : Type} {buf : Option (List α)} {n : Nat}
    (h : capacity buf = some n) : ∃ l, buf = some l ∧ l.length = n := by
  cases buf with
  | none => cases h
  | some l => exact ⟨l, rfl, by simpa [capacity] using h⟩

/-- A successful `srt_stream_init` leaves the buffers ready. -/
theorem srt_stream_init_ready (b : Build) (g : Bool) (env : InitEnv) (cfg : srt_stream_data)
    (mode : mix_modes) (len : Nat) (sdata : srt_stream_data) (g1 : Bool) (ev : List Event)
    (h : srt_stream_init b g env cfg mode len = (true, sdata, g1, ev)) :
    buffers_ready b sdata ∧ sdata.format = cfg.format ∧ sdata.sample_rate = cfg.sample_rate ∧
    sdata.mode = mode ∧ sdata.listen_socket ≠ SRT_INVALID_SOCK ∧
    sdata.pcm_buffer_len = cap_pcm cfg.format mode len := by
  obtain ⟨hs, rfl⟩ := srt_stream_init_result _ _ _ _ _ _ _ _ _ h
  obtain ⟨e1, e2, _, e4, f1, f2, f3, f4, f5, f6⟩ := init_buffers_fields b cfg mode len
  refine ⟨⟨?_, ?_, ?_, ?_⟩, e1, e2, e4, hs, ?_⟩
  · simp only [e1, e4, f1, f2]
    by_cases hc : cfg.format ≠ SRT_STREAM_MP3 ∧ mode = MM_STEREO
    · simp only [if_pos hc, capacity, Option.map_some', List.length_replicate]
    · simp only [if_neg hc, capacity, Option.map_none']
  · simp only [e1, f3, f4]
    by_cases hc : cfg.format = SRT_STREAM_WAV ∨ cfg.format = SRT_STREAM_PCM
    · simp only [if_pos hc, capacity, Option.map_some', List.length_replicate]
    · simp only [if_neg hc, capacity, Option.map_none']
  · simp only [e1, e2, f6]
    by_cases hc : cfg.sample_rate ≠ b.WAVE_RATE ∧
        (cfg.format = SRT_STREAM_WAV ∨ cfg.format = SRT_STREAM_PCM)
    · simp only [if_pos hc, capacity, Option.map_some', List.length_replicate]
    · simp only [if_neg hc, capacity, Option.map_none']
  · simp only [e1, e2, f3, f5]
    by_cases hc : cfg.sample_rate ≠ b.WAVE_RATE ∧
        (cfg.format = SRT_STREAM_WAV ∨ cfg.format = SRT_STREAM_PCM)
    · simp only [if_pos hc, if_pos hc.2]
    · simp only [if_neg hc]
  · simp only [f3, cap_pcm]
    by_cases hc : cfg.format = SRT_STREAM_WAV ∨ cfg.format = SRT_STREAM_PCM
    · rw [if_pos hc, if_pos hc.symm]
    · rw [if_neg hc, if_neg (fun hx => hc hx.symm)]

/-- Once the loop index has passed the end of `out`, or will pass it, the resampling loop
leaves the output array. -/
theorem resample_loop_overrun (inp : List Int) (in_count : Nat) (in_rate out_rate : Int) :
    ∀ (n i : Nat) (out : List Int), 0 < n → out.length < i + n →
      resample_loop inp in_count in_rate out_rate n i out = none := by
  intro n
  induction n with
  | zero => intro i out h0 _; omega
  | succ n ih =>
    intro i out _ h
    unfold resample_loop
    simp only []
    split
    · split
      · split
        · rename_i hi
          apply ih
          · omega
          · rw [List.length_set]; omega
        · rfl
      · rfl
    · split
      · split
        · rename_i hi
          apply ih
          · omega
          · rw [List.length_set]; omega
        · rfl
      · rfl

/-- The tail of the PCM/WAV write paths when a resample buffer exists and the products
`count * sample_rate` and `pcm_buffer_len * sample_rate` do not wrap: `resample_linear`
returns `⌊count * sample_rate / WAVE_RATE⌋`, which is below the length of the resample
buffer, and its output is handed to the fan-out, two bytes per sample. -/
theorem send_pcm_resamples (b : Build) (fuel : Nat) (tr : Transport) (s : srt_stream_data)
    (q rb : List Int) (count : Nat) (hq : s.pcm_buffer = some q)
    (hr : s.resample_buffer = some rb) (hcount : count ≤ s.pcm_buffer_len)
    (hql : count ≤ q.length)
    (hrl : rb.length = ((s.pcm_buffer_len * to_u64 s.sample_rate % 2 ^ 64) /
      to_u64 b.WAVE_RATE + 1) % 2 ^ 64)
    (hw : 0 < b.WAVE_RATE) (hw2 : b.WAVE_RATE < 2 ^ 31) (hs : 0 < s.sample_rate)
    (hno : (s.pcm_buffer_len : Int) * s.sample_rate + 1 < 2 ^ 64) :
    ((count : Int) * s.sample_rate / b.WAVE_RATE).toNat < rb.length ∧
    ∃ r, resample_linear q count rb b.WAVE_RATE s.sample_rate =
        some (((count : Int) * s.sample_rate / b.WAVE_RATE).toNat, r) ∧
      r.length = rb.length ∧
      (∀ i, i < ((count : Int) * s.sample_rate / b.WAVE_RATE).toNat →
        r[i]? = some (interp_sample q count b.WAVE_RATE s.sample_rate i)) ∧
      send_pcm b fuel tr s count =
        srt_stream_send fuel tr { s with resample_buffer := some r } (int16_bytes r)
          (((count : Int) * s.sample_rate / b.WAVE_RATE).toNat * 2) := by
  have hw3 : b.WAVE_RATE < 2 ^ 64 := by omega
  have hcap := resample_capacity_exact s.pcm_buffer_len s.sample_rate b.WAVE_RATE hw hw3
    (le_of_lt hs) hno
  have hci : (count : Int) ≤ (s.pcm_buffer_len : Int) := by exact_mod_cast hcount
  have hmul : (count : Int) * s.sample_rate ≤ (s.pcm_buffer_len : Int) * s.sample_rate :=
    mul_le_mul_of_nonneg_right hci (le_of_lt hs)
  have hdiv : (count : Int) * s.sample_rate / b.WAVE_RATE ≤
      (s.pcm_buffer_len : Int) * s.sample_rate / b.WAVE_RATE := Int.ediv_le_ediv hw hmul
  have hnn : 0 ≤ (count : Int) * s.sample_rate / b.WAVE_RATE :=
    Int.ediv_nonneg (by positivity) (le_of_lt hw)
  have hlt : ((count : Int) * s.sample_rate / b.WAVE_RATE).toNat < rb.length := by
    have : ((rb.length : Nat) : Int) = (s.pcm_buffer_len : Int) * s.sample_rate / b.WAVE_RATE + 1 := by
      rw [hrl]; exact hcap
    omega
  obtain ⟨r, h1, h2, h3, _⟩ := resample_linear_spec q count rb b.WAVE_RATE s.sample_rate hw hw3 hs
    (by omega) hql (le_of_lt hlt)
  refine ⟨hlt, r, h1, h2, h3, ?_⟩
  unfold send_pcm
  simp only [hr, hq, Option.getD_some, h1]

/-! ## Format dispatch of the mono write -/

/-- The mono write path up to the fan-out, for every fuel and transport at once. -/
theorem srt_stream_write_prefix (b : Build) (sdata : srt_stream_data) (data : List ℚ)
    (len : Nat) (buf : List Int)
    (hf : sdata.format = SRT_STREAM_WAV ∨ sdata.format = SRT_STREAM_PCM)
    (hb : sdata.pcm_buffer = some buf) (hcap : len / 4 ≤ sdata.pcm_buffer_len)
    (halloc : sdata.pcm_buffer_len ≤ buf.length) (hdata : len / 4 ≤ data.length) :
    ∃ q, ∀ (fuel : Nat) (tr : Transport),
      srt_stream_write b fuel tr sdata data len =
        send_pcm b fuel tr { sdata with pcm_buffer := some q } (len / 4) := by
  obtain ⟨q, h1, _, _, _⟩ := quantize_loop_spec data (len / 4) 0 buf (by omega) (by omega)
  refine ⟨q, fun fuel tr => ?_⟩
  unfold srt_stream_write
  simp only [hf, if_true, not_lt.mpr hcap, if_false, quantize_block, hb, h1, gt_iff_lt]

theorem demo_init_fast :
    srt_stream_init demo_build false demo_init_env demo_config_fast MM_MONO 68719476736 =
      (true, demo_instance_fast, true,
        (srt_stream_init demo_build false demo_init_env demo_config_fast MM_MONO
          68719476736).2.2.2) := by
  obtain ⟨ev, sd, h1, _⟩ := init_listen_success true demo_init_env
    (init_buffers demo_build demo_config_fast MM_MONO 68719476736) (by decide) rfl rfl rfl
  have h : srt_stream_init demo_build false demo_init_env demo_config_fast MM_MONO
      68719476736 = (true, sd, true, ev) := by
    rw [srt_stream_init_eq]
    exact h1
  unfold demo_instance_fast
  rw [h]

/-- The instance `demo_instance_fast`: a PCM stream with `2 ^ 34` quantization slots and,
by the wrap of `2 ^ 34 * 2 ^ 30`, one resample slot. -/
theorem demo_instance_fast_fields :
    buffers_ready demo_build demo_instance_fast ∧
    demo_instance_fast.format = SRT_STREAM_PCM ∧
    demo_instance_fast.sample_rate = 1073741824 ∧
    demo_instance_fast.pcm_buffer_len = 17179869184 ∧
    demo_instance_fast.resample_buffer_len = 1 := by
  obtain ⟨h1, h2, h3, _, _, h6⟩ := srt_stream_init_ready _ _ _ _ _ _ _ _ _ demo_init_fast
  have h7 : demo_instance_fast.pcm_buffer_len = 17179869184 := by rw [h6]; decide
  have h2a : demo_instance_fast.format = SRT_STREAM_PCM := h2
  have h3a : demo_instance_fast.sample_rate = 1073741824 := h3
  have hc : demo_instance_fast.sample_rate ≠ demo_build.WAVE_RATE ∧
      (demo_instance_fast.format = SRT_STREAM_WAV ∨
        demo_instance_fast.format = SRT_STREAM_PCM) :=
    ⟨by rw [h3a]; decide, Or.inr h2a⟩
  have h8 := h1.2.2.2
  rw [if_pos hc, h7, h3a] at h8
  refine ⟨h1, h2a, h3a, h7, ?_⟩
  rw [h8]
  decide

/-- The tail of the PCM/WAV write paths leaves the interleave buffer as it is. -/
theorem send_pcm_stereo_buffer (b : Build) (fuel : Nat) (tr : Transport)
    (sdata sdata1 : srt_stream_data) (n : Nat) (ev : List Event)
    (h : send_pcm b fuel tr sdata n = Res.ok (sdata1, ev)) :
    sdata1.stereo_buffer = sdata.stereo_buffer := by
  unfold send_pcm at h
  split at h
  · split at h
    · have := srt_stream_send_frame _ _ _ _ _ _ _ h
      rw [this]
    · cases h
  · have := srt_stream_send_frame _ _ _ _ _ _ _ h
    rw [this]

theorem quantize_block_stereo_buffer (src : List ℚ) (n : Nat) (s s1 : srt_stream_data)
    (h : quantize_block src n s = Res.ok s1) : s1.stereo_buffer = s.stereo_buffer := by
  unfold quantize_block at h
  split at h
  · cases h; rfl
  · cases h
  · cases h

/-- The first `4 k` bytes of the byte view of an array of 4-byte elements are the byte
view of its first `k` elements. -/
theorem take_flatMap_four {α β : Type} (f : α → List β) (hf : ∀ v, (f v).length = 4) :
    ∀ (l : List α) (k : Nat), (l.flatMap f).take (k * 4) = (l.take k).flatMap f := by
  intro l
  induction l with
  | nil => intro k; simp
  | cons x xs ih =>
    intro k
    cases k with
    | zero => simp
    | succ k =>
      have h4 : (k + 1) * 4 = (f x).length + k * 4 := by rw [hf]; omega
      rw [List.flatMap_cons, h4, List.take_append, ih, List.take_succ_cons, List.flatMap_cons]

/-- C15: let `n = len / 4` and let a `float` have four bytes.  If the interleave buffer is
allocated with at least `stereo_buffer_len` slots, `2 n ≤ stereo_buffer_len` and `left`
and `right` hold `n` samples each, the stereo write stores `left[i]` at slot `2 i` and `right[i]` at slot `2 i + 1` for every
`i < n`, leaves the slots from `2 n` on as they were, and the instance it returns holds
that buffer; for the RAW format the fan-out is handed the byte view of the buffer with
length `8 n`, which is the byte view of its first `2 n` floats, and the call returns when
the fuel covers the payload.  If no interleave buffer is allocated or
`2 n > stereo_buffer_len`, the call returns at once: the instance is unchanged and nothing
is sent. -/
theorem srt_stream_write_stereo_interleaves (b : Build) (fuel : Nat) (tr : Transport)
    (sdata : srt_stream_data) (left right : List ℚ) (len : Nat)
    (hfb : ∀ v, (b.float_bytes v).length = 4) :
    (∀ sb, sdata.stereo_buffer = some sb → sdata.stereo_buffer_len ≤ sb.length →
      len / 4 * 2 ≤ sdata.stereo_buffer_len → len / 4 ≤ left.length → len / 4 ≤ right.length →
      ∃ sb1, sb1.length = sb.length ∧
        (∀ i, i < len / 4 →
          sb1[2 * i]? = some (left.getD i 0) ∧ sb1[2 * i + 1]? = some (right.getD i 0)) ∧
        (∀ k, 2 * (len / 4) ≤ k → sb1[k]? = sb[k]?) ∧
        (∀ s1 ev, srt_stream_write_stereo b fuel tr sdata left right len = Res.ok (s1, ev) →
          s1.stereo_buffer = some sb1) ∧
        (sdata.format = SRT_STREAM_RAW →
          srt_stream_write_stereo b fuel tr sdata left right len =
            srt_stream_send fuel tr { sdata with stereo_buffer := some sb1 }
              (sb1.flatMap b.float_bytes) (len / 4 * 2 * 4) ∧
          (sb1.flatMap b.float_bytes).take (len / 4 * 2 * 4) =
            (sb1.take (len / 4 * 2)).flatMap b.float_bytes ∧
          (0 < sdata.payload_size → sdata.payload_size < 2 ^ 31 → len / 4 * 2 * 4 ≤ fuel →
            len / 4 * 2 * 4 < 2 ^ 64 →
            ∃ r, srt_stream_write_stereo b fuel tr sdata left right len = Res.ok r))) ∧
    (sdata.stereo_buffer = none ∨ sdata.stereo_buffer_len < len / 4 * 2 →
      srt_stream_write_stereo b fuel tr sdata left right len = Res.ok (sdata, [])) := by
  refine ⟨?_, ?_⟩
  · intro sb hs hsl hcap hl hr
    obtain ⟨sb1, s1, s2, s3, s4⟩ := interleave_loop_spec left right (len / 4) 0 sb
      (by omega) (by omega) (by omega)
    have hne : ¬ (sdata.stereo_buffer = none) := by rw [hs]; simp
    have hw : srt_stream_write_stereo b fuel tr sdata left right len =
        (if sdata.format = SRT_STREAM_WAV ∨ sdata.format = SRT_STREAM_PCM then
          if len / 4 * 2 > sdata.pcm_buffer_len then
            Res.ok ({ sdata with stereo_buffer := some sb1 }, [])
          else
            match quantize_block sb1 (len / 4 * 2) { sdata with stereo_buffer := some sb1 } with
            | Res.ok sdata => send_pcm b fuel tr sdata (len / 4 * 2)
            | Res.fault => Res.fault
            | Res.nofuel => Res.nofuel
        else
          srt_stream_send fuel tr { sdata with stereo_buffer := some sb1 }
            (sb1.flatMap b.float_bytes) (len / 4 * 2 * 4)) := by
      unfold srt_stream_write_stereo
      simp only [hne, if_false, not_lt.mpr hcap, gt_iff_lt, hs, s1, Option.getD_some]
      rw [if_neg (by simp)]
    refine ⟨sb1, s2, fun i hi => s3 i (Nat.zero_le _) (by omega),
      fun k hk => s4 k (Or.inr (by omega)), ?_, ?_⟩
    · intro t1 ev h
      rw [hw] at h
      split at h
      · split at h
        · cases h; rfl
        · split at h
          · rename_i x hq
            rw [send_pcm_stereo_buffer _ _ _ _ _ _ _ h,
              quantize_block_stereo_buffer _ _ _ _ hq]
          · cases h
          · cases h
      · rw [srt_stream_send_frame _ _ _ _ _ _ _ h]
    · intro hf
      have hn : ¬ (sdata.format = SRT_STREAM_WAV ∨ sdata.format = SRT_STREAM_PCM) := by
        rw [hf]; decide
      rw [hw, if_neg hn]
      refine ⟨rfl, take_flatMap_four _ hfb _ _, fun h0 h1 h2 h3 => ?_⟩
      exact srt_stream_send_total fuel tr _ _ _ h0 h1 h2 h3
  · intro h
    unfold srt_stream_write_stereo
    rcases h with h | h
    · rw [if_pos h]
    · by_cases hn : sdata.stereo_buffer = none
      · rw [if_pos hn]
      · rw [if_neg hn]
        simp only [gt_iff_lt, h, if_true]


/-- Witness of C15: on the RAW stereo instance with eight interleave slots, a write of two
samples per channel fills slots 0 to 3 and hands 16 bytes to the fan-out; a write of ten
samples per channel is rejected. -/
theorem srt_stream_write_stereo_interleaves_witness :
    (∀ v, (demo_build.float_bytes v).length = 4) ∧
    (∃ sb1, sb1.length = 8 ∧
      (∀ i, i < 8 / 4 →
        sb1[2 * i]? = some (demo_left.getD i 0) ∧ sb1[2 * i + 1]? = some (demo_right.getD i 0)) ∧
      (∀ k, 2 * (8 / 4) ≤ k → sb1[k]? = (List.replicate 8 (0 : ℚ))[k]?) ∧
      srt_stream_write_stereo demo_build 16 demo_transport_b demo_instance_raw demo_left
          demo_right 8 =
        srt_stream_send 16 demo_transport_b { demo_instance_raw with stereo_buffer := some sb1 }
          (sb1.flatMap demo_build.float_bytes) (8 / 4 * 2 * 4) ∧
      ∃ r, srt_stream_write_stereo demo_build 16 demo_transport_b demo_instance_raw demo_left
        demo_right 8 = Res.ok r) ∧
    srt_stream_write_stereo demo_build 16 demo_transport_b demo_instance_raw demo_left
      demo_right 40 = Res.ok (demo_instance_raw, []) := by
  have hfb : ∀ v, (demo_build.float_bytes v).length = 4 := fun _ => rfl
  have t := srt_stream_write_stereo_interleaves demo_build 16 demo_transport_b
    demo_instance_raw demo_left demo_right 8 hfb
  have u := srt_stream_write_stereo_interleaves demo_build 16 demo_transport_b
    demo_instance_raw demo_left demo_right 40 hfb
  obtain ⟨sb1, h1, h2, h3, _, h5⟩ := t.1 (List.replicate 8 0) rfl (by decide) (by decide)
    (by decide) (by decide)
  obtain ⟨h6, _, h8⟩ := h5 rfl
  exact ⟨hfb, ⟨sb1, h1, h2, h3, h6, h8 (by decide) (by decide) (by decide) (by decide)⟩,
    u.2 (Or.inr (by decide))⟩

/-! ## Termination of the fan-out -/

/-- With a positive payload size the chunk loop issues at most
`⌈remaining / payload_size⌉` sends. -/
theorem send_chunks_count {payload_size : Int} (h0 : 0 < payload_size)
    (h1 : payload_size < 2 ^ 31) (sock : SRTSOCKET) (data : List Nat) (ans : Nat → SendAnswer) :
    ∀ (fuel k : Nat) (ptr : Int) (remaining : Nat) (e : ChunkExit) (evs : List Event),
      remaining < 2 ^ 64 →
      send_chunks payload_size sock data ans fuel k ptr remaining = Res.ok (e, evs) →
      (payload_sends evs : Int) * payload_size ≤ (remaining : Int) + payload_size - 1 := by
  intro fuel
  induction fuel with
  | zero =>
    intro k ptr remaining e evs _ h
    unfold send_chunks at h
    by_cases hr : remaining > 0
    · simp [hr] at h
    · simp only [hr, if_false, Res.ok.injEq, Prod.mk.injEq] at h
      obtain ⟨rfl, rfl⟩ := h
      simp only [payload_sends, List.filter_nil, List.length_nil, Nat.cast_zero, zero_mul]
      omega
  | succ fuel ih =>
    intro k ptr remaining e evs hlt h
    unfold send_chunks at h
    by_cases hr : remaining > 0
    · simp only [hr, if_true] at h
      have hone : (1 : Int) * payload_size ≤ (remaining : Int) + payload_size - 1 := by omega
      by_cases he : (ans k).ret = SRT_ERROR
      · simp only [he, if_true] at h
        by_cases hs : (ans k).serr = SRT_EASYNCSND
        · simp only [hs, if_true, Res.ok.injEq, Prod.mk.injEq] at h
          obtain ⟨rfl, rfl⟩ := h
          simpa [payload_sends, is_payload_send] using hone
        · simp only [hs, if_false, Res.ok.injEq, Prod.mk.injEq] at h
          obtain ⟨rfl, rfl⟩ := h
          simpa [payload_sends, is_payload_send] using hone
      · simp only [he, if_false] at h
        rw [chunk_eq_min (le_of_lt h0) h1] at h
        split at h
        · rename_i e1 evs1 heq1
          simp only [Res.ok.injEq, Prod.mk.injEq] at h
          obtain ⟨rfl, rfl⟩ := h
          have hrem : to_u64 ((remaining : Int) - min (remaining : Int) payload_size) =
              ((remaining : Int) - min (remaining : Int) payload_size).toNat := by
            unfold to_u64
            rw [Int.emod_eq_of_lt (by omega) (by omega)]
          rw [hrem] at heq1
          have := ih _ _ _ _ _ (by omega) heq1
          have hc : payload_sends (Event.send SendSite.payload sock
              (List.take (min (remaining : Int) payload_size).toNat (List.drop ptr.toNat data))
              (min (remaining : Int) payload_size) (ans k) :: evs1) = payload_sends evs1 + 1 := by
            simp [payload_sends, is_payload_send]
          rw [hc]
          push_cast
          rw [add_mul, one_mul]
          rcases le_total (remaining : Int) payload_size with hle | hle
          · rw [min_eq_left hle] at this
            simp only [sub_self, Int.toNat_zero, Nat.cast_zero] at this
            have hb : (payload_sends evs1 : Int) = 0 := by
              by_contra hne
              have hge : (1 : Int) ≤ (payload_sends evs1 : Int) := by omega
              have := mul_le_mul_of_nonneg_right hge (le_of_lt h0)
              omega
            rw [hb]
            omega
          · rw [min_eq_right hle] at this
            rw [Int.toNat_of_nonneg (by omega)] at this
            omega
        · cases h
        · cases h
    · simp only [hr, if_false, Res.ok.injEq, Prod.mk.injEq] at h
      obtain ⟨rfl, rfl⟩ := h
      simp only [payload_sends, List.filter_nil, List.length_nil, Nat.cast_zero, zero_mul]
      omega

/-- With payload size zero the chunk loop never gets past a transport that answers every
send without an error: no fuel is enough. -/
theorem send_chunks_spin (sock : SRTSOCKET) (data : List Nat) (ans : Nat → SendAnswer)
    (hans : ∀ j, (ans j).ret ≠ SRT_ERROR) :
    ∀ (fuel k : Nat) (ptr : Int) (remaining : Nat), 0 < remaining → remaining < 2 ^ 64 →
      send_chunks 0 sock data ans fuel k ptr remaining = Res.nofuel := by
  intro fuel
  induction fuel with
  | zero =>
    intro k ptr remaining hr _
    unfold send_chunks
    simp [hr]
  | succ fuel ih =>
    intro k ptr remaining hr hlt
    unfold send_chunks
    have hu : to_u64 0 = 0 := by decide
    have hz : to_int 0 = 0 := by decide
    have hrem : to_u64 ((remaining : Int) - 0) = remaining := by
      unfold to_u64
      rw [sub_zero, Int.emod_eq_of_lt (by omega) (by omega)]
      simp
    simp only [gt_iff_lt, hr, if_true, hans k, if_false, hu, hz, hrem]
    rw [ih _ _ _ hr hlt]


theorem payload_sends_append (l1 l2 : List Event) :
    payload_sends (l1 ++ l2) = payload_sends l1 + payload_sends l2 := by
  simp [payload_sends]

theorem payload_sends_header (sdata : srt_stream_data) (tr : Transport) (c : srt_client) :
    payload_sends (client_header sdata tr c) = 0 := by
  rcases client_header_cases sdata tr c with h | ⟨_, _, h⟩ <;> rw [h] <;> rfl

theorem payload_sends_accept (pending : List SRTSOCKET) (sdata : srt_stream_data) :
    payload_sends (srt_stream_accept sdata pending).2 = 0 := by
  unfold payload_sends
  rw [List.length_eq_zero, List.filter_eq_nil_iff]
  intro e he
  have := (srt_stream_accept_events _ _ e he).1
  cases e <;> simp_all [is_send, is_payload_send]

/-- The visit of one client issues at most `⌈len / payload_size⌉` payload sends. -/
theorem send_client_count (sdata : srt_stream_data) (tr : Transport) (data : List Nat)
    (len fuel : Nat) (c : srt_client) (v : srt_client × ChunkExit × List Event)
    (h0 : 0 < sdata.payload_size) (h1 : sdata.payload_size < 2 ^ 31) (hlen : len < 2 ^ 64)
    (h : send_client sdata tr data len fuel c = Res.ok v) :
    (payload_sends v.2.2 : Int) ≤ ((len : Int) + sdata.payload_size - 1) / sdata.payload_size := by
  rw [Int.le_ediv_iff_mul_le h0]
  rw [send_client_eq] at h
  cases hsc : send_chunks sdata.payload_size c.sock data
      (fun k => tr.answer c.sock ((client_header sdata tr c).length + k)) fuel 0 0 len with
  | fault => simp [hsc] at h
  | nofuel => simp [hsc] at h
  | ok r =>
    obtain ⟨e1, evs1⟩ := r
    simp only [hsc, Res.ok.injEq] at h
    subst h
    simp only [payload_sends_append, payload_sends_header, zero_add]
    exact send_chunks_count h0 h1 _ _ _ _ _ _ _ _ _ hlen hsc

theorem forall₂_right {α β : Type} {R : α → β → Prop} {l1 : List α} {l2 : List β}
    (h : List.Forall₂ R l1 l2) : ∀ v ∈ l2, ∃ c ∈ l1, R c v := by
  induction h with
  | nil => intro v hv; cases hv
  | cons hr _ ih =>
    intro v hv
    rcases List.mem_cons.mp hv with rfl | hv
    · exact ⟨_, List.mem_cons_self _ _, hr⟩
    · obtain ⟨c, hc, hcv⟩ := ih v hv
      exact ⟨c, List.mem_cons_of_mem _ hc, hcv⟩

/-- C16 (as amended): for a payload size in `1 .. 2 ^ 31 - 1`, every registry, every list
of pending connections, every payload length below `2 ^ 64` and every pattern of send
answers, `srt_stream_send` returns once the fuel covers the payload length; its log is the
acceptor's calls, which hold no payload send, followed by one visit per client, and each
visit issues at most `⌈len / payload_size⌉` payload sends. -/
theorem srt_stream_send_terminates (fuel : Nat) (tr : Transport) (sdata : srt_stream_data)
    (data : List Nat) (len : Nat) (h0 : 0 < sdata.payload_size)
    (h1 : sdata.payload_size < 2 ^ 31) (hlen : len < 2 ^ 64) (hfuel : len ≤ fuel) :
    ∃ sdata1 ev, srt_stream_send fuel tr sdata data len = Res.ok (sdata1, ev) ∧
      (sdata.listen_socket = SRT_INVALID_SOCK → ev = []) ∧
      (sdata.listen_socket ≠ SRT_INVALID_SOCK →
        ∃ visits,
          List.Forall₂ (fun c v => send_client sdata tr data len fuel c = Res.ok v)
            (sdata.clients ++ (accepted tr.pending).map new_client) visits ∧
          ev = (srt_stream_accept sdata tr.pending).2 ++ logged visits ∧
          payload_sends (srt_stream_accept sdata tr.pending).2 = 0 ∧
          ∀ v ∈ visits, (payload_sends v.2.2 : Int) ≤
            ((len : Int) + sdata.payload_size - 1) / sdata.payload_size) := by
  obtain ⟨⟨sdata1, ev⟩, hr⟩ := srt_stream_send_total fuel tr sdata data len h0 h1 hfuel hlen
  refine ⟨sdata1, ev, hr, ?_, ?_⟩
  · intro hv
    rw [srt_stream_send_invalid _ _ _ _ _ hv] at hr
    cases hr
    rfl
  · intro hv
    obtain ⟨visits, w1, _, w3⟩ := srt_stream_send_visits _ _ _ _ _ _ _ hv hr
    refine ⟨visits, w1, w3, payload_sends_accept _ _, fun v hvm => ?_⟩
    obtain ⟨c, _, hc⟩ := forall₂_right w1 v hvm
    exact send_client_count sdata tr data len fuel c v h0 h1 hlen hc

/-- Witness of C16: the fan-out of six bytes with payload size 4 to the one client of
`demo_sdata_b` returns with fuel 6. -/
theorem srt_stream_send_terminates_witness :
    ((0 : Int) < demo_sdata_b.payload_size ∧ demo_sdata_b.payload_size < 2 ^ 31 ∧
      6 < 2 ^ 64 ∧ 6 ≤ 6) ∧
    ∃ sdata1 ev, srt_stream_send 6 demo_transport_b demo_sdata_b demo_payload 6 =
        Res.ok (sdata1, ev) ∧
      (demo_sdata_b.listen_socket = SRT_INVALID_SOCK → ev = []) ∧
      (demo_sdata_b.listen_socket ≠ SRT_INVALID_SOCK →
        ∃ visits,
          List.Forall₂
            (fun c v => send_client demo_sdata_b demo_transport_b demo_payload 6 6 c = Res.ok v)
            (demo_sdata_b.clients ++ (accepted demo_transport_b.pending).map new_client)
            visits ∧
          ev = (srt_stream_accept demo_sdata_b demo_transport_b.pending).2 ++ logged visits ∧
          payload_sends (srt_stream_accept demo_sdata_b demo_transport_b.pending).2 = 0 ∧
          ∀ v ∈ visits, (payload_sends v.2.2 : Int) ≤
            ((6 : Nat) + demo_sdata_b.payload_size - 1) / demo_sdata_b.payload_size) :=
  ⟨by decide, srt_stream_send_terminates 6 demo_transport_b demo_sdata_b demo_payload 6
    (by decide) (by decide) (by decide) (by decide)⟩

/-- Counterexample to C16 as stated: with the payload size 0 stored in the instance, one
registered client and a transport that answers every send without an error, no amount of
fuel lets `srt_stream_send` return for a payload of six bytes: each iteration of the chunk
loop sends zero bytes and leaves `remaining` as it was. -/
theorem srt_stream_send_spins :
    demo_sdata_zero.payload_size = 0 ∧
    (∀ s k, (demo_transport_b.answer s k).ret ≠ SRT_ERROR) ∧
    ∀ fuel, srt_stream_send fuel demo_transport_b demo_sdata_zero demo_payload 6 =
      Res.nofuel := by
  refine ⟨rfl, fun _ _ => (by decide : ({ ret := 4, serr := 0 } : SendAnswer).ret ≠ SRT_ERROR),
    fun fuel => ?_⟩
  have hp : demo_sdata_zero.payload_size = 0 := rfl
  have hc : send_client demo_sdata_zero demo_transport_b demo_payload 6 fuel
      { sock := 8, header_sent := true } = Res.nofuel := by
    have hsp := send_chunks_spin ({ sock := 8, header_sent := true } : srt_client).sock
      demo_payload
      (fun k => demo_transport_b.answer ({ sock := 8, header_sent := true } : srt_client).sock
        ((client_header demo_sdata_zero demo_transport_b
          { sock := 8, header_sent := true }).length + k))
      (fun _ => (by decide : ({ ret := 4, serr := 0 } : SendAnswer).ret ≠ SRT_ERROR))
      fuel 0 0 6 (by decide) (by decide)
    rw [send_client_eq, hp, hsp]
  have hl : send_loop demo_sdata_zero demo_transport_b demo_payload 6 fuel 1
      [{ sock := 8, header_sent := true }] 0 = Res.nofuel := by
    unfold send_loop
    simp [hc]
  unfold srt_stream_send
  rw [if_neg (by decide)]
  exact (by rw [hl] : (match send_loop demo_sdata_zero demo_transport_b demo_payload 6 fuel 1
      [{ sock := 8, header_sent := true }] 0 with
    | Res.ok (cl, evs) => Res.ok ({ demo_sdata_zero with clients := cl },
        [Event.accept 1 (-1)] ++ evs)
    | Res.fault => Res.fault
    | Res.nofuel => Res.nofuel) = Res.nofuel)

/-! ## Writes after the buffers are released -/

/-- A mono write on a PCM/WAV stream whose quantization buffer pointer is NULL while the
recorded capacity still admits the block stores through the NULL pointer. -/
theorem srt_stream_write_null (b : Build) (fuel : Nat) (tr : Transport)
    (s : srt_stream_data) (data : List ℚ) (len : Nat)
    (hf : s.format = SRT_STREAM_WAV ∨ s.format = SRT_STREAM_PCM) (hb : s.pcm_buffer = none)
    (h1 : 0 < len / 4) (h2 : len / 4 ≤ s.pcm_buffer_len) :
    srt_stream_write b fuel tr s data len = Res.fault := by
  unfold srt_stream_write
  rw [if_pos hf]
  simp only [gt_iff_lt, not_lt.mpr h2, if_false, quantize_block, hb]
  obtain ⟨n, hn⟩ : ∃ n, len / 4 = n + 1 := ⟨len / 4 - 1, by omega⟩
  rw [hn]
  unfold quantize_loop
  cases data[0]? <;> rfl

theorem srt_stream_shutdown_pcm (s : srt_stream_data) :
    (srt_stream_shutdown s).1.format = s.format ∧
    (srt_stream_shutdown s).1.pcm_buffer = none ∧
    (srt_stream_shutdown s).1.pcm_buffer_len = s.pcm_buffer_len := by
  unfold srt_stream_shutdown
  by_cases h : s.listen_socket = SRT_INVALID_SOCK
  · simp [h]
  · simp [h]

/-- C17 (the code at the failing input): `srt_stream_shutdown` releases the quantization
buffer but leaves `pcm_buffer_len` as it was, so on every PCM/WAV instance a later mono
write of at least one sample within the stale capacity stores through the NULL pointer;
so does the call sequence shutdown, write of 16 bytes on the mono WAV instance initialized
for 16-byte blocks, and so does a write of 16 bytes after an initialization that failed at
`srt_bind`.  The stereo write on the same released instance returns without a store. -/
theorem write_after_release_faults :
    (∀ (b : Build) (fuel : Nat) (tr : Transport) (s : srt_stream_data) (data : List ℚ)
      (len : Nat), (s.format = SRT_STREAM_WAV ∨ s.format = SRT_STREAM_PCM) →
      0 < len / 4 → len / 4 ≤ s.pcm_buffer_len →
      srt_stream_write b fuel tr (srt_stream_shutdown s).1 data len = Res.fault) ∧
    run_calls demo_build 8 demo_instance_wav
      [Call.shutdown, Call.write demo_transport_b demo_block 16] = Res.fault ∧
    ((srt_stream_init demo_build false demo_init_env_bind demo_config MM_MONO 16).1 = false ∧
      demo_instance_failed.pcm_buffer = none ∧ demo_instance_failed.pcm_buffer_len = 4 ∧
      srt_stream_write demo_build 8 demo_transport_b demo_instance_failed demo_block 16 =
        Res.fault) ∧
    srt_stream_write_stereo demo_build 8 demo_transport_b (srt_stream_shutdown demo_instance).1
      demo_left demo_right 8 = Res.ok ((srt_stream_shutdown demo_instance).1, []) := by
  refine ⟨fun b fuel tr s data len hf h1 h2 => ?_, ?_, ⟨rfl, rfl, rfl, ?_⟩, ?_⟩
  · obtain ⟨e1, e2, e3⟩ := srt_stream_shutdown_pcm s
    exact srt_stream_write_null b fuel tr _ data len (by rw [e1]; exact hf) e2 h1
      (by rw [e3]; exact h2)
  · have h := srt_stream_write_null demo_build 8 demo_transport_b
      (srt_stream_shutdown demo_instance_wav).1 demo_block 16 (Or.inl rfl) rfl (by decide)
      (by decide)
    have h2 : run_calls demo_build 8 (srt_stream_shutdown demo_instance_wav).1
        [Call.write demo_transport_b demo_block 16] = Res.fault := by
      unfold run_calls run_call
      simp only [h]
    unfold run_calls run_call
    simp only [h2]
  · exact srt_stream_write_null demo_build 8 demo_transport_b demo_instance_failed demo_block 16
      (Or.inr rfl) rfl (by decide) (by decide)
  · rfl

/-! ## Input indices of the resampler -/

/-- The tail of the PCM/WAV write paths when `resample_linear` leaves one of its arrays. -/
theorem send_pcm_fault (b : Build) (fuel : Nat) (tr : Transport) (s : srt_stream_data)
    (q rb : List Int) (count : Nat) (hq : s.pcm_buffer = some q)
    (hr : s.resample_buffer = some rb)
    (h : resample_linear q count rb b.WAVE_RATE s.sample_rate = none) :
    send_pcm b fuel tr s count = Res.fault := by
  unfold send_pcm
  simp only [hr, hq, Option.getD_some, h]

/-- When the count the code computes exceeds the length of the output array,
`resample_linear` leaves the array. -/
theorem resample_linear_overrun (inp out : List Int) (in_count : Nat) (in_rate out_rate : Int)
    (h : out.length < (in_count * to_u64 out_rate % 2 ^ 64) / to_u64 in_rate) :
    resample_linear inp in_count out in_rate out_rate = none := by
  unfold resample_linear
  simp only []
  rw [resample_loop_overrun inp in_count in_rate out_rate _ 0 out (by omega) (by omega)]
  rfl

/-- C19 (as amended): on an instance produced by a successful `srt_stream_init` for a
PCM/WAV stream with `sample_rate ≠ WAVE_RATE`, `0 < sample_rate`, `0 < WAVE_RATE` and
`pcm_buffer_len * sample_rate + 1 < 2 ^ 64`: the resample buffer holds
`resample_buffer_len = ⌊pcm_buffer_len * sample_rate / WAVE_RATE⌋ + 1` slots; for every
sample count within `pcm_buffer_len` the number of samples `resample_linear` writes,
`⌊count * sample_rate / WAVE_RATE⌋`, is below `resample_buffer_len`; and both the mono and
the stereo write that pass their capacity checks run `resample_linear` to its end inside
the buffer and hand its output to the fan-out. -/
theorem resample_buffer_suffices (b : Build) (g : Bool) (env : InitEnv)
    (cfg : srt_stream_data) (mode : mix_modes) (maxlen : Nat) (sdata : srt_stream_data)
    (g1 : Bool) (ev0 : List Event)
    (hinit : srt_stream_init b g env cfg mode maxlen = (true, sdata, g1, ev0))
    (hf : sdata.format = SRT_STREAM_PCM ∨ sdata.format = SRT_STREAM_WAV)
    (hne : sdata.sample_rate ≠ b.WAVE_RATE) (hs : 0 < sdata.sample_rate)
    (hw : 0 < b.WAVE_RATE) (hw2 : b.WAVE_RATE < 2 ^ 31)
    (hno : (sdata.pcm_buffer_len : Int) * sdata.sample_rate + 1 < 2 ^ 64) :
    (sdata.resample_buffer_len : Int) =
      (sdata.pcm_buffer_len : Int) * sdata.sample_rate / b.WAVE_RATE + 1 ∧
    capacity sdata.resample_buffer = some sdata.resample_buffer_len ∧
    (∀ count : Nat, count ≤ sdata.pcm_buffer_len →
      ((count : Int) * sdata.sample_rate / b.WAVE_RATE).toNat < sdata.resample_buffer_len) ∧
    (∀ (fuel : Nat) (tr : Transport) (data : List ℚ) (len : Nat),
      len / 4 ≤ sdata.pcm_buffer_len → len / 4 ≤ data.length →
      ∃ q rb r, sdata.resample_buffer = some rb ∧
        resample_linear q (len / 4) rb b.WAVE_RATE sdata.sample_rate =
          some ((((len / 4 : Nat) : Int) * sdata.sample_rate / b.WAVE_RATE).toNat, r) ∧
        r.length = sdata.resample_buffer_len ∧
        srt_stream_write b fuel tr sdata data len =
          srt_stream_send fuel tr
            { sdata with pcm_buffer := some q, resample_buffer := some r } (int16_bytes r)
            ((((len / 4 : Nat) : Int) * sdata.sample_rate / b.WAVE_RATE).toNat * 2)) ∧
    (∀ (fuel : Nat) (tr : Transport) (left right : List ℚ) (len : Nat),
      sdata.mode = MM_STEREO → len / 4 * 2 ≤ sdata.stereo_buffer_len →
      len / 4 * 2 ≤ sdata.pcm_buffer_len → len / 4 ≤ left.length → len / 4 ≤ right.length →
      ∃ sb q rb r, sdata.resample_buffer = some rb ∧
        resample_linear q (len / 4 * 2) rb b.WAVE_RATE sdata.sample_rate =
          some ((((len / 4 * 2 : Nat) : Int) * sdata.sample_rate / b.WAVE_RATE).toNat, r) ∧
        r.length = sdata.resample_buffer_len ∧
        srt_stream_write_stereo b fuel tr sdata left right len =
          srt_stream_send fuel tr
            { sdata with stereo_buffer := some sb, pcm_buffer := some q,
                         resample_buffer := some r } (int16_bytes r)
            ((((len / 4 * 2 : Nat) : Int) * sdata.sample_rate / b.WAVE_RATE).toNat * 2)) := by
  obtain ⟨⟨hst, hp, hr, hrl⟩, _, _, _, _, _⟩ := srt_stream_init_ready _ _ _ _ _ _ _ _ _ hinit
  have hf2 : sdata.format = SRT_STREAM_WAV ∨ sdata.format = SRT_STREAM_PCM := hf.symm
  have hc : sdata.sample_rate ≠ b.WAVE_RATE ∧
      (sdata.format = SRT_STREAM_WAV ∨ sdata.format = SRT_STREAM_PCM) := ⟨hne, hf2⟩
  rw [if_pos hf2] at hp
  rw [if_pos hc] at hr hrl
  obtain ⟨buf, hbuf, hbl⟩ := capacity_some hp
  obtain ⟨rb, hrb, hrbl⟩ := capacity_some hr
  have hw3 : b.WAVE_RATE < 2 ^ 64 := by omega
  have hcap := resample_capacity_exact sdata.pcm_buffer_len sdata.sample_rate b.WAVE_RATE hw hw3
    (le_of_lt hs) hno
  rw [← hrl] at hcap
  refine ⟨hcap, hr, ?_, ?_, ?_⟩
  · intro count hcount
    have hci : (count : Int) ≤ (sdata.pcm_buffer_len : Int) := by exact_mod_cast hcount
    have hmul : (count : Int) * sdata.sample_rate ≤
        (sdata.pcm_buffer_len : Int) * sdata.sample_rate :=
      mul_le_mul_of_nonneg_right hci (le_of_lt hs)
    have hdiv := Int.ediv_le_ediv hw hmul
    have hnn : 0 ≤ (count : Int) * sdata.sample_rate / b.WAVE_RATE :=
      Int.ediv_nonneg (by positivity) (le_of_lt hw)
    omega
  · intro fuel tr data len hlen hdata
    obtain ⟨q, hq1, _, _, hq4⟩ := srt_stream_write_quantizes b fuel tr sdata data len buf hf2
      hbuf hlen (by omega) hdata
    obtain ⟨_, r, h1, h2, _, h4⟩ := send_pcm_resamples b fuel tr
      { sdata with pcm_buffer := some q } q rb (len / 4) rfl hrb hlen (by omega)
      (by rw [hrbl]; exact hrl) hw hw2 hs hno
    exact ⟨q, rb, r, hrb, h1, by rw [h2, hrbl], by rw [hq4]; exact h4⟩
  · intro fuel tr left right len hmode hscap hpcap hl hr2
    have hsc : sdata.format ≠ SRT_STREAM_MP3 ∧ sdata.mode = MM_STEREO := by
      refine ⟨?_, hmode⟩
      rcases hf with hf | hf <;> rw [hf] <;> decide
    rw [if_pos hsc] at hst
    obtain ⟨sb, hsb, hsbl⟩ := capacity_some hst
    obtain ⟨sb1, q, hq1, _, hq3⟩ := srt_stream_write_stereo_quantizes b fuel tr sdata left right
      len sb buf hf2 hsb hscap (by omega) hbuf hpcap (by omega) hl hr2
    obtain ⟨_, r, h1, h2, _, h4⟩ := send_pcm_resamples b fuel tr
      { sdata with stereo_buffer := some sb1, pcm_buffer := some q } q rb (len / 4 * 2) rfl hrb
      hpcap (by omega) (by rw [hrbl]; exact hrl) hw hw2 hs hno
    exact ⟨sb1, q, rb, r, hrb, h1, by rw [h2, hrbl], by rw [hq3]; exact h4⟩


/-- Witness of C19: the stereo PCM instance at 16000 Hz over 8000 Hz, initialized for
16-byte blocks, has eight quantization slots and 17 resample slots; a mono write of four
samples and a stereo write of two samples per channel both resample inside the buffer. -/
theorem resample_buffer_suffices_witness :
    ((demo_instance_16k.format = SRT_STREAM_PCM ∨ demo_instance_16k.format = SRT_STREAM_WAV) ∧
      demo_instance_16k.sample_rate ≠ demo_build.WAVE_RATE ∧
      0 < demo_instance_16k.sample_rate ∧ 0 < demo_build.WAVE_RATE ∧
      demo_build.WAVE_RATE < 2 ^ 31 ∧
      (demo_instance_16k.pcm_buffer_len : Int) * demo_instance_16k.sample_rate + 1 < 2 ^ 64) ∧
    (demo_instance_16k.resample_buffer_len : Int) =
      (demo_instance_16k.pcm_buffer_len : Int) * demo_instance_16k.sample_rate /
        demo_build.WAVE_RATE + 1 ∧
    capacity demo_instance_16k.resample_buffer = some demo_instance_16k.resample_buffer_len ∧
    (∀ count : Nat, count ≤ demo_instance_16k.pcm_buffer_len →
      ((count : Int) * demo_instance_16k.sample_rate / demo_build.WAVE_RATE).toNat <
        demo_instance_16k.resample_buffer_len) ∧
    (∃ q rb r, demo_instance_16k.resample_buffer = some rb ∧
      resample_linear q (16 / 4) rb demo_build.WAVE_RATE demo_instance_16k.sample_rate =
        some ((((16 / 4 : Nat) : Int) * demo_instance_16k.sample_rate /
          demo_build.WAVE_RATE).toNat, r) ∧
      r.length = demo_instance_16k.resample_buffer_len ∧
      srt_stream_write demo_build 8 demo_transport_b demo_instance_16k demo_block 16 =
        srt_stream_send 8 demo_transport_b
          { demo_instance_16k with pcm_buffer := some q, resample_buffer := some r }
          (int16_bytes r)
          ((((16 / 4 : Nat) : Int) * demo_instance_16k.sample_rate /
            demo_build.WAVE_RATE).toNat * 2)) ∧
    (∃ sb q rb r, demo_instance_16k.resample_buffer = some rb ∧
      resample_linear q (8 / 4 * 2) rb demo_build.WAVE_RATE demo_instance_16k.sample_rate =
        some ((((8 / 4 * 2 : Nat) : Int) * demo_instance_16k.sample_rate /
          demo_build.WAVE_RATE).toNat, r) ∧
      r.length = demo_instance_16k.resample_buffer_len ∧
      srt_stream_write_stereo demo_build 8 demo_transport_b demo_instance_16k demo_left
          demo_right 8 =
        srt_stream_send 8 demo_transport_b
          { demo_instance_16k with stereo_buffer := some sb, pcm_buffer := some q,
                                   resample_buffer := some r } (int16_bytes r)
          ((((8 / 4 * 2 : Nat) : Int) * demo_instance_16k.sample_rate /
            demo_build.WAVE_RATE).toNat * 2)) := by
  have t := resample_buffer_suffices demo_build false demo_init_env demo_config_16k MM_STEREO
    16 demo_instance_16k true _ demo_init_16k (Or.inl rfl) (by decide) (by decide) (by decide)
    (by decide) (by decide)
  exact ⟨⟨Or.inl rfl, by decide, by decide, by decide, by decide, by decide⟩, t.1, t.2.1,
    t.2.2.1, t.2.2.2.1 8 demo_transport_b demo_block 16 (by decide) (by decide),
    t.2.2.2.2 8 demo_transport_b demo_left demo_right 8 rfl (by decide) (by decide)
      (by decide) (by decide)⟩

/-- Counterexample to C19 as stated: `demo_instance_fast` comes from a successful
`srt_stream_init` of a PCM stream with `sample_rate = 2 ^ 30 ≠ WAVE_RATE = 8000` for blocks
of `2 ^ 36` bytes; the product `2 ^ 34 * 2 ^ 30` wraps, so the resample buffer has one
slot.  A mono write of 64 bytes passes the capacity check (16 ≤ `2 ^ 34`),
`resample_linear` is to write `⌊16 * 2 ^ 30 / 8000⌋ = 2147483` samples and leaves the
buffer. -/
theorem resample_buffer_overrun :
    (srt_stream_init demo_build false demo_init_env demo_config_fast MM_MONO 68719476736).1 =
      true ∧
    (demo_instance_fast.format = SRT_STREAM_PCM ∧
      demo_instance_fast.sample_rate ≠ demo_build.WAVE_RATE ∧
      demo_instance_fast.pcm_buffer_len = 17179869184 ∧
      demo_instance_fast.resample_buffer_len = 1 ∧
      capacity demo_instance_fast.resample_buffer = some 1) ∧
    64 / 4 ≤ demo_instance_fast.pcm_buffer_len ∧
    (((64 / 4 : Nat) : Int) * demo_instance_fast.sample_rate / demo_build.WAVE_RATE).toNat =
      2147483 ∧
    srt_stream_write demo_build 1 demo_transport_b demo_instance_fast demo_block16 64 =
      Res.fault := by
  obtain ⟨⟨_, hp, hr, _⟩, hf, hs, hl, hrl⟩ := demo_instance_fast_fields
  have hf2 : demo_instance_fast.format = SRT_STREAM_WAV ∨
      demo_instance_fast.format = SRT_STREAM_PCM := Or.inr hf
  have hne : demo_instance_fast.sample_rate ≠ demo_build.WAVE_RATE := by rw [hs]; decide
  rw [if_pos hf2] at hp
  rw [if_pos ⟨hne, hf2⟩, hrl] at hr
  obtain ⟨buf, hbuf, hbl⟩ := capacity_some hp
  obtain ⟨rb, hrb, hrbl⟩ := capacity_some hr
  have hcap : 64 / 4 ≤ demo_instance_fast.pcm_buffer_len := by rw [hl]; decide
  have hinit : (srt_stream_init demo_build false demo_init_env demo_config_fast MM_MONO
      68719476736).1 = true := by rw [demo_init_fast]
  refine ⟨hinit, ⟨hf, hne, hl, hrl, hr⟩, hcap, by rw [hs]; decide, ?_⟩
  obtain ⟨q, hq⟩ := srt_stream_write_prefix demo_build demo_instance_fast demo_block16 64
    buf hf2 hbuf hcap (by omega) (by decide)
  rw [hq]
  have hover : resample_linear q (64 / 4) rb demo_build.WAVE_RATE
      demo_instance_fast.sample_rate = none := by
    rw [hs]
    exact resample_linear_overrun q rb _ _ _ (by rw [hrbl]; decide)
  exact send_pcm_fault demo_build 1 demo_transport_b _ q rb _ rfl hrb hover

/-! ## Resampling of stereo streams -/

/-- C20 (the code at the failing input): on the stereo WAV instance at 16000 Hz over a
native rate of 8000 Hz, whose header declares two channels, a stereo write of
`left = [1, 1]`, `right = [-1, -1]` sends the samples
`[32767, 0, -32767, 0, 32767, 0, -32767, -32767]`: `resample_linear` ran over the
interleaved buffer as one channel, so odd outputs average a left and a right sample and
even outputs alternate between the channels.  Resampling each channel on its own and
interleaving gives `[32767, -32767, 32767, -32767, 32767, -32767, 32767, -32767]`.  With
the same left input and a silent right input the even-indexed output sample 2 changes from
`-32767` to `0`. -/
theorem stereo_resample_mixes_channels :
    payload_of (srt_stream_write_stereo demo_build 16 demo_transport demo_instance_wav16k
        demo_left_hi demo_right_lo 8) =
      some (int16_bytes [32767, 0, -32767, 0, 32767, 0, -32767, -32767]) ∧
    resample_channels demo_build.WAVE_RATE demo_instance_wav16k.sample_rate demo_left_hi
        demo_right_lo 2 =
      some [32767, -32767, 32767, -32767, 32767, -32767, 32767, -32767] ∧
    payload_of (srt_stream_write_stereo demo_build 16 demo_transport demo_instance_wav16k
        demo_left_hi demo_right_zero 8) =
      some (int16_bytes [32767, 16383, 0, 16383, 32767, 16383, 0, 0]) ∧
    (demo_instance_wav16k.format = SRT_STREAM_WAV ∧ demo_instance_wav16k.mode = MM_STEREO ∧
      demo_instance_wav16k.sample_rate ≠ demo_build.WAVE_RATE ∧
      ((wav_header demo_instance_wav16k).drop 22).take 2 = [2, 0]) := by
  refine ⟨by decide!, by decide!, by decide!, by decide!⟩

/-! ## Would-block as libsrt reports it (C5, C11) -/

/-- An error whose system `errno` is not 6001 is read by lines 66-72 as a reason to
evict, whatever its SRT code. -/
theorem failed_send_evicting (e : SrtError) (he : e.sys_errno ≠ SRT_EASYNCSND) :
    evicting_answer (failed_send e) = true := by
  simp [evicting_answer, failed_send, he]

/-- A fan-out of a non-empty payload over a registry of one client whose sends all fail
with an error of system `errno` other than 6001 closes the client's socket and leaves the
registry empty. -/
theorem send_single_failed (tr : Transport) (sd : srt_stream_data) (data : List Nat)
    (len : Nat) (c : srt_client) (e : SrtError)
    (hl : sd.listen_socket ≠ SRT_INVALID_SOCK) (hcl : sd.clients = [c])
    (hacc : accepted tr.pending = [])
    (hans : ∀ k, tr.answer c.sock k = failed_send e) (he : e.sys_errno ≠ SRT_EASYNCSND)
    (hpos : 0 < len) (hlen : len < 2 ^ 64)
    (h0 : 0 < sd.payload_size) (h1 : sd.payload_size < 2 ^ 31) :
    ∃ ev, srt_stream_send len tr sd data len = Res.ok ({ sd with clients := [] }, ev) ∧
      closes ev = [c.sock] := by
  obtain ⟨⟨s2, ev2⟩, hr⟩ := srt_stream_send_total len tr sd data len h0 h1 (le_refl _) hlen
  obtain ⟨visits, hv, h2, h3⟩ := srt_stream_send_visits _ _ _ _ _ _ _ hl hr
  have hcl5 : closes ev2 = closes (logged visits) := by
    rw [h3]
    have : closes ((srt_stream_accept sd tr.pending).2 ++ logged visits) =
        closes (srt_stream_accept sd tr.pending).2 ++ closes (logged visits) := by
      simp [closes]
    rw [this, closes_accept]
    rfl
  rw [hacc, hcl] at hv
  simp only [List.map_nil, List.append_nil] at hv
  obtain ⟨va, _, ha, hnil, rfl⟩ := List.forall₂_cons_left_iff.mp hv
  obtain rfl := List.forall₂_nil_left_iff.mp hnil
  obtain ⟨a1, ea, la⟩ := va
  have hea := send_client_all_evicting _ _ _ _ _ _ _ _ _
    (fun k => by rw [hans k]; exact failed_send_evicting e he) hpos ha
  obtain ⟨_, _, hca, _⟩ := send_client_log _ _ _ _ _ _ _ _ _ ha
  refine ⟨ev2, ?_, ?_⟩
  · rw [hr, h2]
    simp [kept, hea]
  · rw [hcl5]
    have : closes (logged [(a1, ea, la)]) = closes la := by
      simp [closes, logged]
    rw [this, hca]
    simp [hea]

theorem demo_send_mixed :
    srt_stream_send 6 demo_transport_mixed demo_sdata demo_payload 6 =
      Res.ok ({ demo_sdata with clients := [{ sock := 9, header_sent := true }] },
        demo_log_mixed) := by
  decide

theorem demo_send_full :
    srt_stream_send 6 demo_transport_full demo_sdata_b demo_payload 6 =
      Res.ok ({ demo_sdata_b with clients := [] }, demo_log_full) := by
  decide

/-- C5 (defect of the code): a client whose payload send fails with would-block is removed
and closed like one that failed fatally.  `srt_getlasterror(&serr)` stores the system
`errno` in `serr` and returns the SRT code, which line 67 discards; line 68 compares
`serr` with `SRT_EASYNCSND`.  So with two registered clients, the first always failing
with an error that is would-block by its SRT code (system `errno` not 6001, as libsrt
reports it), the second accepting, a non-empty fan-out evicts the first and closes its
socket, where the registry of the claim keeps both.  In the fan-out of six bytes to
clients 7 (connection lost) and 8 (send buffer full) with client 9 pending, the registry
becomes `[9]` and sockets 7 and 8 are closed; the claim's registry is `[8, 9]`. -/
theorem would_block_client_evicted :
    (∀ (tr : Transport) (sd : srt_stream_data) (data : List Nat) (len : Nat)
      (a b : srt_client) (e : SrtError),
      sd.listen_socket ≠ SRT_INVALID_SOCK → sd.clients = [a, b] →
      accepted tr.pending = [] →
      would_block e = true → e.sys_errno ≠ SRT_EASYNCSND →
      (∀ k, tr.answer a.sock k = failed_send e) →
      (∀ k, (tr.answer b.sock k).ret ≠ SRT_ERROR) →
      0 < len → len < 2 ^ 64 → 0 < sd.payload_size → sd.payload_size < 2 ^ 31 →
      fatal_error e = false ∧
      spec_registry (fun c => if c = a then [e] else []) [a, b] = [a, b] ∧
      ∃ ev, srt_stream_send len tr sd data len =
          Res.ok ({ sd with clients := [mark_header sd.format b] }, ev) ∧
        closes ev = [a.sock]) ∧
    would_block would_block_error = true ∧
    fatal_error would_block_error = false ∧
    fatal_error conn_lost_error = true ∧
    demo_transport_mixed.answer 7 0 = failed_send conn_lost_error ∧
    demo_transport_mixed.answer 8 0 = failed_send would_block_error ∧
    srt_stream_send 6 demo_transport_mixed demo_sdata demo_payload 6 =
      Res.ok ({ demo_sdata with clients := [{ sock := 9, header_sent := true }] },
        demo_log_mixed) ∧
    closes demo_log_mixed = [7, 8] ∧
    sends_to 8 demo_log_mixed =
      [Event.send SendSite.payload 8 [1, 2, 3, 4] 4 (failed_send would_block_error)] ∧
    spec_registry
      (fun c => if c.sock = 7 then [conn_lost_error]
        else if c.sock = 8 then [would_block_error] else [])
      (demo_sdata.clients ++ (accepted demo_transport_mixed.pending).map new_client) =
      [{ sock := 8, header_sent := true }, { sock := 9, header_sent := false }] := by
  refine ⟨?_, by decide, by decide, by decide, rfl, rfl, demo_send_mixed, by decide, by decide,
    by decide⟩
  intro tr sd data len a b e hl hcl hacc hwb he hans hok hpos hlen h0 h1
  have hnf : fatal_error e = false := by
    simp only [would_block, decide_eq_true_eq] at hwb
    simp [fatal_error, hwb]
  refine ⟨hnf, ?_, ?_⟩
  · simp [spec_registry, hnf]
  · exact (srt_stream_send_registry 6 demo_transport demo_sdata demo_after demo_payload 6
      demo_log (by decide) demo_send).2.2 tr sd data len a b hl (Or.inl hcl) hacc
      (fun k => by rw [hans k]; exact failed_send_evicting e he) hok hpos hlen h0 h1

/-- C11 (defect of the code): a payload send that fails with would-block is not survived
by the client.  libsrt reports would-block as SRT code `SRT_EASYNCSND` with system
`errno` 0; line 67 reads the `errno` into `serr`, so the test of line 68 fails, the
`break` of line 69 is not reached, and lines 71-72 close the socket and erase the client.
With one registered client whose sends all fail with would-block, a non-empty fan-out
leaves the registry empty and closes the socket.  In the fan-out of six bytes to client 8
the log is one send of `[1, 2, 3, 4]`, answered would-block, followed by `srt_close(8)`;
the next fan-out sends nothing to socket 8. -/
theorem would_block_closes_client :
    would_block would_block_error = true ∧
    breaking_answer (failed_send would_block_error) = false ∧
    (∀ (tr : Transport) (sd : srt_stream_data) (data : List Nat) (len : Nat) (c : srt_client),
      sd.listen_socket ≠ SRT_INVALID_SOCK → sd.clients = [c] → accepted tr.pending = [] →
      (∀ k, tr.answer c.sock k = failed_send would_block_error) →
      0 < len → len < 2 ^ 64 → 0 < sd.payload_size → sd.payload_size < 2 ^ 31 →
      ∃ ev, srt_stream_send len tr sd data len = Res.ok ({ sd with clients := [] }, ev) ∧
        closes ev = [c.sock]) ∧
    srt_stream_send 6 demo_transport_full demo_sdata_b demo_payload 6 =
      Res.ok ({ demo_sdata_b with clients := [] }, demo_log_full) ∧
    demo_log_full =
      [Event.accept 1 (-1),
       Event.send SendSite.payload 8 [1, 2, 3, 4] 4 { ret := SRT_ERROR, serr := 0 },
       Event.close 8] ∧
    (∃ ev, srt_stream_send 6 demo_transport_b { demo_sdata_b with clients := [] }
        demo_payload 6 = Res.ok ({ demo_sdata_b with clients := [] }, ev) ∧
      sends_to 8 ev = []) := by
  refine ⟨by decide, by decide, ?_, demo_send_full, by decide,
    ⟨[Event.accept 1 (-1)], by decide, by decide⟩⟩
  intro tr sd data len c hl hcl hacc hans hpos hlen h0 h1
  exact send_single_failed tr sd data len c would_block_error hl hcl hacc hans (by decide)
    hpos hlen h0 h1

/-! ## Doubling in `double` arithmetic (C2) -/

theorem fl_zero (p : Nat) : fl p 0 = 0 := by
  simp [fl]

theorem fl_natCast (p : Nat) (m : Nat) (hm : m < 2 ^ p) : fl p (m : ℚ) = (m : ℚ) := by
  have := fl_intCast p (m : Int) (by rw [abs_of_nonneg (by positivity)]; exact_mod_cast hm)
  simpa using this

/-- When `out_rate = 2 * in_rate` and `i * in_rate < 2 ^ 53`, the position of output sample
`i` is computed without rounding. -/
theorem pos_f64_exact (i : Nat) (r : Int) (hr : 0 < r) (hr2 : 2 * r < 2 ^ 31)
    (hi : (i : Int) * r < 2 ^ 53) :
    pos_f64 i r (2 * r) = (i : ℚ) * (r : ℚ) / ((2 * r : Int) : ℚ) := by
  have hrq : (r : ℚ) ≠ 0 := by exact_mod_cast (ne_of_gt hr)
  have hi0 : (0 : Int) ≤ (i : Int) := Int.natCast_nonneg i
  have hib : (i : Int) < 2 ^ 53 := by nlinarith
  have h1 : fl 53 (i : ℚ) = (i : ℚ) := fl_natCast 53 i (by exact_mod_cast hib)
  have h2 : fl 53 (r : ℚ) = (r : ℚ) := fl_intCast 53 r (by rw [abs_of_pos hr]; omega)
  have h3 : fl 53 ((2 * r : Int) : ℚ) = ((2 * r : Int) : ℚ) :=
    fl_intCast 53 (2 * r) (by rw [abs_of_pos (by omega)]; omega)
  have h4 : fl 53 ((i : ℚ) * (r : ℚ)) = (i : ℚ) * (r : ℚ) := by
    have := fl_intCast 53 ((i : Int) * r) (by rw [abs_of_nonneg (by positivity)]; exact hi)
    simpa using this
  have h5 : (i : ℚ) * (r : ℚ) / ((2 * r : Int) : ℚ) = ((i : Int) : ℚ) / 2 := by
    push_cast; field_simp; ring
  unfold pos_f64
  rw [h1, h2, h3, h4, h5]
  exact fl_half 53 (i : Int) (by rw [abs_of_nonneg hi0]; exact hib)

/-- The exact position of output sample `i = 2 q + m`, `m < 2`, at doubled rate, and its
integer part. -/
theorem pos_double (i q m : Nat) (r : Int) (hr : 0 < r) (hq : i = 2 * q + m) (hm : m < 2) :
    (i : ℚ) * (r : ℚ) / ((2 * r : Int) : ℚ) = (q : ℚ) + (m : ℚ) / 2 ∧
    (trunc ((i : ℚ) * (r : ℚ) / ((2 * r : Int) : ℚ))).toNat = q := by
  have hrq : (r : ℚ) ≠ 0 := by exact_mod_cast (ne_of_gt hr)
  have h5 : (i : ℚ) * (r : ℚ) / ((2 * r : Int) : ℚ) = (q : ℚ) + (m : ℚ) / 2 := by
    rw [hq]; push_cast; field_simp; ring
  refine ⟨h5, ?_⟩
  rw [h5]
  have hmq : (m : ℚ) < 2 := by exact_mod_cast hm
  have hm0 : (0 : ℚ) ≤ (m : ℚ) / 2 := by positivity
  have hpos : (0 : ℚ) ≤ (q : ℚ) + (m : ℚ) / 2 := by positivity
  rw [trunc_of_nonneg hpos]
  have hfl : ⌊(q : ℚ) + (m : ℚ) / 2⌋ = (q : Int) := by
    rw [Int.floor_eq_iff]
    constructor
    · rw [Int.cast_natCast]; linarith
    · rw [Int.cast_natCast]; linarith
  rw [hfl]
  simp

/-- The fraction is `0` or `1 / 2` and is computed without rounding. -/
theorem frac_f64_exact (i : Nat) (r : Int) (hr : 0 < r) (hi : i < 2 ^ 53) :
    fl 53 ((i : ℚ) * (r : ℚ) / ((2 * r : Int) : ℚ) -
        fl 53 (((trunc ((i : ℚ) * (r : ℚ) / ((2 * r : Int) : ℚ))).toNat : Nat) : ℚ)) =
      (i : ℚ) * (r : ℚ) / ((2 * r : Int) : ℚ) -
        (((trunc ((i : ℚ) * (r : ℚ) / ((2 * r : Int) : ℚ))).toNat : Nat) : ℚ) ∧
    ((i : ℚ) * (r : ℚ) / ((2 * r : Int) : ℚ) -
        (((trunc ((i : ℚ) * (r : ℚ) / ((2 * r : Int) : ℚ))).toNat : Nat) : ℚ) = 0 ∨
     (i : ℚ) * (r : ℚ) / ((2 * r : Int) : ℚ) -
        (((trunc ((i : ℚ) * (r : ℚ) / ((2 * r : Int) : ℚ))).toNat : Nat) : ℚ) = 1 / 2) := by
  have hm : i % 2 < 2 := Nat.mod_lt _ (by decide)
  obtain ⟨h1, h2⟩ := pos_double i (i / 2) (i % 2) r hr (Nat.div_add_mod i 2).symm hm
  have hd : i / 2 < 2 ^ 53 := lt_of_le_of_lt (Nat.div_le_self _ _) hi
  rw [h2, h1, fl_natCast 53 (i / 2) hd]
  generalize i / 2 = q
  rcases Nat.mod_two_eq_zero_or_one i with h | h
  · rw [h]
    have e : (q : ℚ) + ((0 : Nat) : ℚ) / 2 - (q : ℚ) = 0 := by
      rw [Nat.cast_zero]; ring
    rw [e]
    exact ⟨fl_zero 53, Or.inl rfl⟩
  · rw [h]
    have e : (q : ℚ) + ((1 : Nat) : ℚ) / 2 - (q : ℚ) = ((1 : Int) : ℚ) / 2 := by
      rw [Nat.cast_one, Int.cast_one]; ring
    rw [e]
    refine ⟨fl_half 53 1 (by decide), Or.inr ?_⟩
    rw [Int.cast_one]

/-- With a fraction of `0` or `1 / 2` and 16-bit samples the interpolation is computed
without rounding. -/
theorem interp_f64_exact (a b : Int) (f : ℚ) (hf : f = 0 ∨ f = 1 / 2)
    (ha : -32768 ≤ a ∧ a ≤ 32767) (hb : -32768 ≤ b ∧ b ≤ 32767) :
    interp_f64 a b f = (a : ℚ) * (1 - f) + (b : ℚ) * f := by
  have h1 : fl 53 (a : ℚ) = (a : ℚ) := fl_intCast 53 a (by rw [abs_lt]; omega)
  have h2 : fl 53 (b : ℚ) = (b : ℚ) := fl_intCast 53 b (by rw [abs_lt]; omega)
  have hone : fl 53 (1 : ℚ) = 1 := by
    have := fl_intCast 53 1 (by decide)
    simpa using this
  unfold interp_f64
  rcases hf with rfl | rfl
  · simp only [sub_zero, mul_zero, mul_one, add_zero, fl_zero, hone, h1, h2]
  · have hh : fl 53 ((1 : ℚ) - 1 / 2) = 1 / 2 := by
      have := fl_half 53 1 (by decide)
      norm_num at this ⊢
      exact this
    have ha2 : fl 53 ((a : ℚ) * (1 / 2)) = (a : ℚ) / 2 := by
      rw [mul_one_div]; exact fl_half 53 a (by rw [abs_lt]; omega)
    have hb2 : fl 53 ((b : ℚ) * (1 / 2)) = (b : ℚ) / 2 := by
      rw [mul_one_div]; exact fl_half 53 b (by rw [abs_lt]; omega)
    have hs : fl 53 ((a : ℚ) / 2 + (b : ℚ) / 2) = (a : ℚ) / 2 + (b : ℚ) / 2 := by
      have := fl_half 53 (a + b) (by rw [abs_lt]; omega)
      push_cast at this
      rw [add_div] at this
      exact this
    rw [h1, h2, hh, ha2, hb2, hs]
    ring

/-- On the domain where no `double` operation rounds, the loop in `double` arithmetic is
the loop in exact arithmetic: rates `r` and `2 r`, 16-bit samples, and every index `i`
with `i * r < 2 ^ 53`. -/
theorem resample_loop_f64_exact (inp : List Int) (in_count : Nat) (r : Int) (hr : 0 < r)
    (hr2 : 2 * r < 2 ^ 31) (hs : ∀ a ∈ inp, -32768 ≤ a ∧ a ≤ 32767) :
    ∀ (n i : Nat) (out : List Int), ((i + n : Nat) : Int) * r ≤ 2 ^ 53 →
      resample_loop_f64 inp in_count r (2 * r) n i out =
        resample_loop inp in_count r (2 * r) n i out := by
  intro n
  induction n with
  | zero => intro i out _; rfl
  | succ n ih =>
    intro i out hb
    have hi : (i : Int) * r < 2 ^ 53 := by
      have : ((i + (n + 1) : Nat) : Int) = (i : Int) + (n : Int) + 1 := by push_cast; ring
      rw [this] at hb
      have hn0 : (0 : Int) ≤ (n : Int) := Int.natCast_nonneg n
      nlinarith
    have hi2 : i < 2 ^ 53 := by
      have hi0 : (0 : Int) ≤ (i : Int) := Int.natCast_nonneg i
      have : (i : Int) < 2 ^ 53 := by nlinarith
      exact_mod_cast this
    have hnext : ((i + 1 + n : Nat) : Int) * r ≤ 2 ^ 53 := by
      have : i + 1 + n = i + (n + 1) := by omega
      rw [this]; exact hb
    obtain ⟨hf1, hf2⟩ := frac_f64_exact i r hr hi2
    unfold resample_loop_f64 resample_loop
    simp only []
    rw [pos_f64_exact i r hr hr2 hi, hf1]
    split
    · cases ha : inp[(trunc ((i : ℚ) * (r : ℚ) / ((2 * r : Int) : ℚ))).toNat]? with
      | none => rfl
      | some a =>
        cases hbb : inp[(trunc ((i : ℚ) * (r : ℚ) / ((2 * r : Int) : ℚ))).toNat + 1]? with
        | none => rfl
        | some b =>
          simp only []
          rw [interp_f64_exact a b _ hf2 (hs a (List.getElem?_mem ha))
            (hs b (List.getElem?_mem hbb))]
          split
          · exact ih (i + 1) _ hnext
          · rfl
    · cases ha : inp[(trunc ((i : ℚ) * (r : ℚ) / ((2 * r : Int) : ℚ))).toNat]? with
      | none => rfl
      | some a =>
        simp only []
        split
        · exact ih (i + 1) _ hnext
        · rfl

theorem resample_linear_f64_exact (inp : List Int) (n : Nat) (out : List Int) (r : Int)
    (hr : 0 < r) (hr2 : 2 * r < 2 ^ 31) (hs : ∀ a ∈ inp, -32768 ≤ a ∧ a ≤ 32767)
    (hexact : 2 * (n : Int) * r ≤ 2 ^ 53) :
    resample_linear_f64 inp n out r (2 * r) = resample_linear inp n out r (2 * r) := by
  have hcount : (n * to_u64 (2 * r) % 2 ^ 64) / to_u64 r = 2 * n := by
    have h1 : (to_u64 (2 * r) : Int) = 2 * r := to_u64_of_range (by omega) (by omega)
    have h2 : (to_u64 r : Int) = r := to_u64_of_range (by omega) (by omega)
    have h3 : ((n * to_u64 (2 * r) : Nat) : Int) = 2 * (n : Int) * r := by
      push_cast; rw [h1]; ring
    have h4 : n * to_u64 (2 * r) < 2 ^ 64 := by
      have : ((n * to_u64 (2 * r) : Nat) : Int) < 2 ^ 64 := by rw [h3]; omega
      exact_mod_cast this
    rw [Nat.mod_eq_of_lt h4]
    have h5 : ((n * to_u64 (2 * r) / to_u64 r : Nat) : Int) = ((2 * n : Nat) : Int) := by
      push_cast
      rw [h1, h2, show (n : Int) * (2 * r) = (2 * (n : Int)) * r by ring]
      exact Int.mul_ediv_cancel _ (ne_of_gt hr)
    exact_mod_cast h5
  unfold resample_linear_f64 resample_linear
  simp only []
  rw [hcount, resample_loop_f64_exact inp n r hr hr2 hs (2 * n) 0 out
    (by push_cast; simpa using hexact)]

/-- With `in_count = 2 ^ 34`, `in_rate = 2 ^ 29` and `out_rate = 2 ^ 30` the 64-bit
product wraps to zero, in `double` arithmetic as in exact arithmetic. -/
theorem resample_linear_f64_wrap (inp out : List Int) :
    resample_linear_f64 inp (2 ^ 34) out (2 ^ 29) (2 * 2 ^ 29) = some (0, out) := by
  have h : ((2 : Nat) ^ 34 * to_u64 (2 * 2 ^ 29) % 2 ^ 64) / to_u64 (2 ^ 29) = 0 := by decide
  unfold resample_linear_f64
  simp only [h, resample_loop_f64, Option.map_some']

/-- The iteration of the loop for output sample `2 * 8388609` at rates `2 ^ 30 - 1` and
`2 ^ 31 - 2`: the product `(double)i * in_rate` rounds, and the samples `2` and `0` give
`1`. -/
theorem resample_loop_f64_rounds (inp out : List Int) (h1 : inp[8388609]? = some 2)
    (h2 : inp[8388610]? = some 0) (h3 : 16777218 < out.length) :
    resample_loop_f64 inp 8388611 (2 ^ 30 - 1) (2 * (2 ^ 30 - 1)) 1 16777218 out =
      some (out.set 16777218 1) := by
  have hp : pos_f64 16777218 (2 ^ 30 - 1) (2 * (2 ^ 30 - 1)) = 8388609 + 1 / 2 ^ 29 := by
    decide!
  have hi : (trunc ((8388609 : ℚ) + 1 / 2 ^ 29)).toNat = 8388609 := by decide!
  have hf : fl 53 ((8388609 : ℚ) + 1 / 2 ^ 29 - fl 53 ((8388609 : Nat) : ℚ)) = 1 / 2 ^ 29 := by
    decide!
  have hv : trunc (interp_f64 2 0 (1 / 2 ^ 29)) = 1 := by decide!
  have hc : 8388609 + 1 < 8388611 := by decide
  unfold resample_loop_f64
  simp only []
  rw [hp, hi, hf, if_pos hc, h1, h2]
  simp only []
  rw [if_pos h3, hv]
  rfl

/-- C2 (as amended): on 16-bit samples, when `2 * n * in_rate ≤ 2 ^ 53`, a non-empty input
of `n` samples resampled with `out_rate = 2 * in_rate` gives, in the `double` arithmetic
of the code, exactly `2 n` samples: `out[2j] = in[j]`,
`out[2j+1] = truncate((in[j] + in[j+1]) / 2)` for `j < n - 1`, and `out[2n-1] = in[n-1]`;
for rates 8000 and 16000 the input `[100, 200]` gives `[100, 150, 200, 200]`.  Under the
bound no `double` operation of the loop rounds. -/
theorem resample_linear_f64_double (inp : List Int) (n : Nat) (out : List Int) (in_rate : Int)
    (hin : 0 < in_rate) (hint : 2 * in_rate < 2 ^ 31) (hn : 0 < n)
    (hexact : 2 * (n : Int) * in_rate ≤ 2 ^ 53)
    (hs : ∀ a ∈ inp, -32768 ≤ a ∧ a ≤ 32767)
    (hlen : n ≤ inp.length) (hcap : 2 * n ≤ out.length) :
    (∃ out1, resample_linear_f64 inp n out in_rate (2 * in_rate) = some (2 * n, out1) ∧
      (∀ j, j < n → out1[2 * j]? = inp[j]?) ∧
      (∀ j, j + 1 < n → out1[2 * j + 1]? =
        some (trunc (((inp.getD j 0 + inp.getD (j + 1) 0 : Int) : ℚ) / 2))) ∧
      out1[2 * n - 1]? = inp[n - 1]?) ∧
    resample_linear_f64 [100, 200] 2 [0, 0, 0, 0] 8000 16000 =
      some (4, [100, 150, 200, 200]) := by
  refine ⟨?_, by with_unfolding_all decide⟩
  rw [resample_linear_f64_exact inp n out in_rate hin hint hs hexact]
  exact (resample_linear_double inp n out in_rate hin hint hn
    (by rw [show (n : Int) * (2 * in_rate) = 2 * (n : Int) * in_rate by ring]; omega)
    hlen hcap).1

/-- Witness of C2 (as amended): three samples doubled from 8000 to 16000. -/
theorem resample_linear_f64_double_witness :
    (∃ out1, resample_linear_f64 [10, 21, -30] 3 [0, 0, 0, 0, 0, 0] 8000 (2 * 8000) =
        some (2 * 3, out1) ∧
      (∀ j, j < 3 → out1[2 * j]? = [(10 : Int), 21, -30][j]?) ∧
      (∀ j, j + 1 < 3 → out1[2 * j + 1]? =
        some (trunc ((([(10 : Int), 21, -30].getD j 0 +
          [(10 : Int), 21, -30].getD (j + 1) 0 : Int) : ℚ) / 2))) ∧
      out1[2 * 3 - 1]? = [(10 : Int), 21, -30][3 - 1]?) ∧
    resample_linear_f64 [100, 200] 2 [0, 0, 0, 0] 8000 16000 =
      some (4, [100, 150, 200, 200]) :=
  resample_linear_f64_double [10, 21, -30] 3 [0, 0, 0, 0, 0, 0] 8000 (by decide) (by decide)
    (by decide) (by decide) (by decide) (by decide) (by decide)

/-- C2 (counterexample): an input of `n = 2 ^ 34` samples resampled from `2 ^ 29` to
`2 * 2 ^ 29` does not give `2 n` samples: the 64-bit product `n * out_rate` wraps, the code
returns `0` and leaves the output buffer as it was.  And without any wrap, at rates
`2 ^ 30 - 1` and `2 ^ 31 - 2` with `n = 8388611`, the product `(double)i * in_rate` of
output sample `i = 2 * 8388609` rounds: the position comes out above `8388609`, so the
sample is interpolated from `in[8388609]` and `in[8388610]` with a fraction of `2 ^ -29`
and, for the samples `2` and `0`, is `1` where the claim has `in[8388609] = 2`. -/
theorem resample_linear_f64_wraps :
    resample_linear_f64 (List.replicate (2 ^ 34) 5) (2 ^ 34) (List.replicate (2 ^ 35) 7)
        (2 ^ 29) (2 * 2 ^ 29) = some (0, List.replicate (2 ^ 35) 7) ∧
      (0 : Nat) ≠ 2 * 2 ^ 34 ∧ (0 : Int) < 2 ^ 29 ∧ (2 : Int) * 2 ^ 29 < 2 ^ 31 ∧
      (2 : Nat) ^ 34 ≤ (List.replicate (2 ^ 34) (5 : Int)).length ∧
      (8388611 : Int) * (2 * (2 ^ 30 - 1)) < 2 ^ 64 ∧
      (2 : Int) * (2 ^ 30 - 1) < 2 ^ 31 ∧
      8388609 + 1 < 8388611 ∧
      pos_f64 (2 * 8388609) (2 ^ 30 - 1) (2 * (2 ^ 30 - 1)) = 8388609 + 1 / 2 ^ 29 ∧
      (trunc (pos_f64 (2 * 8388609) (2 ^ 30 - 1) (2 * (2 ^ 30 - 1)))).toNat = 8388609 ∧
      fl 53 (pos_f64 (2 * 8388609) (2 ^ 30 - 1) (2 * (2 ^ 30 - 1)) -
        fl 53 ((8388609 : Nat) : ℚ)) = 1 / 2 ^ 29 ∧
      trunc (interp_f64 2 0 (1 / 2 ^ 29)) = 1 ∧
      (∀ inp out : List Int, inp[8388609]? = some 2 → inp[8388610]? = some 0 →
        16777218 < out.length →
        resample_loop_f64 inp 8388611 (2 ^ 30 - 1) (2 * (2 ^ 30 - 1)) 1 16777218 out =
          some (out.set 16777218 1)) :=
  ⟨resample_linear_f64_wrap _ _, by decide, by decide, by decide,
    by rw [List.length_replicate], by decide, by decide, by decide, by decide!, by decide!,
    by decide!, by decide!, resample_loop_f64_rounds⟩

end SrtStream
